import Mathlib

/-! # Soundwave: a shallow embedding of the WAV utility

The C program reads a WAV container from standard input with `getchar()`,
validates the 44-byte header field by field, and either reports, rewrites or
plays the file.  This development embeds the functions of `utils.h`,
`soundman.h` and `caudio.h` as pure functions with explicit state passing:

* standard input is a list of bytes; the unread suffix is threaded through
  every reader, and `getchar` at the end of the list returns `EOF = -1`
  without consuming anything;
* standard output is the list of bytes written, standard error the list of
  diagnostics emitted;
* machine integers are `Nat`/`Int` with explicit reduction modulo `2^16` or
  `2^32` where the C types wrap;
* `malloc` always succeeds; the contents of fresh or out-of-bounds memory are
  given by a parameter `mem : Nat → Byte`;
* a finite `double` is the rational number it denotes; the product of an
  integer and a `double` multiplier is the exact product rounded to the nearest
  `double`, ties to even, as IEEE 754 prescribes (`mulDouble`).
-/

namespace Soundwave

/-- One octet of the input or output stream. -/
abbrev Byte := Fin 256

/-- The constant `SIZE_OF_WAVE_HEADER` of `utils.h`. -/
def SIZE_OF_WAVE_HEADER : Nat := 36

/-- The value of `EOF` returned by `getchar`. -/
def EOF : Int := -1

/-- Conversion of an `int` to `char`, kept as the octet stored in memory
(`EOF` becomes `0xFF`). -/
def toChar (c : Int) : Byte := ⟨(c % 256).toNat, by omega⟩

/-- The C library call `getchar()` on the unread input `s`: the next byte as a
non-negative `int` and the remaining input, or `EOF` at the end of input. -/
def getchar (s : List Byte) : Int × List Byte :=
  match s with
  | [] => (EOF, [])
  | b :: t => ((b.val : Int), t)

/-! ## Diagnostics -/

/-- The messages the program prints on standard error. -/
inductive Diag where
  | riff
  | wave
  | fmt
  | fmtSize
  | waveType
  | monoStereo
  | byteRate
  | bitsPerSample
  | blockAlign
  | dataTag
  | insufficientData
  | badFileSize
  | noDevice
  | configure (code : Int)
  | playback
  deriving DecidableEq, Repr

/-- The exact text of each diagnostic (the `fprintf(stderr, ...)` strings). -/
def Diag.message : Diag → String
  | .riff => "Error! \"RIFF\" not found\n"
  | .wave => "Error! \"WAVE\" not found\n"
  | .fmt => "Error! \"fmt \" not found\n"
  | .fmtSize => "Error! size of format chunk should be 16\n"
  | .waveType => "Error! WAVE type format should be 1\n"
  | .monoStereo => "Error! mono/stereo should be 1 or 2\n"
  | .byteRate => "Error! bytes/second should be sample rate x block alignment\n"
  | .bitsPerSample => "Error! bits/sample should be 8 or 16\n"
  | .blockAlign => "Error! block alignment should be bits per sample / 8 x mono/stereo\n"
  | .dataTag => "Error! \"data\" not found\n"
  | .insufficientData => "Error! insufficient data\n"
  | .badFileSize => "Error! bad file size (found data past the expected end of file)\n"
  | .noDevice => "Error: Unable to detect a valid audio device to use\n"
  | .configure code =>
      "Error: Unable to configure audio device (Error code: " ++ toString code ++ ")\n"
  | .playback => "Error: An unexpected error occured while playing your WAV file\n"

/-- The ten diagnostics of the header validation. -/
def Diag.isHeader : Diag → Bool
  | .riff | .wave | .fmt | .fmtSize | .waveType | .monoStereo
  | .byteRate | .bitsPerSample | .blockAlign | .dataTag => true
  | _ => false

/-! ## utils.h: readers -/

/-- The four-character tags compared with `memcmp`. -/
def tagRIFF : List Byte := [82, 73, 70, 70]
/-- The tag `"WAVE"`. -/
def tagWAVE : List Byte := [87, 65, 86, 69]
/-- The tag `"fmt "`. -/
def tagFMT : List Byte := [102, 109, 116, 32]
/-- The tag `"data"`. -/
def tagDATA : List Byte := [100, 97, 116, 97]

/-- `get_RIFF`: four calls of `getchar`, each stored as a `char`. -/
def get_RIFF (s : List Byte) : List Byte × List Byte :=
  let c0 := getchar s
  let c1 := getchar c0.2
  let c2 := getchar c1.2
  let c3 := getchar c2.2
  ([toChar c0.1, toChar c1.1, toChar c2.1, toChar c3.1], c3.2)

/-- `get_SizeOfFile`: four calls of `getchar`, taken left to right, combined
little-endian in `int` arithmetic and stored in a `uint32_t` (so `EOF`
contributes `-1` to its position and the sum is reduced modulo `2^32`). -/
def get_SizeOfFile (s : List Byte) : Nat × List Byte :=
  let c0 := getchar s
  let c1 := getchar c0.2
  let c2 := getchar c1.2
  let c3 := getchar c2.2
  (((c0.1 + c1.1 * 2 ^ 8 + c2.1 * 2 ^ 16 + c3.1 * 2 ^ 24) % 2 ^ 32).toNat, c3.2)

/-- `get_WAVE` is `get_RIFF`. -/
def get_WAVE (s : List Byte) : List Byte × List Byte := get_RIFF s
/-- `get_FMT` is `get_RIFF`. -/
def get_FMT (s : List Byte) : List Byte × List Byte := get_RIFF s
/-- `get_FormatChunk` is `get_SizeOfFile`. -/
def get_FormatChunk (s : List Byte) : Nat × List Byte := get_SizeOfFile s

/-- `get_WaveFormat`: two calls of `getchar`, taken left to right, combined
little-endian and stored in a `uint16_t`. -/
def get_WaveFormat (s : List Byte) : Nat × List Byte :=
  let c0 := getchar s
  let c1 := getchar c0.2
  (((c0.1 + c1.1 * 2 ^ 8) % 2 ^ 16).toNat, c1.2)

/-- `get_MonoStereo` is `get_WaveFormat`. -/
def get_MonoStereo (s : List Byte) : Nat × List Byte := get_WaveFormat s
/-- `get_SampleRate` is `get_SizeOfFile`. -/
def get_SampleRate (s : List Byte) : Nat × List Byte := get_SizeOfFile s
/-- `get_BytePerSec` is `get_SizeOfFile`. -/
def get_BytePerSec (s : List Byte) : Nat × List Byte := get_SizeOfFile s
/-- `get_BlockAlign` is `get_WaveFormat`. -/
def get_BlockAlign (s : List Byte) : Nat × List Byte := get_WaveFormat s
/-- `get_BitsPerSample` is `get_WaveFormat`. -/
def get_BitsPerSample (s : List Byte) : Nat × List Byte := get_WaveFormat s
/-- `get_DataSegmentStart` is `get_RIFF`. -/
def get_DataSegmentStart (s : List Byte) : List Byte × List Byte := get_RIFF s
/-- `get_DataSegmentSize` is `get_SizeOfFile`. -/
def get_DataSegmentSize (s : List Byte) : Nat × List Byte := get_SizeOfFile s

/-- Conversion of a `uint16_t` to `int16_t` (two's complement). -/
def toInt16 (u : Nat) : Int :=
  if u % 2 ^ 16 < 2 ^ 15 then (u % 2 ^ 16 : Nat) else (u % 2 ^ 16 : Nat) - 2 ^ 16

/-- `read_DataSegment(size, &eof)`: `size` calls of `getchar`, each stored as a
`char`; `eof` is set when any of them returned `EOF`.  The result is the
buffer, the flag and the unread input. -/
def read_DataSegment : Nat → List Byte → List Byte × Bool × List Byte
  | 0, s => ([], false, s)
  | n + 1, s =>
    let c := getchar s
    let r := read_DataSegment n c.2
    (toChar c.1 :: r.1, (decide (c.1 = EOF) || r.2.1), r.2.2)

/-- `get_OtherData(total_size, data_segment_size)`: the number of bytes to read
is computed in `uint32_t`, then that many calls of `getchar` are stored as
`char`, with no test for `EOF`. -/
def get_OtherData_loop : Nat → List Byte → List Byte × List Byte
  | 0, s => ([], s)
  | n + 1, s =>
    let c := getchar s
    let r := get_OtherData_loop n c.2
    (toChar c.1 :: r.1, r.2)

/-- Subtraction of two `uint32_t` values. -/
def sub32 (a b : Nat) : Nat := (a % 2 ^ 32 + 2 ^ 32 - b % 2 ^ 32) % 2 ^ 32

/-- The `remaining` count of `get_OtherData`. -/
def otherDataCount (total_size data_segment_size : Nat) : Nat :=
  sub32 total_size ((SIZE_OF_WAVE_HEADER + data_segment_size) % 2 ^ 32)

/-- `get_OtherData`. -/
def get_OtherData (total_size data_segment_size : Nat) (s : List Byte) :
    List Byte × List Byte :=
  get_OtherData_loop (otherDataCount total_size data_segment_size) s

/-! ## utils.h: writers -/

/-- The low octet of an unsigned value. -/
def byteOf (n : Nat) : Byte := ⟨n % 256, Nat.mod_lt _ (by decide)⟩

/-- Read of cell `i` of a buffer; a cell outside the buffer holds `mem i`. -/
def rd (mem : Nat → Byte) (buf : List Byte) (i : Nat) : Byte := buf.getD i (mem i)

/-- The contents of a buffer of `n` bytes just returned by `malloc`. -/
def fresh (mem : Nat → Byte) (n : Nat) : List Byte := (List.range n).map mem

/-- `swrite_ch(value, lenght)`: `lenght` calls of `putchar` on consecutive
cells of `value`. -/
def swrite_ch (mem : Nat → Byte) (value : List Byte) (lenght : Nat) : List Byte :=
  (List.range lenght).map (rd mem value)

/-- `write_u32`: four calls of `putchar`, least significant octet first. -/
def write_u32 (value : Nat) : List Byte :=
  [byteOf value, byteOf (value / 2 ^ 8), byteOf (value / 2 ^ 16), byteOf (value / 2 ^ 24)]

/-- `write_u16`: two calls of `putchar`, least significant octet first. -/
def write_u16 (value : Nat) : List Byte :=
  [byteOf value, byteOf (value / 2 ^ 8)]

/-- `write_d16`: the `int16_t` is converted to `uint16_t` and written. -/
def write_d16 (value : Int) : List Byte := write_u16 (value % 2 ^ 16).toNat

/-! ## utils.h: sample transforms -/

/-- The position of the highest set bit of `n`, `⌊log₂ n⌋` for `0 < n < 2^fuel`.
The bits are counted 128 and 16 at a time where that many remain, which keeps
the recursion shallow. -/
def log2Fuel : Nat → Nat → Nat
  | 0, _ => 0
  | fuel + 1, n =>
    if 2 ^ 128 ≤ n then log2Fuel fuel (n / 2 ^ 128) + 128
    else if 2 ^ 16 ≤ n then log2Fuel fuel (n / 2 ^ 16) + 16
    else if 2 ≤ n then log2Fuel fuel (n / 2) + 1 else 0

/-- The binary exponent of the positive rational `N / d`: the `L` with
`2^L ≤ N / d < 2^(L+1)`. -/
def floorLog2 (N d : Nat) : Int :=
  let k : Int := (log2Fuel N N : Int) - (log2Fuel d d : Int)
  if d * 2 ^ k.toNat ≤ N * 2 ^ (-k).toNat then k else k - 1

/-- The integer nearest to `N / d`, a tie going to the even one. -/
def roundHalfEven (N d : Nat) : Nat :=
  if 2 * (N % d) < d then N / d
  else if d < 2 * (N % d) then N / d + 1
  else if N / d % 2 = 0 then N / d else N / d + 1

/-- The `double` nearest to the non-negative rational `N / d`, as a pair
`(m, e)` of value `m * 2^e`: IEEE 754 binary64, round to nearest, ties to even.
The significand has 53 bits (`2^52 ≤ N / (d * 2^e) < 2^53`), the exponent of
the last place is not below `-1074` (subnormal numbers).  A value beyond the
largest `double` is left at its rounded magnitude, at least `2^1023`, where C
has infinity: the conversions below treat both alike. -/
def nearestDouble (N d : Nat) : Nat × Int :=
  let e := max (floorLog2 N d - 52) (-1074)
  (roundHalfEven (N * 2 ^ (-e).toNat) (d * 2 ^ e.toNat), e)

/-- The value `m * 2^e` of a pair `(m, e)`. -/
def doubleValue (p : Nat × Int) : ℚ := (p.1 : ℚ) * 2 ^ p.2

/-- The integer part of `m * 2^e`. -/
def truncDouble (p : Nat × Int) : Nat := p.1 * 2 ^ p.2.toNat / 2 ^ (-p.2).toNat

/-- The C expression `x * r` for an integer `x` and a `double` `r`: `x` is
converted to `double` without loss (it has at most 32 bits), and the product is
the `double` nearest to the exact product `x * r.num / r.den`. -/
def mulDouble (x : Int) (r : ℚ) : ℚ :=
  if x * r.num < 0 then -doubleValue (nearestDouble (x * r.num).natAbs r.den)
  else doubleValue (nearestDouble (x * r.num).natAbs r.den)

/-- The integer part, rounded toward zero, of the `double` product `x * r`
(`mulDouble`), computed on the significand and the exponent. -/
def truncMul (x : Int) (r : ℚ) : Int :=
  if x * r.num < 0 then -(truncDouble (nearestDouble (x * r.num).natAbs r.den) : Int)
  else truncDouble (nearestDouble (x * r.num).natAbs r.den)

/-- Conversion `(uint32_t)d` of a `double` whose integer part is `t`.  Inside
`0 .. 2^32 - 1` this is `t`; outside, C leaves the result undefined and the
value is the one of the x86-64 code (a 64-bit truncating conversion whose low
32 bits are kept, the out-of-range result of that conversion being `2^63`). -/
def toU32 (t : Int) : Nat :=
  if -(2 ^ 63) ≤ t ∧ t < 2 ^ 63 then (t % 2 ^ 32).toNat else 0

/-- Conversion `(int32_t)d` of a `double` whose integer part is `t`.  Inside
the `int32_t` range this is `t`; outside, C leaves the result undefined and the
value is the one of the x86-64 code (`INT32_MIN`). -/
def toI32 (t : Int) : Int :=
  if -(2 ^ 31) ≤ t ∧ t < 2 ^ 31 then t else -(2 ^ 31)

/-- The value of a `char` cell, `char` being signed (x86-64 Linux). -/
def charVal (b : Byte) : Int := if b.val < 128 then (b.val : Int) else (b.val : Int) - 256

/-- `clamp_8bit`. -/
def clamp_8bit (value : Nat) : Nat := if value > 255 then 255 else value

/-- `clamp_16bit`, with `INT16_MIN = -32768` and `INT16_MAX = 32767`. -/
def clamp_16bit (value : Int) : Int :=
  if value < -32768 then -32768 else if value > 32767 then 32767 else value

/-- The loop of `set_Volume8bit`, `fuel` bounding the number of iterations. -/
def set_Volume8bit_loop (mem : Nat → Byte) (data : List Byte) (size : Nat) (volume : ℚ) :
    Nat → Nat → List Byte → List Byte
  | 0, _, buffer => buffer
  | fuel + 1, i, buffer =>
    if i < size then
      let tmp := toU32 (truncMul (charVal (rd mem data i)) volume)
      set_Volume8bit_loop mem data size volume fuel (i + 1) (buffer.set i (byteOf (clamp_8bit tmp)))
    else buffer

/-- `set_Volume8bit`: the loop runs `size` times. -/
def set_Volume8bit (mem : Nat → Byte) (data : List Byte) (size : Nat) (volume : ℚ) : List Byte :=
  set_Volume8bit_loop mem data size volume size 0 (fresh mem size)

/-- The loop of `set_Volume16bit`, stepping by two.  A write past the end of
the buffer is not recorded in it, a read past the end of `data` yields `mem`.
(For `size = 2^32 - 1` the C counter would wrap; the fuel stops the model.) -/
def set_Volume16bit_loop (mem : Nat → Byte) (data : List Byte) (size : Nat) (volume : ℚ) :
    Nat → Nat → List Byte → List Byte
  | 0, _, buffer => buffer
  | fuel + 1, i, buffer =>
    if i < size then
      let tmp := toInt16 ((rd mem data i).val + (rd mem data (i + 1)).val * 2 ^ 8)
      let tmp2 := toI32 (truncMul tmp volume)
      let out := clamp_16bit tmp2
      set_Volume16bit_loop mem data size volume fuel (i + 2)
        ((buffer.set i (toChar (out % 256))).set (i + 1) (toChar ((out / 256) % 256)))
    else buffer

/-- `set_Volume16bit`. -/
def set_Volume16bit (mem : Nat → Byte) (data : List Byte) (size : Nat) (volume : ℚ) : List Byte :=
  set_Volume16bit_loop mem data size volume size 0 (fresh mem size)

/-- `set_Volume`: 8-bit transform when `bits_pet_sample == 8`, 16-bit otherwise. -/
def set_Volume (mem : Nat → Byte) (data : List Byte) (size : Nat) (bits_pet_sample : Int)
    (volume : ℚ) : List Byte :=
  if bits_pet_sample = 8 then set_Volume8bit mem data size volume
  else set_Volume16bit mem data size volume

/-- The loop of `read_Channel_8bit`: `buffer[i] = data[i]`, stepping by two. -/
def read_Channel_8bit_loop (mem : Nat → Byte) (data : List Byte) (size : Nat) :
    Nat → Nat → List Byte → List Byte
  | 0, _, buffer => buffer
  | fuel + 1, i, buffer =>
    if i < size then
      read_Channel_8bit_loop mem data size fuel (i + 2) (buffer.set i (rd mem data i))
    else buffer

/-- `read_Channel_8bit`: the buffer has `size / 2` cells and the loop bound is
that halved size. -/
def read_Channel_8bit (mem : Nat → Byte) (data : List Byte) (size : Nat) (channel : Int) :
    List Byte :=
  read_Channel_8bit_loop mem data (size / 2) (size / 2) (if channel = 0 then 0 else 1)
    (fresh mem (size / 2))

/-- The loop of `read_Channel_16bit`: `buffer[i] = data[i]` and
`buffer[i+1] = data[i+1]`, stepping by two.  A write past the end of the
buffer is not recorded in it. -/
def read_Channel_16bit_loop (mem : Nat → Byte) (data : List Byte) (size : Nat) :
    Nat → Nat → List Byte → List Byte
  | 0, _, buffer => buffer
  | fuel + 1, i, buffer =>
    if i < size then
      read_Channel_16bit_loop mem data size fuel (i + 2)
        ((buffer.set i (rd mem data i)).set (i + 1) (rd mem data (i + 1)))
    else buffer

/-- `read_Channel_16bit`. -/
def read_Channel_16bit (mem : Nat → Byte) (data : List Byte) (size : Nat) (channel : Int) :
    List Byte :=
  read_Channel_16bit_loop mem data (size / 2) (size / 2) (if channel = 0 then 0 else 1)
    (fresh mem (size / 2))

/-! ## soundman.h: the commands -/

/-- What a command has done when it returns: the value of `*flag`, the bytes
written to standard output, the diagnostics written to standard error, and the
input left unread. -/
structure Outcome where
  flag : Int
  out : List Byte
  err : List Diag
  rest : List Byte
  deriving DecidableEq

/-- The octets of a text written with `printf`. -/
def strBytes (t : String) : List Byte := t.toList.map (fun c => Fin.ofNat c.toNat)

/-- The payload loop of `info_command`,
`while(index < data_segment_size && !error)`: the argument counts the
iterations still allowed; the result is `index`, `error` and the unread
input. -/
def info_dataLoop : Nat → List Byte → Nat × Bool × List Byte
  | 0, s => (0, false, s)
  | n + 1, s =>
    let c := getchar s
    if c.1 = EOF then (1, true, c.2)
    else
      let r := info_dataLoop n c.2
      (r.1 + 1, r.2.1, r.2.2)

/-- The loop `while(total_bytes_traversed < SizeOfFile) getchar();` of
`info_command`, the argument being the number of iterations. -/
def info_skipLoop : Nat → List Byte → List Byte
  | 0, s => s
  | n + 1, s => info_skipLoop n (getchar s).2

/-- The nine `printf` lines of `info_command`. -/
def info_report (SizeOfFile format_chunk wave_format mono_stereo sample_rate byte_per_sec
    block_align : Nat) (bits_per_sample : Int) (data_segment_size : Nat) : List String :=
  ["size of file: " ++ toString SizeOfFile ++ "\n",
   "size of format chunk: " ++ toString format_chunk ++ "\n",
   "WAVE type format: " ++ toString wave_format ++ "\n",
   "mono/stereo: " ++ toString mono_stereo ++ "\n",
   "sample rate: " ++ toString sample_rate ++ "\n",
   "byte/sec: " ++ toString byte_per_sec ++ "\n",
   "block align: " ++ toString block_align ++ "\n",
   "bits/sample: " ++ toString bits_per_sample ++ "\n",
   "size of data chunk: " ++ toString data_segment_size ++ "\n"]

/-- `info_command(&flag)`. -/
def info_command (s0 : List Byte) : Outcome :=
  let RIFF := get_RIFF s0
  if RIFF.1 ≠ tagRIFF then ⟨1, [], [Diag.riff], RIFF.2⟩ else
  let SizeOfFile := get_SizeOfFile RIFF.2
  let WAVE := get_WAVE SizeOfFile.2
  if WAVE.1 ≠ tagWAVE then ⟨1, [], [Diag.wave], WAVE.2⟩ else
  let FMT := get_FMT WAVE.2
  if FMT.1 ≠ tagFMT then ⟨1, [], [Diag.fmt], FMT.2⟩ else
  let format_chunk := get_FormatChunk FMT.2
  if format_chunk.1 ≠ 16 then ⟨1, [], [Diag.fmtSize], format_chunk.2⟩ else
  let wave_format := get_WaveFormat format_chunk.2
  if wave_format.1 ≠ 1 then ⟨1, [], [Diag.waveType], wave_format.2⟩ else
  let mono_stereo := get_MonoStereo wave_format.2
  if mono_stereo.1 ≠ 1 ∧ mono_stereo.1 ≠ 2 then ⟨1, [], [Diag.monoStereo], mono_stereo.2⟩ else
  let sample_rate := get_SampleRate mono_stereo.2
  let byte_per_sec := get_BytePerSec sample_rate.2
  let block_align := get_BlockAlign byte_per_sec.2
  if byte_per_sec.1 ≠ (sample_rate.1 * block_align.1) % 2 ^ 32 then
    ⟨1, [], [Diag.byteRate], block_align.2⟩ else
  let bps := get_BitsPerSample block_align.2
  let bits_per_sample : Int := toInt16 bps.1
  if bits_per_sample ≠ 8 ∧ bits_per_sample ≠ 16 then ⟨1, [], [Diag.bitsPerSample], bps.2⟩ else
  if (block_align.1 : Int) ≠ Int.tdiv bits_per_sample 8 * (mono_stereo.1 : Int) then
    ⟨1, [], [Diag.blockAlign], bps.2⟩ else
  let data_start_segment := get_DataSegmentStart bps.2
  if data_start_segment.1 ≠ tagDATA then ⟨1, [], [Diag.dataTag], data_start_segment.2⟩ else
  let data_segment_size := get_DataSegmentSize data_start_segment.2
  let loop := info_dataLoop data_segment_size.1 data_segment_size.2
  if loop.2.1 then ⟨1, [], [Diag.insufficientData], loop.2.2⟩ else
  let total_bytes_traversed := (SIZE_OF_WAVE_HEADER + loop.1) % 2 ^ 32
  let s1 := info_skipLoop (SizeOfFile.1 - total_bytes_traversed) loop.2.2
  let last := getchar s1
  if last.1 ≠ EOF then ⟨1, [], [Diag.badFileSize], last.2⟩ else
  ⟨0,
   (info_report SizeOfFile.1 format_chunk.1 wave_format.1 mono_stereo.1 sample_rate.1
      byte_per_sec.1 block_align.1 bits_per_sample data_segment_size.1).flatMap strBytes,
   [], last.2⟩

/-- `srate_command(rate, &flag)`; `flag0` is the value of `*flag` on entry
(`main` passes 0). -/
def srate_command (mem : Nat → Byte) (rate : ℚ) (flag0 : Int) (s0 : List Byte) : Outcome :=
  let RIFF := get_RIFF s0
  if RIFF.1 ≠ tagRIFF then ⟨1, [], [Diag.riff], RIFF.2⟩ else
  let SizeOfFile := get_SizeOfFile RIFF.2
  let WAVE := get_WAVE SizeOfFile.2
  if WAVE.1 ≠ tagWAVE then ⟨1, [], [Diag.wave], WAVE.2⟩ else
  let FMT := get_FMT WAVE.2
  if FMT.1 ≠ tagFMT then ⟨1, [], [Diag.fmt], FMT.2⟩ else
  let format_chunk := get_FormatChunk FMT.2
  if format_chunk.1 ≠ 16 then ⟨1, [], [Diag.fmtSize], format_chunk.2⟩ else
  let wave_format := get_WaveFormat format_chunk.2
  if wave_format.1 ≠ 1 then ⟨1, [], [Diag.waveType], wave_format.2⟩ else
  let mono_stereo := get_MonoStereo wave_format.2
  if mono_stereo.1 ≠ 1 ∧ mono_stereo.1 ≠ 2 then ⟨1, [], [Diag.monoStereo], mono_stereo.2⟩ else
  let sample_rate := get_SampleRate mono_stereo.2
  let bytes_per_sec := get_BytePerSec sample_rate.2
  let block_align := get_BlockAlign bytes_per_sec.2
  if bytes_per_sec.1 ≠ (sample_rate.1 * block_align.1) % 2 ^ 32 then
    ⟨1, [], [Diag.byteRate], block_align.2⟩ else
  let bps := get_BitsPerSample block_align.2
  let bits_per_sample : Int := toInt16 bps.1
  if bits_per_sample ≠ 8 ∧ bits_per_sample ≠ 16 then ⟨1, [], [Diag.bitsPerSample], bps.2⟩ else
  if (block_align.1 : Int) ≠ Int.tdiv bits_per_sample 8 * (mono_stereo.1 : Int) then
    ⟨1, [], [Diag.blockAlign], bps.2⟩ else
  let data_start_segment := get_DataSegmentStart bps.2
  if data_start_segment.1 ≠ tagDATA then ⟨1, [], [Diag.dataTag], data_start_segment.2⟩ else
  let data_segment_size := get_DataSegmentSize data_start_segment.2
  let data := read_DataSegment data_segment_size.1 data_segment_size.2
  if data.2.1 then ⟨1, [], [Diag.insufficientData], data.2.2⟩ else
  let other_data_buffer := get_OtherData SizeOfFile.1 data_segment_size.1 data.2.2
  let last := getchar other_data_buffer.2
  if last.1 ≠ EOF then ⟨1, [], [Diag.badFileSize], last.2⟩ else
  let sample_rate2 := toU32 (truncMul sample_rate.1 rate)
  let bytes_per_sec2 := toU32 (truncMul bytes_per_sec.1 rate)
  ⟨flag0,
   swrite_ch mem RIFF.1 4 ++ write_u32 SizeOfFile.1 ++ swrite_ch mem WAVE.1 4 ++
     swrite_ch mem FMT.1 4 ++ write_u32 format_chunk.1 ++ write_u16 wave_format.1 ++
     write_u16 mono_stereo.1 ++ write_u32 sample_rate2 ++ write_u32 bytes_per_sec2 ++
     write_u16 block_align.1 ++ write_d16 bits_per_sample ++
     swrite_ch mem data_start_segment.1 4 ++ write_u32 data_segment_size.1 ++
     swrite_ch mem data.1 data_segment_size.1 ++
     swrite_ch mem other_data_buffer.1
       (sub32 SizeOfFile.1 ((SIZE_OF_WAVE_HEADER + data_segment_size.1) % 2 ^ 32)),
   [], last.2⟩

/-- `schannel_command(channel, &flag)`; `flag0` is the value of `*flag` on
entry (`main` passes 0). -/
def schannel_command (mem : Nat → Byte) (channel : Int) (flag0 : Int) (s0 : List Byte) :
    Outcome :=
  let RIFF := get_RIFF s0
  if RIFF.1 ≠ tagRIFF then ⟨1, [], [Diag.riff], RIFF.2⟩ else
  let SizeOfFile := get_SizeOfFile RIFF.2
  let WAVE := get_WAVE SizeOfFile.2
  if WAVE.1 ≠ tagWAVE then ⟨1, [], [Diag.wave], WAVE.2⟩ else
  let FMT := get_FMT WAVE.2
  if FMT.1 ≠ tagFMT then ⟨1, [], [Diag.fmt], FMT.2⟩ else
  let format_chunk := get_FormatChunk FMT.2
  if format_chunk.1 ≠ 16 then ⟨1, [], [Diag.fmtSize], format_chunk.2⟩ else
  let wave_format := get_WaveFormat format_chunk.2
  if wave_format.1 ≠ 1 then ⟨1, [], [Diag.waveType], wave_format.2⟩ else
  let mono_stereo := get_MonoStereo wave_format.2
  if mono_stereo.1 ≠ 1 ∧ mono_stereo.1 ≠ 2 then ⟨1, [], [Diag.monoStereo], mono_stereo.2⟩ else
  let channel2 : Int := if mono_stereo.1 = 1 then 0 else channel
  let sample_rate := get_SampleRate mono_stereo.2
  let bytes_per_sec := get_BytePerSec sample_rate.2
  let block_align := get_BlockAlign bytes_per_sec.2
  if bytes_per_sec.1 ≠ (sample_rate.1 * block_align.1) % 2 ^ 32 then
    ⟨1, [], [Diag.byteRate], block_align.2⟩ else
  let bits_per_sample := get_BitsPerSample block_align.2
  if bits_per_sample.1 ≠ 8 ∧ bits_per_sample.1 ≠ 16 then
    ⟨1, [], [Diag.bitsPerSample], bits_per_sample.2⟩ else
  if block_align.1 ≠ (bits_per_sample.1 / 8) * mono_stereo.1 then
    ⟨1, [], [Diag.blockAlign], bits_per_sample.2⟩ else
  let data_start_segment := get_DataSegmentStart bits_per_sample.2
  if data_start_segment.1 ≠ tagDATA then ⟨1, [], [Diag.dataTag], data_start_segment.2⟩ else
  let data_segment_size := get_DataSegmentSize data_start_segment.2
  let data := read_DataSegment data_segment_size.1 data_segment_size.2
  if data.2.1 then ⟨1, [], [Diag.insufficientData], data.2.2⟩ else
  let other_data_buffer := get_OtherData SizeOfFile.1 data_segment_size.1 data.2.2
  let last := getchar other_data_buffer.2
  if last.1 ≠ EOF then ⟨1, [], [Diag.badFileSize], last.2⟩ else
  let channel_data :=
    if bits_per_sample.1 = 8 then read_Channel_8bit mem data.1 data_segment_size.1 channel2
    else read_Channel_16bit mem data.1 data_segment_size.1 channel2
  let mono_stereo2 := 1
  let bytes_per_sec2 := bytes_per_sec.1 / 2
  let block_align2 := block_align.1 / 2
  let data_segment_size2 := data_segment_size.1 / 2
  let SizeOfFile2 := (SIZE_OF_WAVE_HEADER + data_segment_size2) % 2 ^ 32
  ⟨flag0,
   swrite_ch mem RIFF.1 4 ++ write_u32 SizeOfFile2 ++ swrite_ch mem WAVE.1 4 ++
     swrite_ch mem FMT.1 4 ++ write_u32 format_chunk.1 ++ write_u16 wave_format.1 ++
     write_u16 mono_stereo2 ++ write_u32 sample_rate.1 ++ write_u32 bytes_per_sec2 ++
     write_u16 block_align2 ++ write_d16 (toInt16 bits_per_sample.1) ++
     swrite_ch mem data_start_segment.1 4 ++ write_u32 data_segment_size2 ++
     swrite_ch mem channel_data data_segment_size2 ++
     swrite_ch mem other_data_buffer.1
       (sub32 SizeOfFile2 ((SIZE_OF_WAVE_HEADER + data_segment_size2) % 2 ^ 32)),
   [], last.2⟩

/-- `svolume_command(volume, &flag)`; `flag0` is the value of `*flag` on entry
(`main` passes 0). -/
def svolume_command (mem : Nat → Byte) (volume : ℚ) (flag0 : Int) (s0 : List Byte) : Outcome :=
  let RIFF := get_RIFF s0
  if RIFF.1 ≠ tagRIFF then ⟨1, [], [Diag.riff], RIFF.2⟩ else
  let SizeOfFile := get_SizeOfFile RIFF.2
  let WAVE := get_WAVE SizeOfFile.2
  if WAVE.1 ≠ tagWAVE then ⟨1, [], [Diag.wave], WAVE.2⟩ else
  let FMT := get_FMT WAVE.2
  if FMT.1 ≠ tagFMT then ⟨1, [], [Diag.fmt], FMT.2⟩ else
  let format_chunk := get_FormatChunk FMT.2
  if format_chunk.1 ≠ 16 then ⟨1, [], [Diag.fmtSize], format_chunk.2⟩ else
  let wave_format := get_WaveFormat format_chunk.2
  if wave_format.1 ≠ 1 then ⟨1, [], [Diag.waveType], wave_format.2⟩ else
  let mono_stereo := get_MonoStereo wave_format.2
  if mono_stereo.1 ≠ 1 ∧ mono_stereo.1 ≠ 2 then ⟨1, [], [Diag.monoStereo], mono_stereo.2⟩ else
  let sample_rate := get_SampleRate mono_stereo.2
  let bytes_per_sec := get_BytePerSec sample_rate.2
  let block_align := get_BlockAlign bytes_per_sec.2
  if bytes_per_sec.1 ≠ (sample_rate.1 * block_align.1) % 2 ^ 32 then
    ⟨1, [], [Diag.byteRate], block_align.2⟩ else
  let bits_per_sample := get_BitsPerSample block_align.2
  if bits_per_sample.1 ≠ 8 ∧ bits_per_sample.1 ≠ 16 then
    ⟨1, [], [Diag.bitsPerSample], bits_per_sample.2⟩ else
  if block_align.1 ≠ (bits_per_sample.1 / 8) * mono_stereo.1 then
    ⟨1, [], [Diag.blockAlign], bits_per_sample.2⟩ else
  let data_start_segment := get_DataSegmentStart bits_per_sample.2
  if data_start_segment.1 ≠ tagDATA then ⟨1, [], [Diag.dataTag], data_start_segment.2⟩ else
  let data_segment_size := get_DataSegmentSize data_start_segment.2
  let data := read_DataSegment data_segment_size.1 data_segment_size.2
  if data.2.1 then ⟨1, [], [Diag.insufficientData], data.2.2⟩ else
  let newData := set_Volume mem data.1 data_segment_size.1 (toInt16 bits_per_sample.1) volume
  let other_data_buffer := get_OtherData SizeOfFile.1 data_segment_size.1 data.2.2
  let last := getchar other_data_buffer.2
  if last.1 ≠ EOF then ⟨1, [], [Diag.badFileSize], last.2⟩ else
  ⟨flag0,
   swrite_ch mem RIFF.1 4 ++ write_u32 SizeOfFile.1 ++ swrite_ch mem WAVE.1 4 ++
     swrite_ch mem FMT.1 4 ++ write_u32 format_chunk.1 ++ write_u16 wave_format.1 ++
     write_u16 mono_stereo.1 ++ write_u32 sample_rate.1 ++ write_u32 bytes_per_sec.1 ++
     write_u16 block_align.1 ++ write_d16 (toInt16 bits_per_sample.1) ++
     swrite_ch mem data_start_segment.1 4 ++ write_u32 data_segment_size.1 ++
     swrite_ch mem newData data_segment_size.1 ++
     swrite_ch mem other_data_buffer.1
       (sub32 SizeOfFile.1 ((SIZE_OF_WAVE_HEADER + data_segment_size.1) % 2 ^ 32)),
   [], last.2⟩

/-! ## caudio.h: the audio device -/

/-- The bounds of a `struct snd_interval`. -/
structure Interval where
  min : Nat
  max : Nat
  deriving DecidableEq

/-- The two sample formats the program selects. -/
inductive Format where
  | U8
  | S16_LE
  deriving DecidableEq

/-- The fields of `struct snd_pcm_hw_params` the program reads and writes. -/
structure HwParams where
  ch : Interval
  rate : Interval
  ps : Interval
  bs : Interval
  format : Option Format
  deriving DecidableEq

/-- The fields of `struct snd_pcm_sw_params` the program sets. -/
structure SwParams where
  period_step : Nat
  start_threshold : Nat
  stop_threshold : Nat
  silence_threshold : Nat
  silence_size : Nat
  boundary : Nat
  avail_min : Nat
  deriving DecidableEq

/-- The requests the program sends to the audio device, in order. -/
inductive DevEvent where
  | hwRefine
  | hwParams (hw : HwParams)
  | swParams (sw : SwParams)
  | prepare
  | start
  | write (segment : List Byte)
  | drain
  | close
  deriving DecidableEq

/-- The answers of the operating system: the descriptor returned by
`caudio_open_device`, the return values of the four `ioctl` calls of
`caudio_setup_params`, the intervals left in the structure by `HW_REFINE`, and
whether the k-th call of `caudio_write_data_to_device` succeeds (returns 0)
or fails (returns -1); that function is taken to return. -/
structure Driver where
  open_fd : Int
  refine_ret : Int
  refined : HwParams
  hw_params_ret : HwParams → Int
  sw_params_ret : SwParams → Int
  prepare_ret : Int
  write_ok : Nat → Bool

/-- `caudio_setup_params`: the return value and the requests issued. -/
def caudio_setup_params (drv : Driver) (channels : Nat) (bits_per_sample : Int)
    (sample_rate segment_size : Nat) : Int × List DevEvent :=
  if drv.refine_ret < 0 then (-1, [DevEvent.hwRefine]) else
  let hw := drv.refined
  let channels := if channels < hw.ch.min ∨ channels > hw.ch.max then hw.ch.max else channels
  let sample_rate := if sample_rate < hw.rate.min then hw.rate.min else sample_rate
  let sample_rate := if sample_rate > hw.rate.max then hw.rate.max else sample_rate
  let segment_size := if segment_size < hw.ps.min then hw.ps.min else segment_size
  let segment_size := if segment_size > hw.ps.max then hw.ps.max else segment_size
  let hw := { hw with ps := ⟨segment_size, segment_size⟩ }
  let buffer_size := (segment_size * 4) % 2 ^ 32
  let buffer_size := if buffer_size < hw.bs.min then hw.bs.min else buffer_size
  let buffer_size := if buffer_size > hw.bs.max then hw.bs.max else buffer_size
  let hw := { hw with bs := ⟨buffer_size, buffer_size⟩ }
  let fmt := if bits_per_sample = 8 then Format.U8 else Format.S16_LE
  let hw := { hw with format := some fmt }
  let hw := { hw with ch := ⟨channels, channels⟩ }
  let hw := { hw with rate := ⟨sample_rate, sample_rate⟩ }
  let hw := { hw with ps := ⟨segment_size, segment_size⟩ }
  let hw := { hw with bs := ⟨(segment_size * 4) % 2 ^ 32, (segment_size * 4) % 2 ^ 32⟩ }
  if drv.hw_params_ret hw < 0 then (-2, [DevEvent.hwRefine, DevEvent.hwParams hw]) else
  let sw : SwParams := ⟨1, 1, 2 ^ 32 - 1, 0, 0, 0x7FFFFFFF, segment_size⟩
  if drv.sw_params_ret sw < 0 then
    (-3, [DevEvent.hwRefine, DevEvent.hwParams hw, DevEvent.swParams sw]) else
  if drv.prepare_ret < 0 then
    (-4, [DevEvent.hwRefine, DevEvent.hwParams hw, DevEvent.swParams sw, DevEvent.prepare]) else
  (0, [DevEvent.hwRefine, DevEvent.hwParams hw, DevEvent.swParams sw, DevEvent.prepare])

/-- `memcpy(dst, src + off, n)` on buffers held as lists. -/
def memcpy (mem : Nat → Byte) (dst src : List Byte) (off n : Nat) : List Byte :=
  (List.range dst.length).map (fun j => if j < n then rd mem src (off + j) else rd mem dst j)

/-- What `play_sound` has done when it returns; `ret` is the value returned.
`ret = ⊥` says that the call has not returned: the chunk loop is still running
where the model stops following it, and `dev` holds the requests sent so far. -/
structure PlayOutcome where
  ret : WithBot Int
  err : List Diag
  rest : List Byte
  dev : List DevEvent
  deriving DecidableEq

/-- The chunk loop of `play_sound` with what follows it: `steps` is the
`uint32_t` loop counter, `ptr` the offset of the read pointer `ptr` in `buffer`
(a pointer, which does not wrap), `k` the number of chunks already written,
`segment` the 1024-byte staging buffer.  `fuel` bounds the number of iterations
followed: when it is spent with the loop still running the result is `⊥`, no
return value.  For `size ≤ 2^32 - 1024` every iteration brings `steps` nearer
to `size` and `fuel = size` iterations are enough (`play_loop_returns`); for a
larger `size` the counter wraps around to 0 and the loop does not end while the
device accepts the blocks (`play_loop_wraps`). -/
def play_loop (drv : Driver) (mem : Nat → Byte) (buffer : List Byte) (size : Nat) :
    Nat → Nat → Nat → Nat → List Byte → WithBot Int × List Diag × List DevEvent
  | 0, steps, _, _, _ =>
    if steps < size then (⊥, [], []) else (0, [], [DevEvent.drain, DevEvent.close])
  | fuel + 1, steps, ptr, k, segment =>
    if steps < size then
      let n := if (steps + 1024) % 2 ^ 32 < size then 1024 else size - steps
      let segment2 := memcpy mem segment buffer ptr n
      let steps2 := (steps + n) % 2 ^ 32
      if drv.write_ok k then
        let r := play_loop drv mem buffer size fuel steps2 (ptr + n) (k + 1) segment2
        (r.1, r.2.1, DevEvent.write segment2 :: r.2.2)
      else
        (2, [Diag.playback], [DevEvent.write segment2, DevEvent.drain, DevEvent.close])
    else (0, [], [DevEvent.drain, DevEvent.close])

/-- `play_sound()`. -/
def play_sound (drv : Driver) (mem : Nat → Byte) (s0 : List Byte) : PlayOutcome :=
  let RIFF := get_RIFF s0
  if RIFF.1 ≠ tagRIFF then ⟨1, [Diag.riff], RIFF.2, []⟩ else
  let g0 := getchar RIFF.2
  let g1 := getchar g0.2
  let g2 := getchar g1.2
  let g3 := getchar g2.2
  let WAVE := get_WAVE g3.2
  if WAVE.1 ≠ tagWAVE then ⟨1, [Diag.wave], WAVE.2, []⟩ else
  let FMT := get_FMT WAVE.2
  if FMT.1 ≠ tagFMT then ⟨1, [Diag.fmt], FMT.2, []⟩ else
  let format_chunk := get_FormatChunk FMT.2
  if format_chunk.1 ≠ 16 then ⟨1, [Diag.fmtSize], format_chunk.2, []⟩ else
  let wave_format := get_WaveFormat format_chunk.2
  if wave_format.1 ≠ 1 then ⟨1, [Diag.waveType], wave_format.2, []⟩ else
  let mono_stereo := get_MonoStereo wave_format.2
  if mono_stereo.1 ≠ 1 ∧ mono_stereo.1 ≠ 2 then ⟨1, [Diag.monoStereo], mono_stereo.2, []⟩ else
  let sample_rate := get_SampleRate mono_stereo.2
  let byte_per_sec := get_BytePerSec sample_rate.2
  let block_align := get_BlockAlign byte_per_sec.2
  if byte_per_sec.1 ≠ (sample_rate.1 * block_align.1) % 2 ^ 32 then
    ⟨1, [Diag.byteRate], block_align.2, []⟩ else
  let bps := get_BitsPerSample block_align.2
  let bits_per_sample : Int := toInt16 bps.1
  if bits_per_sample ≠ 8 ∧ bits_per_sample ≠ 16 then ⟨1, [Diag.bitsPerSample], bps.2, []⟩ else
  if (block_align.1 : Int) ≠ Int.tdiv bits_per_sample 8 * (mono_stereo.1 : Int) then
    ⟨1, [Diag.blockAlign], bps.2, []⟩ else
  let data_start_segment := get_DataSegmentStart bps.2
  if data_start_segment.1 ≠ tagDATA then ⟨1, [Diag.dataTag], data_start_segment.2, []⟩ else
  let data_segment_size := get_DataSegmentSize data_start_segment.2
  let buffer := read_DataSegment data_segment_size.1 data_segment_size.2
  if drv.open_fd < 0 then ⟨1, [Diag.noDevice], buffer.2.2, []⟩ else
  let segmentSize := 1024
  let setup := caudio_setup_params drv mono_stereo.1 bits_per_sample sample_rate.1 segmentSize
  if setup.1 ≠ 0 then ⟨(setup.1 : Int), [Diag.configure setup.1], buffer.2.2, setup.2⟩ else
  let segment := fresh mem segmentSize
  let r := play_loop drv mem buffer.1 data_segment_size.1 data_segment_size.1 0 0 0 segment
  ⟨r.1, r.2.1, buffer.2.2, setup.2 ++ DevEvent.start :: r.2.2⟩

/-! ## The header as laid out in the stream

The readers above consume the stream call by call.  The definitions below
describe the same header by position: `peek s i` is what the call number `i`
of `getchar` returns on the stream `s`, and each field is decoded from its
fixed offset. -/

/-- The value returned by call number `i` (from 0) of `getchar` on `s`. -/
def peek (s : List Byte) (i : Nat) : Int :=
  match s[i]? with
  | some b => (b.val : Int)
  | none => EOF

/-- The four `char`s stored from the calls `n .. n+3`. -/
def tagAt (s : List Byte) (n : Nat) : List Byte :=
  [toChar (peek s n), toChar (peek s (n + 1)), toChar (peek s (n + 2)), toChar (peek s (n + 3))]

/-- The `uint32_t` assembled from the calls `n .. n+3`. -/
def u32At (s : List Byte) (n : Nat) : Nat :=
  ((peek s n + peek s (n + 1) * 2 ^ 8 + peek s (n + 2) * 2 ^ 16 + peek s (n + 3) * 2 ^ 24)
    % 2 ^ 32).toNat

/-- The `uint16_t` assembled from the calls `n` and `n+1`. -/
def u16At (s : List Byte) (n : Nat) : Nat :=
  ((peek s n + peek s (n + 1) * 2 ^ 8) % 2 ^ 16).toNat

/-- Header field `fileSize` (offset 4). -/
def fileSize (s : List Byte) : Nat := u32At s 4
/-- Header field `fmtChunkSize` (offset 16). -/
def fmtChunkSize (s : List Byte) : Nat := u32At s 16
/-- Header field `audioFormat` (offset 20). -/
def audioFormat (s : List Byte) : Nat := u16At s 20
/-- Header field `numChannels` (offset 22). -/
def numChannels (s : List Byte) : Nat := u16At s 22
/-- Header field `sampleRate` (offset 24). -/
def sampleRate (s : List Byte) : Nat := u32At s 24
/-- Header field `byteRate` (offset 28). -/
def byteRate (s : List Byte) : Nat := u32At s 28
/-- Header field `blockAlign` (offset 32). -/
def blockAlign (s : List Byte) : Nat := u16At s 32
/-- Header field `bitsPerSample` (offset 34), as an unsigned value. -/
def bitsPerSample (s : List Byte) : Nat := u16At s 34
/-- Header field `dataSize` (offset 40). -/
def dataSize (s : List Byte) : Nat := u32At s 40

/-- The ten checks of the header validation. -/
inductive Check where
  | riff
  | wave
  | fmt
  | fmtSize
  | audioFormat
  | channels
  | byteRate
  | bits
  | blockAlign
  | dataTag
  deriving DecidableEq, Repr

/-- The checks in the order the validation applies them. -/
def Check.order : List Check :=
  [.riff, .wave, .fmt, .fmtSize, .audioFormat, .channels, .byteRate, .bits, .blockAlign,
   .dataTag]

/-- Whether a check fails on the stream `s`, each field taken at its offset.
The byte-rate check compares with the product reduced modulo `2^32`, as the
`uint32_t` multiplication of the code does. -/
def Check.fails (s : List Byte) : Check → Bool
  | .riff => decide (tagAt s 0 ≠ tagRIFF)
  | .wave => decide (tagAt s 8 ≠ tagWAVE)
  | .fmt => decide (tagAt s 12 ≠ tagFMT)
  | .fmtSize => decide (Soundwave.fmtChunkSize s ≠ 16)
  | .audioFormat => decide (Soundwave.audioFormat s ≠ 1)
  | .channels => decide (Soundwave.numChannels s ≠ 1 ∧ Soundwave.numChannels s ≠ 2)
  | .byteRate =>
    decide (Soundwave.byteRate s ≠ (Soundwave.sampleRate s * Soundwave.blockAlign s) % 2 ^ 32)
  | .bits => decide (Soundwave.bitsPerSample s ≠ 8 ∧ Soundwave.bitsPerSample s ≠ 16)
  | .blockAlign =>
    decide (Soundwave.blockAlign s ≠ (Soundwave.bitsPerSample s / 8) * Soundwave.numChannels s)
  | .dataTag => decide (tagAt s 36 ≠ tagDATA)

/-- The first check, in order, that fails on `s`. -/
def firstFailing (s : List Byte) : Option Check := Check.order.find? (Check.fails s)

/-- The diagnostic of each check. -/
def Check.diag : Check → Diag
  | .riff => Diag.riff
  | .wave => Diag.wave
  | .fmt => Diag.fmt
  | .fmtSize => Diag.fmtSize
  | .audioFormat => Diag.waveType
  | .channels => Diag.monoStereo
  | .byteRate => Diag.byteRate
  | .bits => Diag.bitsPerSample
  | .blockAlign => Diag.blockAlign
  | .dataTag => Diag.dataTag

/-- The number of `getchar` calls made when the validation stops at a check:
the byte-rate check is made after `blockAlign` has been read, the block-align
check after `bitsPerSample` has been read. -/
def Check.callsMade : Check → Nat
  | .riff => 4
  | .wave => 12
  | .fmt => 16
  | .fmtSize => 20
  | .audioFormat => 22
  | .channels => 24
  | .byteRate => 34
  | .bits => 36
  | .blockAlign => 36
  | .dataTag => 40

/-- The offset of the first byte after the field a check is named after, in
the file layout. -/
def Check.fieldEnd : Check → Nat
  | .riff => 4
  | .wave => 12
  | .fmt => 16
  | .fmtSize => 20
  | .audioFormat => 22
  | .channels => 24
  | .byteRate => 32
  | .blockAlign => 34
  | .bits => 36
  | .dataTag => 40

/-- The header of `s` passes the ten checks. -/
def validHeader (s : List Byte) : Prop := firstFailing s = none

instance (s : List Byte) : Decidable (validHeader s) := by
  unfold validHeader; infer_instance

/-- The number of bytes of the input a command has consumed when it returns. -/
def Outcome.consumed (s : List Byte) (o : Outcome) : Nat := s.length - o.rest.length

/-- What every command does once the header has failed a check. -/
def headerFailure (s : List Byte) (c : Check) : Outcome :=
  ⟨1, [], [c.diag], s.drop c.callsMade⟩

/-- What `info_command` does once the header has passed the ten checks, the
fields being taken at their offsets and the payload starting at offset 44. -/
def info_tail (s : List Byte) : Outcome :=
  let loop := info_dataLoop (dataSize s) (s.drop 44)
  if loop.2.1 then ⟨1, [], [Diag.insufficientData], loop.2.2⟩ else
  let total_bytes_traversed := (SIZE_OF_WAVE_HEADER + loop.1) % 2 ^ 32
  let s1 := info_skipLoop (fileSize s - total_bytes_traversed) loop.2.2
  let last := getchar s1
  if last.1 ≠ EOF then ⟨1, [], [Diag.badFileSize], last.2⟩ else
  ⟨0,
   (info_report (fileSize s) (fmtChunkSize s) (audioFormat s) (numChannels s) (sampleRate s)
      (byteRate s) (blockAlign s) (toInt16 (bitsPerSample s)) (dataSize s)).flatMap strBytes,
   [], last.2⟩

/-- What `srate_command` does once the header has passed the ten checks. -/
def srate_tail (mem : Nat → Byte) (rate : ℚ) (flag0 : Int) (s : List Byte) : Outcome :=
  let data := read_DataSegment (dataSize s) (s.drop 44)
  if data.2.1 then ⟨1, [], [Diag.insufficientData], data.2.2⟩ else
  let other_data_buffer := get_OtherData (fileSize s) (dataSize s) data.2.2
  let last := getchar other_data_buffer.2
  if last.1 ≠ EOF then ⟨1, [], [Diag.badFileSize], last.2⟩ else
  ⟨flag0,
   swrite_ch mem (tagAt s 0) 4 ++ write_u32 (fileSize s) ++ swrite_ch mem (tagAt s 8) 4 ++
     swrite_ch mem (tagAt s 12) 4 ++ write_u32 (fmtChunkSize s) ++ write_u16 (audioFormat s) ++
     write_u16 (numChannels s) ++ write_u32 (toU32 (truncMul (sampleRate s) rate)) ++
     write_u32 (toU32 (truncMul (byteRate s) rate)) ++
     write_u16 (blockAlign s) ++ write_d16 (toInt16 (bitsPerSample s)) ++
     swrite_ch mem (tagAt s 36) 4 ++ write_u32 (dataSize s) ++
     swrite_ch mem data.1 (dataSize s) ++
     swrite_ch mem other_data_buffer.1
       (sub32 (fileSize s) ((SIZE_OF_WAVE_HEADER + dataSize s) % 2 ^ 32)),
   [], last.2⟩

/-- What `schannel_command` does once the header has passed the ten checks. -/
def schannel_tail (mem : Nat → Byte) (channel : Int) (flag0 : Int) (s : List Byte) : Outcome :=
  let data := read_DataSegment (dataSize s) (s.drop 44)
  if data.2.1 then ⟨1, [], [Diag.insufficientData], data.2.2⟩ else
  let other_data_buffer := get_OtherData (fileSize s) (dataSize s) data.2.2
  let last := getchar other_data_buffer.2
  if last.1 ≠ EOF then ⟨1, [], [Diag.badFileSize], last.2⟩ else
  let channel2 : Int := if numChannels s = 1 then 0 else channel
  let channel_data :=
    if bitsPerSample s = 8 then read_Channel_8bit mem data.1 (dataSize s) channel2
    else read_Channel_16bit mem data.1 (dataSize s) channel2
  ⟨flag0,
   swrite_ch mem (tagAt s 0) 4 ++ write_u32 ((SIZE_OF_WAVE_HEADER + dataSize s / 2) % 2 ^ 32) ++
     swrite_ch mem (tagAt s 8) 4 ++
     swrite_ch mem (tagAt s 12) 4 ++ write_u32 (fmtChunkSize s) ++ write_u16 (audioFormat s) ++
     write_u16 1 ++ write_u32 (sampleRate s) ++ write_u32 (byteRate s / 2) ++
     write_u16 (blockAlign s / 2) ++ write_d16 (toInt16 (bitsPerSample s)) ++
     swrite_ch mem (tagAt s 36) 4 ++ write_u32 (dataSize s / 2) ++
     swrite_ch mem channel_data (dataSize s / 2) ++
     swrite_ch mem other_data_buffer.1
       (sub32 ((SIZE_OF_WAVE_HEADER + dataSize s / 2) % 2 ^ 32)
         ((SIZE_OF_WAVE_HEADER + dataSize s / 2) % 2 ^ 32)),
   [], last.2⟩

/-- What `svolume_command` does once the header has passed the ten checks. -/
def svolume_tail (mem : Nat → Byte) (volume : ℚ) (flag0 : Int) (s : List Byte) : Outcome :=
  let data := read_DataSegment (dataSize s) (s.drop 44)
  if data.2.1 then ⟨1, [], [Diag.insufficientData], data.2.2⟩ else
  let newData := set_Volume mem data.1 (dataSize s) (toInt16 (bitsPerSample s)) volume
  let other_data_buffer := get_OtherData (fileSize s) (dataSize s) data.2.2
  let last := getchar other_data_buffer.2
  if last.1 ≠ EOF then ⟨1, [], [Diag.badFileSize], last.2⟩ else
  ⟨flag0,
   swrite_ch mem (tagAt s 0) 4 ++ write_u32 (fileSize s) ++ swrite_ch mem (tagAt s 8) 4 ++
     swrite_ch mem (tagAt s 12) 4 ++ write_u32 (fmtChunkSize s) ++ write_u16 (audioFormat s) ++
     write_u16 (numChannels s) ++ write_u32 (sampleRate s) ++ write_u32 (byteRate s) ++
     write_u16 (blockAlign s) ++ write_d16 (toInt16 (bitsPerSample s)) ++
     swrite_ch mem (tagAt s 36) 4 ++ write_u32 (dataSize s) ++
     swrite_ch mem newData (dataSize s) ++
     swrite_ch mem other_data_buffer.1
       (sub32 (fileSize s) ((SIZE_OF_WAVE_HEADER + dataSize s) % 2 ^ 32)),
   [], last.2⟩

/-- What `play_sound` does once the header has passed the ten checks. -/
def play_tail (drv : Driver) (mem : Nat → Byte) (s : List Byte) : PlayOutcome :=
  let buffer := read_DataSegment (dataSize s) (s.drop 44)
  if drv.open_fd < 0 then ⟨1, [Diag.noDevice], buffer.2.2, []⟩ else
  let setup := caudio_setup_params drv (numChannels s) (toInt16 (bitsPerSample s))
    (sampleRate s) 1024
  if setup.1 ≠ 0 then ⟨(setup.1 : Int), [Diag.configure setup.1], buffer.2.2, setup.2⟩ else
  let r := play_loop drv mem buffer.1 (dataSize s) (dataSize s) 0 0 0 (fresh mem 1024)
  ⟨r.1, r.2.1, buffer.2.2, setup.2 ++ DevEvent.start :: r.2.2⟩

/-- A command got past the header validation: none of the ten header
diagnostics was emitted. -/
def pastHeader (err : List Diag) : Prop := ∀ d ∈ err, d.isHeader = false

instance (err : List Diag) : Decidable (pastHeader err) := by
  unfold pastHeader; infer_instance

/-! ## Concrete streams -/

/-- A 44-byte header with the given field values and the four correct tags,
`fmtChunkSize = 16` and `audioFormat = 1`. -/
def mkHeader (fileSize numChannels sampleRate byteRate blockAlign bitsPerSample dataSize : Nat) :
    List Byte :=
  tagRIFF ++ write_u32 fileSize ++ tagWAVE ++ tagFMT ++ write_u32 16 ++ write_u16 1 ++
    write_u16 numChannels ++ write_u32 sampleRate ++ write_u32 byteRate ++
    write_u16 blockAlign ++ write_u16 bitsPerSample ++ tagDATA ++ write_u32 dataSize

/-- The minimal file of the specification: mono, 8000 Hz, 8-bit, eight zero
payload bytes, `fileSize = 36 + 8`. -/
def minimalWav : List Byte := mkHeader 44 1 8000 8000 1 8 8 ++ List.replicate 8 0

/-- A mono 16-bit header with `sampleRate = 2^31`, `blockAlign = 2` and
`byteRate = 0`, without payload. -/
def wrapRateWav : List Byte := mkHeader 36 1 (2 ^ 31) 0 2 16 0

/-- The minimal file with `byteRate` changed to 8001. -/
def badByteRateWav : List Byte := mkHeader 44 1 8000 8001 1 8 8 ++ List.replicate 8 0

/-- A mono 8-bit header with `sampleRate = 0` and `byteRate = 0`, without
payload. -/
def zeroRateWav : List Byte := mkHeader 36 1 0 0 1 8 0

/-- Heap contents used at the concrete inputs: every cell holds 0. -/
def zeroMem : Nat → Byte := fun _ => 0

/-- The four container commands fail with the insufficient-data diagnostic and
the flag at 1 on the stream `s`. -/
def allFailInsufficient (mem : Nat → Byte) (rate volume : ℚ) (channel flag0 : Int)
    (s : List Byte) : Prop :=
  ((info_command s).flag = 1 ∧ (info_command s).err = [Diag.insufficientData]) ∧
  ((srate_command mem rate flag0 s).flag = 1 ∧
    (srate_command mem rate flag0 s).err = [Diag.insufficientData]) ∧
  ((schannel_command mem channel flag0 s).flag = 1 ∧
    (schannel_command mem channel flag0 s).err = [Diag.insufficientData]) ∧
  ((svolume_command mem volume flag0 s).flag = 1 ∧
    (svolume_command mem volume flag0 s).err = [Diag.insufficientData])

/-- The request is a block of samples passed to the device. -/
def DevEvent.isWrite : DevEvent → Bool
  | .write _ => true
  | _ => false

/-- The device opens, accepts every configuration request and every write. -/
def deviceOk (drv : Driver) : Prop :=
  0 ≤ drv.open_fd ∧ 0 ≤ drv.refine_ret ∧ (∀ hw, 0 ≤ drv.hw_params_ret hw) ∧
  (∀ sw, 0 ≤ drv.sw_params_ret sw) ∧ 0 ≤ drv.prepare_ret ∧ ∀ k, drv.write_ok k = true

/-- A device that opens as descriptor 3, advertises 1-2 channels, 8000-48000
Hz, periods of 64-4096 frames and buffers of 256-16384 frames, and accepts
every request and every write. -/
def okDriver : Driver where
  open_fd := 3
  refine_ret := 0
  refined := ⟨⟨1, 2⟩, ⟨8000, 48000⟩, ⟨64, 4096⟩, ⟨256, 16384⟩, none⟩
  hw_params_ret := fun _ => 0
  sw_params_ret := fun _ => 0
  prepare_ret := 0
  write_ok := fun _ => true

/-- The minimal payload behind a header that declares one trailing byte
(`fileSize = 36 + 8 + 1`), the stream ending right after the payload. -/
def missingTrailerWav : List Byte := mkHeader 45 1 8000 8000 1 8 8 ++ List.replicate 8 0

/-- The minimal file followed by the byte 5, with the header declaring that
byte (`fileSize = 36 + 8 + 1`). -/
def declaredTrailerWav : List Byte :=
  mkHeader 45 1 8000 8000 1 8 8 ++ List.replicate 8 0 ++ [5]

/-- A stereo 8-bit file with the four payload bytes 10, 20, 30, 40 (two
frames: left 10 and 30, right 20 and 40), `fileSize = 36 + 4`. -/
def stereo8Wav : List Byte := mkHeader 40 2 8000 16000 2 8 4 ++ [10, 20, 30, 40]

/-- A stereo 16-bit file with the eight payload bytes 1 .. 8 (two frames: left
samples 1 2 and 5 6, right samples 3 4 and 7 8), `fileSize = 36 + 8`. -/
def stereo16Wav : List Byte := mkHeader 44 2 8000 32000 4 16 8 ++ [1, 2, 3, 4, 5, 6, 7, 8]

/-- The stereo 8-bit file followed by the trailing byte 99, which the header
declares (`fileSize = 36 + 4 + 1`). -/
def stereo8TrailerWav : List Byte :=
  mkHeader 41 2 8000 16000 2 8 4 ++ [10, 20, 30, 40] ++ [99]

/-- A mono 16-bit file with the four payload bytes 1, 2, 3, 4. -/
def mono16Wav : List Byte := mkHeader 40 1 8000 16000 2 16 4 ++ [1, 2, 3, 4]

/-- A mono 8-bit file with the two payload bytes 200 and 1. -/
def loudWav : List Byte := mkHeader 38 1 8000 8000 1 8 2 ++ [200, 1]

/-- Heap contents used at the concrete inputs: every cell holds 7. -/
def sevenMem : Nat → Byte := fun _ => 7

/-- A well-formed file: the header passes the ten checks, `fileSize` covers the
payload and the stream has exactly `fileSize + 8` bytes. -/
def wellFormed (s : List Byte) : Prop :=
  validHeader s ∧ 36 + dataSize s ≤ fileSize s ∧ s.length = fileSize s + 8

/-- Truncation toward zero of a rational number (the `trunc` of the
specification). -/
def truncQ (q : ℚ) : Int := if 0 ≤ q then ⌊q⌋ else ⌈q⌉

/-- The stream `s` with the eight bytes at offsets 24 .. 31 replaced by the
little-endian encodings of `a` and `b`. -/
def withRates (s : List Byte) (a b : Nat) : List Byte :=
  s.take 24 ++ write_u32 a ++ write_u32 b ++ s.drop 32

/-- A stereo 16-bit header at 11025 Hz (`byteRate = 44100`, `blockAlign = 4`),
without payload. -/
def quarterRateWav : List Byte := mkHeader 36 2 11025 44100 4 16 0

/-- The buffer `channel_data` of `schannel_command` on the stream `s`: the
extraction of the width given by `bitsPerSample`, applied to the payload, the
selector being forced to 0 on mono input. -/
def channelData (mem : Nat → Byte) (channel : Int) (s : List Byte) : List Byte :=
  if bitsPerSample s = 8 then
    read_Channel_8bit mem ((s.drop 44).take (dataSize s)) (dataSize s)
      (if numChannels s = 1 then 0 else channel)
  else
    read_Channel_16bit mem ((s.drop 44).take (dataSize s)) (dataSize s)
      (if numChannels s = 1 then 0 else channel)

/-- The value `out` computed by one iteration of `set_Volume16bit` from the
byte pair `lo`, `hi`. -/
def vol16 (volume : ℚ) (lo hi : Byte) : Int :=
  clamp_16bit (toI32 (truncMul (toInt16 (lo.val + hi.val * 2 ^ 8)) volume))

/-- The byte computed by one iteration of `set_Volume8bit` from the cell `b`. -/
def vol8 (volume : ℚ) (b : Byte) : Byte :=
  byteOf (clamp_8bit (toU32 (truncMul (charVal b) volume)))

/-- Sample number `k` of a 16-bit payload: the little-endian byte pair at
offsets `2k`, `2k+1` decoded as a signed 16-bit integer. -/
def sample16 (l : List Byte) (k : Nat) : Int :=
  toInt16 ((l.getD (2 * k) 0).val + (l.getD (2 * k + 1) 0).val * 2 ^ 8)

/-- A mono 16-bit file whose payload is the single sample 1 (bytes 1, 0). -/
def unitSampleWav : List Byte := mkHeader 38 1 8000 16000 2 16 2 ++ [1, 0]

/-! ## caudio.h: the structures `caudio_setup_params` submits -/

/-- The structure `caudio_setup_params` submits with `HW_PARAMS`, computed from
the intervals `HW_REFINE` left in it and from the requested values: the
statements of the function between the two `ioctl` calls. -/
def requestedHw (refined : HwParams) (channels : Nat) (bits_per_sample : Int)
    (sample_rate segment_size : Nat) : HwParams :=
  let hw := refined
  let channels := if channels < hw.ch.min ∨ channels > hw.ch.max then hw.ch.max else channels
  let sample_rate := if sample_rate < hw.rate.min then hw.rate.min else sample_rate
  let sample_rate := if sample_rate > hw.rate.max then hw.rate.max else sample_rate
  let segment_size := if segment_size < hw.ps.min then hw.ps.min else segment_size
  let segment_size := if segment_size > hw.ps.max then hw.ps.max else segment_size
  let hw := { hw with ps := ⟨segment_size, segment_size⟩ }
  let buffer_size := (segment_size * 4) % 2 ^ 32
  let buffer_size := if buffer_size < hw.bs.min then hw.bs.min else buffer_size
  let buffer_size := if buffer_size > hw.bs.max then hw.bs.max else buffer_size
  let hw := { hw with bs := ⟨buffer_size, buffer_size⟩ }
  let fmt := if bits_per_sample = 8 then Format.U8 else Format.S16_LE
  let hw := { hw with format := some fmt }
  let hw := { hw with ch := ⟨channels, channels⟩ }
  let hw := { hw with rate := ⟨sample_rate, sample_rate⟩ }
  let hw := { hw with ps := ⟨segment_size, segment_size⟩ }
  { hw with bs := ⟨(segment_size * 4) % 2 ^ 32, (segment_size * 4) % 2 ^ 32⟩ }

/-- The structure `caudio_setup_params` submits with `SW_PARAMS`. -/
def requestedSw (refined : HwParams) (segment_size : Nat) : SwParams :=
  let segment_size := if segment_size < refined.ps.min then refined.ps.min else segment_size
  let segment_size := if segment_size > refined.ps.max then refined.ps.max else segment_size
  ⟨1, 1, 2 ^ 32 - 1, 0, 0, 0x7FFFFFFF, segment_size⟩

/-- The phase of `caudio_setup_params` a request belongs to: 1 for `HW_REFINE`,
2 for `HW_PARAMS`, 3 for `SW_PARAMS`, 4 for `PREPARE`, 0 for the requests the
function does not make. -/
def DevEvent.phase : DevEvent → Nat
  | .hwRefine => 1
  | .hwParams _ => 2
  | .swParams _ => 3
  | .prepare => 4
  | _ => 0

/-- The value the driver returns for a configuration request. -/
def Driver.answer (drv : Driver) : DevEvent → Int
  | .hwRefine => drv.refine_ret
  | .hwParams hw => drv.hw_params_ret hw
  | .swParams sw => drv.sw_params_ret sw
  | .prepare => drv.prepare_ret
  | _ => 0

/-- A device that advertises 2 to 8 channels, 8000-48000 Hz, periods of
64-4096 frames and buffers of 256-2048 frames, and accepts every request and
every write. -/
def surroundDriver : Driver where
  open_fd := 3
  refine_ret := 0
  refined := ⟨⟨2, 8⟩, ⟨8000, 48000⟩, ⟨64, 4096⟩, ⟨256, 2048⟩, none⟩
  hw_params_ret := fun _ => 0
  sw_params_ret := fun _ => 0
  prepare_ret := 0
  write_ok := fun _ => true

/-! ## Playback: the blocks written -/

/-- The blocks passed to `caudio_write_data_to_device`, in order. -/
def writtenBlocks : List DevEvent → List (List Byte)
  | [] => []
  | DevEvent.write segment :: es => segment :: writtenBlocks es
  | _ :: es => writtenBlocks es

/-- A device that opens and accepts every configuration request, and whose
first write fails. -/
def failingDriver : Driver where
  open_fd := 3
  refine_ret := 0
  refined := ⟨⟨1, 2⟩, ⟨8000, 48000⟩, ⟨64, 4096⟩, ⟨256, 16384⟩, none⟩
  hw_params_ret := fun _ => 0
  sw_params_ret := fun _ => 0
  prepare_ret := 0
  write_ok := fun _ => false

/-! ## soundman.h: the generator `mysound` -/

/-- The constant `M_PI` of `math.h`: the `double` nearest to π. -/
def M_PI : ℚ := 884279719003555 / 281474976710656

/-- Conversion of an `int` value to `uint32_t`: the value modulo `2^32`. -/
def u32 (x : Int) : Nat := (x % 2 ^ 32).toNat

/-- Conversion `(int16_t)d` of a `double` whose integer part is `t`.  Inside
the `int16_t` range this is `t`; outside, C leaves the result undefined and the
value is the one of the x86-64 code (a 32-bit truncating conversion whose low
16 bits are kept). -/
def toI16 (t : Int) : Int := toInt16 (toI32 t % 2 ^ 16).toNat

/-- The sample number `i` of `mysound`, as stored in `int16_t sample`: the
integer part of `amp * sin(2π fc t - mi sin(2π fm t))` at `t = i / sr`.  The
values of `double` are rationals and the arithmetic on them is exact; `sin` is
the function of the mathematical library. -/
def mysound_sample (sin : ℚ → ℚ) (sr : Int) (fm fc mi amp : ℚ) (i : Nat) : Int :=
  let t : ℚ := (i : ℚ) / (sr : ℚ)
  let tmp : ℚ := amp * sin (2 * M_PI * fc * t - mi * sin (2 * M_PI * fm * t))
  toI16 (truncQ tmp)

/-- `mysound(dur, sr, fm, fc, mi, amp)`: the bytes written to standard output.
The products of `int` values are taken modulo `2^32` when they are stored in a
`uint32_t` (an overflow of the `int` product, undefined in C, wraps). -/
def mysound (sin : ℚ → ℚ) (dur sr : Int) (fm fc mi amp : ℚ) : List Byte :=
  let mono_stereo : Int := 1
  let bits_per_sample : Int := 16
  let bytes_per_sec : Nat := u32 (sr * mono_stereo * Int.tdiv bits_per_sample 8)
  let block_align : Nat := ((mono_stereo * Int.tdiv bits_per_sample 8) % 2 ^ 16).toNat
  let data_segment_size : Nat := u32 (dur * sr * (block_align : Int))
  let format_chunk : Nat := 16
  let SizeOfFIle : Nat := (SIZE_OF_WAVE_HEADER + data_segment_size) % 2 ^ 32
  let wave_format : Nat := 1
  let total_samples : Nat := u32 (dur * sr)
  swrite_ch zeroMem tagRIFF 4 ++ write_u32 SizeOfFIle ++ swrite_ch zeroMem tagWAVE 4 ++
    swrite_ch zeroMem tagFMT 4 ++ write_u32 format_chunk ++ write_u16 wave_format ++
    write_u16 mono_stereo.toNat ++ write_u32 (u32 sr) ++ write_u32 bytes_per_sec ++
    write_u16 block_align ++ write_d16 bits_per_sample ++ swrite_ch zeroMem tagDATA 4 ++
    write_u32 data_segment_size ++
    (List.range total_samples).flatMap
      (fun i => write_d16 (mysound_sample sin sr fm fc mi amp i))

/-- A stereo 8-bit file with `sampleRate = 2^31`, `blockAlign = 2` and
`byteRate = 0`, which is `sampleRate * blockAlign` modulo `2^32`, and the four
payload bytes 10, 20, 30, 40. -/
def wrapStereoWav : List Byte := mkHeader 40 2 (2 ^ 31) 0 2 8 4 ++ [10, 20, 30, 40]

/-! ## utils.h: the cells the 16-bit loops touch -/

/-- The cells the loop of `read_Channel_16bit` touches, in order: at each
iteration the indices `i` and `i + 1`, read in `data` and written in `buffer`.
The first argument is the loop bound, `fuel` bounds the number of
iterations. -/
def read_Channel_16bit_cells (size : Nat) : Nat → Nat → List Nat
  | 0, _ => []
  | fuel + 1, i =>
    if i < size then i :: (i + 1) :: read_Channel_16bit_cells size fuel (i + 2) else []

/-- The cells `read_Channel_16bit(data, size, channel)` touches: the loop bound
is `size / 2`, which is also the number of cells of `buffer`; `data` has `size`
cells. -/
def read_Channel_16bit_touched (size : Nat) (channel : Int) : List Nat :=
  read_Channel_16bit_cells (size / 2) (size / 2) (if channel = 0 then 0 else 1)

/-- The cells the loop of `set_Volume16bit` touches, in order: at each
iteration the indices `i` and `i + 1`, read in `data` and written in
`buffer`. -/
def set_Volume16bit_cells (size : Nat) : Nat → Nat → List Nat
  | 0, _ => []
  | fuel + 1, i =>
    if i < size then i :: (i + 1) :: set_Volume16bit_cells size fuel (i + 2) else []

/-- The cells `set_Volume16bit(data, size, volume)` touches; `data` and
`buffer` have `size` cells. -/
def set_Volume16bit_touched (size : Nat) : List Nat := set_Volume16bit_cells size size 0

/-- A mono 16-bit file whose payload has three bytes: one sample and a half. -/
def oddPayloadWav : List Byte := mkHeader 39 1 8000 16000 2 16 3 ++ [1, 0, 2]

/-! ## soundman.h: the calls of `malloc` and `free` -/

/-- The buffers the commands obtain from `malloc`, named after the variable
that holds the pointer; each variable is assigned once. -/
inductive Buf where
  | RIFF
  | WAVE
  | FMT
  | data_start_segment
  | data
  | other_data_buffer
  | channel_data
  | newData
  | buffer
  | segment
  deriving DecidableEq, Repr

/-- A call of `malloc` whose result goes to the variable, or a call of `free`
on the variable. -/
inductive HeapEvent where
  | malloc (b : Buf)
  | free (b : Buf)
  deriving DecidableEq, Repr

/-- Replays the heap calls on the list of the buffers that are allocated and
not yet released.  A `malloc` for a buffer that is still allocated and a `free`
of a buffer that is not allocated (never allocated, or released already) stop
the replay with `none`. -/
def heapRun : List Buf → List HeapEvent → Option (List Buf)
  | live, [] => some live
  | live, HeapEvent.malloc b :: es => if b ∈ live then none else heapRun (b :: live) es
  | live, HeapEvent.free b :: es => if b ∈ live then heapRun (live.erase b) es else none

/-- Every buffer allocated in the trace is released exactly once, after its
allocation, and nothing else is released: the replay from the empty heap
succeeds and ends with the empty heap. -/
def releasedOnce (t : List HeapEvent) : Prop := heapRun [] t = some []

instance (t : List HeapEvent) : Decidable (releasedOnce t) := by
  unfold releasedOnce; infer_instance

/-- The calls of `malloc` (inside `get_RIFF` and its aliases) and of `free`
made by `info_command`, in order, on the path the input selects. -/
def info_command_heap (s0 : List Byte) : List HeapEvent :=
  let RIFF := get_RIFF s0
  let h := [HeapEvent.malloc Buf.RIFF]
  if RIFF.1 ≠ tagRIFF then h ++ [HeapEvent.free Buf.RIFF] else
  let SizeOfFile := get_SizeOfFile RIFF.2
  let WAVE := get_WAVE SizeOfFile.2
  let h := h ++ [HeapEvent.malloc Buf.WAVE]
  if WAVE.1 ≠ tagWAVE then h ++ [HeapEvent.free Buf.RIFF, HeapEvent.free Buf.WAVE] else
  let FMT := get_FMT WAVE.2
  let h := h ++ [HeapEvent.malloc Buf.FMT]
  let free3 := [HeapEvent.free Buf.RIFF, HeapEvent.free Buf.WAVE, HeapEvent.free Buf.FMT]
  if FMT.1 ≠ tagFMT then h ++ free3 else
  let format_chunk := get_FormatChunk FMT.2
  if format_chunk.1 ≠ 16 then h ++ free3 else
  let wave_format := get_WaveFormat format_chunk.2
  if wave_format.1 ≠ 1 then h ++ free3 else
  let mono_stereo := get_MonoStereo wave_format.2
  if mono_stereo.1 ≠ 1 ∧ mono_stereo.1 ≠ 2 then h ++ free3 else
  let sample_rate := get_SampleRate mono_stereo.2
  let byte_per_sec := get_BytePerSec sample_rate.2
  let block_align := get_BlockAlign byte_per_sec.2
  if byte_per_sec.1 ≠ (sample_rate.1 * block_align.1) % 2 ^ 32 then h ++ free3 else
  let bps := get_BitsPerSample block_align.2
  let bits_per_sample : Int := toInt16 bps.1
  if bits_per_sample ≠ 8 ∧ bits_per_sample ≠ 16 then h ++ free3 else
  if (block_align.1 : Int) ≠ Int.tdiv bits_per_sample 8 * (mono_stereo.1 : Int) then
    h ++ free3 else
  let data_start_segment := get_DataSegmentStart bps.2
  let h := h ++ [HeapEvent.malloc Buf.data_start_segment]
  let free4 := free3 ++ [HeapEvent.free Buf.data_start_segment]
  if data_start_segment.1 ≠ tagDATA then h ++ free4 else
  let data_segment_size := get_DataSegmentSize data_start_segment.2
  let loop := info_dataLoop data_segment_size.1 data_segment_size.2
  if loop.2.1 then h ++ free4 else
  let total_bytes_traversed := (SIZE_OF_WAVE_HEADER + loop.1) % 2 ^ 32
  let s1 := info_skipLoop (SizeOfFile.1 - total_bytes_traversed) loop.2.2
  let last := getchar s1
  if last.1 ≠ EOF then h ++ free4 else
  h ++ free4

/-- The calls of `malloc` (inside the readers) and of `free` made by
`srate_command`, in order, on the path the input selects. -/
def srate_command_heap (s0 : List Byte) : List HeapEvent :=
  let RIFF := get_RIFF s0
  let h := [HeapEvent.malloc Buf.RIFF]
  if RIFF.1 ≠ tagRIFF then h ++ [HeapEvent.free Buf.RIFF] else
  let SizeOfFile := get_SizeOfFile RIFF.2
  let WAVE := get_WAVE SizeOfFile.2
  let h := h ++ [HeapEvent.malloc Buf.WAVE]
  if WAVE.1 ≠ tagWAVE then h ++ [HeapEvent.free Buf.RIFF, HeapEvent.free Buf.WAVE] else
  let FMT := get_FMT WAVE.2
  let h := h ++ [HeapEvent.malloc Buf.FMT]
  let free3 := [HeapEvent.free Buf.RIFF, HeapEvent.free Buf.WAVE, HeapEvent.free Buf.FMT]
  if FMT.1 ≠ tagFMT then h ++ free3 else
  let format_chunk := get_FormatChunk FMT.2
  if format_chunk.1 ≠ 16 then h ++ free3 else
  let wave_format := get_WaveFormat format_chunk.2
  if wave_format.1 ≠ 1 then h ++ free3 else
  let mono_stereo := get_MonoStereo wave_format.2
  if mono_stereo.1 ≠ 1 ∧ mono_stereo.1 ≠ 2 then h ++ free3 else
  let sample_rate := get_SampleRate mono_stereo.2
  let bytes_per_sec := get_BytePerSec sample_rate.2
  let block_align := get_BlockAlign bytes_per_sec.2
  if bytes_per_sec.1 ≠ (sample_rate.1 * block_align.1) % 2 ^ 32 then h ++ free3 else
  let bps := get_BitsPerSample block_align.2
  let bits_per_sample : Int := toInt16 bps.1
  if bits_per_sample ≠ 8 ∧ bits_per_sample ≠ 16 then h ++ free3 else
  if (block_align.1 : Int) ≠ Int.tdiv bits_per_sample 8 * (mono_stereo.1 : Int) then
    h ++ free3 else
  let data_start_segment := get_DataSegmentStart bps.2
  let h := h ++ [HeapEvent.malloc Buf.data_start_segment]
  let free4 := free3 ++ [HeapEvent.free Buf.data_start_segment]
  if data_start_segment.1 ≠ tagDATA then h ++ free4 else
  let data_segment_size := get_DataSegmentSize data_start_segment.2
  let data := read_DataSegment data_segment_size.1 data_segment_size.2
  let h := h ++ [HeapEvent.malloc Buf.data]
  if data.2.1 then h ++ free4 ++ [HeapEvent.free Buf.data] else
  let other_data_buffer := get_OtherData SizeOfFile.1 data_segment_size.1 data.2.2
  let h := h ++ [HeapEvent.malloc Buf.other_data_buffer]
  let last := getchar other_data_buffer.2
  if last.1 ≠ EOF then
    h ++ free4 ++ [HeapEvent.free Buf.data, HeapEvent.free Buf.other_data_buffer] else
  h ++ free4 ++ [HeapEvent.free Buf.data, HeapEvent.free Buf.other_data_buffer]

/-- The calls of `malloc` (inside the readers and the extraction) and of
`free` made by `schannel_command`, in order, on the path the input selects. -/
def schannel_command_heap (s0 : List Byte) : List HeapEvent :=
  let RIFF := get_RIFF s0
  let h := [HeapEvent.malloc Buf.RIFF]
  if RIFF.1 ≠ tagRIFF then h ++ [HeapEvent.free Buf.RIFF] else
  let SizeOfFile := get_SizeOfFile RIFF.2
  let WAVE := get_WAVE SizeOfFile.2
  let h := h ++ [HeapEvent.malloc Buf.WAVE]
  if WAVE.1 ≠ tagWAVE then h ++ [HeapEvent.free Buf.RIFF, HeapEvent.free Buf.WAVE] else
  let FMT := get_FMT WAVE.2
  let h := h ++ [HeapEvent.malloc Buf.FMT]
  let free3 := [HeapEvent.free Buf.RIFF, HeapEvent.free Buf.WAVE, HeapEvent.free Buf.FMT]
  if FMT.1 ≠ tagFMT then h ++ free3 else
  let format_chunk := get_FormatChunk FMT.2
  if format_chunk.1 ≠ 16 then h ++ free3 else
  let wave_format := get_WaveFormat format_chunk.2
  if wave_format.1 ≠ 1 then h ++ free3 else
  let mono_stereo := get_MonoStereo wave_format.2
  if mono_stereo.1 ≠ 1 ∧ mono_stereo.1 ≠ 2 then h ++ free3 else
  let sample_rate := get_SampleRate mono_stereo.2
  let bytes_per_sec := get_BytePerSec sample_rate.2
  let block_align := get_BlockAlign bytes_per_sec.2
  if bytes_per_sec.1 ≠ (sample_rate.1 * block_align.1) % 2 ^ 32 then h ++ free3 else
  let bits_per_sample := get_BitsPerSample block_align.2
  if bits_per_sample.1 ≠ 8 ∧ bits_per_sample.1 ≠ 16 then h ++ free3 else
  if block_align.1 ≠ (bits_per_sample.1 / 8) * mono_stereo.1 then h ++ free3 else
  let data_start_segment := get_DataSegmentStart bits_per_sample.2
  let h := h ++ [HeapEvent.malloc Buf.data_start_segment]
  let free4 := free3 ++ [HeapEvent.free Buf.data_start_segment]
  if data_start_segment.1 ≠ tagDATA then h ++ free4 else
  let data_segment_size := get_DataSegmentSize data_start_segment.2
  let data := read_DataSegment data_segment_size.1 data_segment_size.2
  let h := h ++ [HeapEvent.malloc Buf.data]
  if data.2.1 then h ++ free4 ++ [HeapEvent.free Buf.data] else
  let other_data_buffer := get_OtherData SizeOfFile.1 data_segment_size.1 data.2.2
  let h := h ++ [HeapEvent.malloc Buf.other_data_buffer]
  let last := getchar other_data_buffer.2
  if last.1 ≠ EOF then
    h ++ free4 ++ [HeapEvent.free Buf.data, HeapEvent.free Buf.other_data_buffer] else
  let h := h ++ [HeapEvent.malloc Buf.channel_data]
  h ++ free4 ++ [HeapEvent.free Buf.data, HeapEvent.free Buf.other_data_buffer,
    HeapEvent.free Buf.channel_data]

/-- The calls of `malloc` (inside the readers and `set_Volume`) and of `free`
made by `svolume_command`, in order, on the path the input selects. -/
def svolume_command_heap (s0 : List Byte) : List HeapEvent :=
  let RIFF := get_RIFF s0
  let h := [HeapEvent.malloc Buf.RIFF]
  if RIFF.1 ≠ tagRIFF then h ++ [HeapEvent.free Buf.RIFF] else
  let SizeOfFile := get_SizeOfFile RIFF.2
  let WAVE := get_WAVE SizeOfFile.2
  let h := h ++ [HeapEvent.malloc Buf.WAVE]
  if WAVE.1 ≠ tagWAVE then h ++ [HeapEvent.free Buf.RIFF, HeapEvent.free Buf.WAVE] else
  let FMT := get_FMT WAVE.2
  let h := h ++ [HeapEvent.malloc Buf.FMT]
  let free3 := [HeapEvent.free Buf.RIFF, HeapEvent.free Buf.WAVE, HeapEvent.free Buf.FMT]
  if FMT.1 ≠ tagFMT then h ++ free3 else
  let format_chunk := get_FormatChunk FMT.2
  if format_chunk.1 ≠ 16 then h ++ free3 else
  let wave_format := get_WaveFormat format_chunk.2
  if wave_format.1 ≠ 1 then h ++ free3 else
  let mono_stereo := get_MonoStereo wave_format.2
  if mono_stereo.1 ≠ 1 ∧ mono_stereo.1 ≠ 2 then h ++ free3 else
  let sample_rate := get_SampleRate mono_stereo.2
  let bytes_per_sec := get_BytePerSec sample_rate.2
  let block_align := get_BlockAlign bytes_per_sec.2
  if bytes_per_sec.1 ≠ (sample_rate.1 * block_align.1) % 2 ^ 32 then h ++ free3 else
  let bits_per_sample := get_BitsPerSample block_align.2
  if bits_per_sample.1 ≠ 8 ∧ bits_per_sample.1 ≠ 16 then h ++ free3 else
  if block_align.1 ≠ (bits_per_sample.1 / 8) * mono_stereo.1 then h ++ free3 else
  let data_start_segment := get_DataSegmentStart bits_per_sample.2
  let h := h ++ [HeapEvent.malloc Buf.data_start_segment]
  let free4 := free3 ++ [HeapEvent.free Buf.data_start_segment]
  if data_start_segment.1 ≠ tagDATA then h ++ free4 else
  let data_segment_size := get_DataSegmentSize data_start_segment.2
  let data := read_DataSegment data_segment_size.1 data_segment_size.2
  let h := h ++ [HeapEvent.malloc Buf.data]
  if data.2.1 then h ++ free4 ++ [HeapEvent.free Buf.data] else
  let h := h ++ [HeapEvent.malloc Buf.newData, HeapEvent.free Buf.data]
  let other_data_buffer := get_OtherData SizeOfFile.1 data_segment_size.1 data.2.2
  let h := h ++ [HeapEvent.malloc Buf.other_data_buffer]
  let last := getchar other_data_buffer.2
  if last.1 ≠ EOF then
    h ++ free4 ++ [HeapEvent.free Buf.newData, HeapEvent.free Buf.other_data_buffer] else
  h ++ free4 ++ [HeapEvent.free Buf.newData, HeapEvent.free Buf.other_data_buffer]

/-- The calls of `free` at the end of `play_sound`, the same after a failed
write and after the loop. -/
def play_sound_frees : List HeapEvent :=
  [HeapEvent.free Buf.segment, HeapEvent.free Buf.buffer,
   HeapEvent.free Buf.data_start_segment, HeapEvent.free Buf.RIFF, HeapEvent.free Buf.WAVE,
   HeapEvent.free Buf.FMT]

/-- The heap calls of the chunk loop of `play_sound` and of what follows it:
the loop itself allocates nothing, and both ways out of it release the six
buffers. -/
def play_loop_heap (drv : Driver) (size : Nat) : Nat → Nat → Nat → List HeapEvent
  | 0, _, _ => play_sound_frees
  | fuel + 1, steps, k =>
    if steps < size then
      let n := if (steps + 1024) % 2 ^ 32 < size then 1024 else size - steps
      let steps2 := (steps + n) % 2 ^ 32
      if drv.write_ok k then play_loop_heap drv size fuel steps2 (k + 1)
      else play_sound_frees
    else play_sound_frees

/-- The calls of `malloc` and of `free` made by `play_sound`, in order, on the
path the input and the device select. -/
def play_sound_heap (drv : Driver) (s0 : List Byte) : List HeapEvent :=
  let RIFF := get_RIFF s0
  let h := [HeapEvent.malloc Buf.RIFF]
  if RIFF.1 ≠ tagRIFF then h ++ [HeapEvent.free Buf.RIFF] else
  let g0 := getchar RIFF.2
  let g1 := getchar g0.2
  let g2 := getchar g1.2
  let g3 := getchar g2.2
  let WAVE := get_WAVE g3.2
  let h := h ++ [HeapEvent.malloc Buf.WAVE]
  if WAVE.1 ≠ tagWAVE then h ++ [HeapEvent.free Buf.RIFF, HeapEvent.free Buf.WAVE] else
  let FMT := get_FMT WAVE.2
  let h := h ++ [HeapEvent.malloc Buf.FMT]
  let free3 := [HeapEvent.free Buf.RIFF, HeapEvent.free Buf.WAVE, HeapEvent.free Buf.FMT]
  if FMT.1 ≠ tagFMT then h ++ free3 else
  let format_chunk := get_FormatChunk FMT.2
  if format_chunk.1 ≠ 16 then h ++ free3 else
  let wave_format := get_WaveFormat format_chunk.2
  if wave_format.1 ≠ 1 then h ++ free3 else
  let mono_stereo := get_MonoStereo wave_format.2
  if mono_stereo.1 ≠ 1 ∧ mono_stereo.1 ≠ 2 then h ++ free3 else
  let sample_rate := get_SampleRate mono_stereo.2
  let byte_per_sec := get_BytePerSec sample_rate.2
  let block_align := get_BlockAlign byte_per_sec.2
  if byte_per_sec.1 ≠ (sample_rate.1 * block_align.1) % 2 ^ 32 then h ++ free3 else
  let bps := get_BitsPerSample block_align.2
  let bits_per_sample : Int := toInt16 bps.1
  if bits_per_sample ≠ 8 ∧ bits_per_sample ≠ 16 then h ++ free3 else
  if (block_align.1 : Int) ≠ Int.tdiv bits_per_sample 8 * (mono_stereo.1 : Int) then
    h ++ free3 else
  let data_start_segment := get_DataSegmentStart bps.2
  let h := h ++ [HeapEvent.malloc Buf.data_start_segment]
  if data_start_segment.1 ≠ tagDATA then
    h ++ [HeapEvent.free Buf.data_start_segment] ++ free3 else
  let data_segment_size := get_DataSegmentSize data_start_segment.2
  let h := h ++ [HeapEvent.malloc Buf.buffer]
  let free5 := [HeapEvent.free Buf.buffer, HeapEvent.free Buf.data_start_segment] ++ free3
  if drv.open_fd < 0 then h ++ free5 else
  let setup := caudio_setup_params drv mono_stereo.1 bits_per_sample sample_rate.1 1024
  if setup.1 ≠ 0 then h ++ free5 else
  let h := h ++ [HeapEvent.malloc Buf.segment]
  h ++ play_loop_heap drv data_segment_size.1 data_segment_size.1 0 0

/-- The `double` nearest to 1.15: `5179139571476070 * 2^-52`. -/
def double115 : ℚ := ⟨2589569785738035, 2251799813685248, by decide, by decide⟩

theorem getchar_drop (s : List Byte) (n : Nat) :
    getchar (s.drop n) = (peek s n, s.drop (n + 1)) := by
  induction n generalizing s with
  | zero => cases s <;> simp [getchar, peek]
  | succ k ih =>
    cases s with
    | nil => simp [getchar, peek]
    | cons b t => simpa [peek] using ih t

theorem getchar_eq (s : List Byte) : getchar s = (peek s 0, s.drop 1) := by
  simpa using getchar_drop s 0

theorem get_RIFF_drop (s : List Byte) (n : Nat) :
    get_RIFF (s.drop n) = (tagAt s n, s.drop (n + 4)) := by
  simp [get_RIFF, getchar_drop, tagAt]

theorem get_SizeOfFile_drop (s : List Byte) (n : Nat) :
    get_SizeOfFile (s.drop n) = (u32At s n, s.drop (n + 4)) := by
  simp [get_SizeOfFile, getchar_drop, u32At]

theorem get_WaveFormat_drop (s : List Byte) (n : Nat) :
    get_WaveFormat (s.drop n) = (u16At s n, s.drop (n + 2)) := by
  simp [get_WaveFormat, getchar_drop, u16At]

theorem u16At_lt (s : List Byte) (n : Nat) : u16At s n < 2 ^ 16 := by
  unfold u16At; omega

theorem u32At_lt (s : List Byte) (n : Nat) : u32At s n < 2 ^ 32 := by
  unfold u32At; omega

theorem toInt16_eq_8 (u : Nat) (h : u < 2 ^ 16) : toInt16 u = 8 ↔ u = 8 := by
  unfold toInt16; split_ifs <;> omega

theorem toInt16_eq_16 (u : Nat) (h : u < 2 ^ 16) : toInt16 u = 16 ↔ u = 16 := by
  unfold toInt16; split_ifs <;> omega

theorem blockAlign_cond (ba b ch : Nat) (hb : ¬(¬b = 8 ∧ ¬b = 16)) :
    (¬(ba : Int) = Int.tdiv (toInt16 b) 8 * (ch : Int)) ↔ ¬ba = b / 8 * ch := by
  have h : b = 8 ∨ b = 16 := by omega
  have e8 : Int.tdiv (toInt16 8) 8 = 1 := by decide
  have e16 : Int.tdiv (toInt16 16) 8 = 2 := by decide
  rcases h with rfl | rfl
  · rw [e8]; omega
  · rw [e16]; omega

theorem info_command_eq (s : List Byte) :
    info_command s =
      match firstFailing s with
      | some c => headerFailure s c
      | none => info_tail s := by
  have hb := u16At_lt s 34
  unfold info_command
  rw [show get_RIFF s = get_RIFF (s.drop 0) from rfl]
  simp only [get_WAVE, get_FMT, get_FormatChunk, get_MonoStereo, get_SampleRate, get_BytePerSec,
    get_BlockAlign, get_BitsPerSample, get_DataSegmentStart, get_DataSegmentSize,
    get_RIFF_drop, get_SizeOfFile_drop, get_WaveFormat_drop, Nat.zero_add, Nat.reduceAdd]
  simp only [ne_eq, toInt16_eq_8 _ hb, toInt16_eq_16 _ hb]
  simp only [firstFailing, Check.order, List.find?, Check.fails, fmtChunkSize, audioFormat,
    numChannels, sampleRate, byteRate, blockAlign, bitsPerSample]
  by_cases h1 : ¬tagAt s 0 = tagRIFF
  · simp [h1, headerFailure, Check.diag, Check.callsMade]
  by_cases h2 : ¬tagAt s 8 = tagWAVE
  · simp [h1, h2, headerFailure, Check.diag, Check.callsMade]
  by_cases h3 : ¬tagAt s 12 = tagFMT
  · simp [h1, h2, h3, headerFailure, Check.diag, Check.callsMade]
  by_cases h4 : ¬u32At s 16 = 16
  · simp [h1, h2, h3, h4, headerFailure, Check.diag, Check.callsMade]
  by_cases h5 : ¬u16At s 20 = 1
  · simp [h1, h2, h3, h4, h5, headerFailure, Check.diag, Check.callsMade]
  by_cases h6 : ¬u16At s 22 = 1 ∧ ¬u16At s 22 = 2
  · simp [h1, h2, h3, h4, h5, h6, headerFailure, Check.diag, Check.callsMade]
  by_cases h7 : ¬u32At s 28 = u32At s 24 * u16At s 32 % 4294967296
  · simp [h1, h2, h3, h4, h5, h6, h7, headerFailure, Check.diag, Check.callsMade]
  by_cases h8 : ¬u16At s 34 = 8 ∧ ¬u16At s 34 = 16
  · simp [h1, h2, h3, h4, h5, h6, h7, h8, headerFailure, Check.diag, Check.callsMade]
  simp only [blockAlign_cond _ _ _ h8]
  by_cases h9 : ¬u16At s 32 = u16At s 34 / 8 * u16At s 22
  · simp [h1, h2, h3, h4, h5, h6, h7, h8, h9, headerFailure, Check.diag, Check.callsMade]
  by_cases h10 : ¬tagAt s 36 = tagDATA
  · simp [h1, h2, h3, h4, h5, h6, h7, h8, h9, h10, headerFailure, Check.diag, Check.callsMade]
  simp [h1, h2, h3, h4, h5, h6, h7, h8, h9, h10, info_tail, fileSize, dataSize, fmtChunkSize,
    audioFormat, numChannels, sampleRate, byteRate, blockAlign, bitsPerSample]

theorem srate_command_eq (mem : Nat → Byte) (rate : ℚ) (flag0 : Int) (s : List Byte) :
    srate_command mem rate flag0 s =
      match firstFailing s with
      | some c => headerFailure s c
      | none => srate_tail mem rate flag0 s := by
  have hb := u16At_lt s 34
  unfold srate_command
  rw [show get_RIFF s = get_RIFF (s.drop 0) from rfl]
  simp only [get_WAVE, get_FMT, get_FormatChunk, get_MonoStereo, get_SampleRate, get_BytePerSec,
    get_BlockAlign, get_BitsPerSample, get_DataSegmentStart, get_DataSegmentSize,
    get_RIFF_drop, get_SizeOfFile_drop, get_WaveFormat_drop, getchar_drop, Nat.zero_add,
    Nat.reduceAdd]
  simp only [ne_eq, toInt16_eq_8 _ hb, toInt16_eq_16 _ hb]
  simp only [firstFailing, Check.order, List.find?, Check.fails, fmtChunkSize, audioFormat,
    numChannels, sampleRate, byteRate, blockAlign, bitsPerSample]
  by_cases h1 : ¬tagAt s 0 = tagRIFF
  · simp [h1, headerFailure, Check.diag, Check.callsMade]
  by_cases h2 : ¬tagAt s 8 = tagWAVE
  · simp [h1, h2, headerFailure, Check.diag, Check.callsMade]
  by_cases h3 : ¬tagAt s 12 = tagFMT
  · simp [h1, h2, h3, headerFailure, Check.diag, Check.callsMade]
  by_cases h4 : ¬u32At s 16 = 16
  · simp [h1, h2, h3, h4, headerFailure, Check.diag, Check.callsMade]
  by_cases h5 : ¬u16At s 20 = 1
  · simp [h1, h2, h3, h4, h5, headerFailure, Check.diag, Check.callsMade]
  by_cases h6 : ¬u16At s 22 = 1 ∧ ¬u16At s 22 = 2
  · simp [h1, h2, h3, h4, h5, h6, headerFailure, Check.diag, Check.callsMade]
  by_cases h7 : ¬u32At s 28 = u32At s 24 * u16At s 32 % 4294967296
  · simp [h1, h2, h3, h4, h5, h6, h7, headerFailure, Check.diag, Check.callsMade]
  by_cases h8 : ¬u16At s 34 = 8 ∧ ¬u16At s 34 = 16
  · simp [h1, h2, h3, h4, h5, h6, h7, h8, headerFailure, Check.diag, Check.callsMade]
  simp only [blockAlign_cond _ _ _ h8]
  by_cases h9 : ¬u16At s 32 = u16At s 34 / 8 * u16At s 22
  · simp [h1, h2, h3, h4, h5, h6, h7, h8, h9, headerFailure, Check.diag, Check.callsMade]
  by_cases h10 : ¬tagAt s 36 = tagDATA
  · simp [h1, h2, h3, h4, h5, h6, h7, h8, h9, h10, headerFailure, Check.diag, Check.callsMade]
  simp [h1, h2, h3, h4, h5, h6, h7, h8, h9, h10, srate_tail, fileSize, dataSize, fmtChunkSize,
    audioFormat, numChannels, sampleRate, byteRate, blockAlign, bitsPerSample]

theorem schannel_command_eq (mem : Nat → Byte) (channel : Int) (flag0 : Int) (s : List Byte) :
    schannel_command mem channel flag0 s =
      match firstFailing s with
      | some c => headerFailure s c
      | none => schannel_tail mem channel flag0 s := by
  have hb := u16At_lt s 34
  unfold schannel_command
  rw [show get_RIFF s = get_RIFF (s.drop 0) from rfl]
  simp only [get_WAVE, get_FMT, get_FormatChunk, get_MonoStereo, get_SampleRate, get_BytePerSec,
    get_BlockAlign, get_BitsPerSample, get_DataSegmentStart, get_DataSegmentSize,
    get_RIFF_drop, get_SizeOfFile_drop, get_WaveFormat_drop, getchar_drop, Nat.zero_add,
    Nat.reduceAdd]
  simp only [ne_eq, toInt16_eq_8 _ hb, toInt16_eq_16 _ hb]
  simp only [firstFailing, Check.order, List.find?, Check.fails, fmtChunkSize, audioFormat,
    numChannels, sampleRate, byteRate, blockAlign, bitsPerSample]
  by_cases h1 : ¬tagAt s 0 = tagRIFF
  · simp [h1, headerFailure, Check.diag, Check.callsMade]
  by_cases h2 : ¬tagAt s 8 = tagWAVE
  · simp [h1, h2, headerFailure, Check.diag, Check.callsMade]
  by_cases h3 : ¬tagAt s 12 = tagFMT
  · simp [h1, h2, h3, headerFailure, Check.diag, Check.callsMade]
  by_cases h4 : ¬u32At s 16 = 16
  · simp [h1, h2, h3, h4, headerFailure, Check.diag, Check.callsMade]
  by_cases h5 : ¬u16At s 20 = 1
  · simp [h1, h2, h3, h4, h5, headerFailure, Check.diag, Check.callsMade]
  by_cases h6 : ¬u16At s 22 = 1 ∧ ¬u16At s 22 = 2
  · simp [h1, h2, h3, h4, h5, h6, headerFailure, Check.diag, Check.callsMade]
  by_cases h7 : ¬u32At s 28 = u32At s 24 * u16At s 32 % 4294967296
  · simp [h1, h2, h3, h4, h5, h6, h7, headerFailure, Check.diag, Check.callsMade]
  by_cases h8 : ¬u16At s 34 = 8 ∧ ¬u16At s 34 = 16
  · simp [h1, h2, h3, h4, h5, h6, h7, h8, headerFailure, Check.diag, Check.callsMade]
  by_cases h9 : ¬u16At s 32 = u16At s 34 / 8 * u16At s 22
  · simp [h1, h2, h3, h4, h5, h6, h7, h8, h9, headerFailure, Check.diag, Check.callsMade]
  by_cases h10 : ¬tagAt s 36 = tagDATA
  · simp [h1, h2, h3, h4, h5, h6, h7, h8, h9, h10, headerFailure, Check.diag, Check.callsMade]
  simp [h1, h2, h3, h4, h5, h6, h7, h8, h9, h10, schannel_tail, fileSize, dataSize, fmtChunkSize,
    audioFormat, numChannels, sampleRate, byteRate, blockAlign, bitsPerSample]

theorem svolume_command_eq (mem : Nat → Byte) (volume : ℚ) (flag0 : Int) (s : List Byte) :
    svolume_command mem volume flag0 s =
      match firstFailing s with
      | some c => headerFailure s c
      | none => svolume_tail mem volume flag0 s := by
  have hb := u16At_lt s 34
  unfold svolume_command
  rw [show get_RIFF s = get_RIFF (s.drop 0) from rfl]
  simp only [get_WAVE, get_FMT, get_FormatChunk, get_MonoStereo, get_SampleRate, get_BytePerSec,
    get_BlockAlign, get_BitsPerSample, get_DataSegmentStart, get_DataSegmentSize,
    get_RIFF_drop, get_SizeOfFile_drop, get_WaveFormat_drop, getchar_drop, Nat.zero_add,
    Nat.reduceAdd]
  simp only [ne_eq, toInt16_eq_8 _ hb, toInt16_eq_16 _ hb]
  simp only [firstFailing, Check.order, List.find?, Check.fails, fmtChunkSize, audioFormat,
    numChannels, sampleRate, byteRate, blockAlign, bitsPerSample]
  by_cases h1 : ¬tagAt s 0 = tagRIFF
  · simp [h1, headerFailure, Check.diag, Check.callsMade]
  by_cases h2 : ¬tagAt s 8 = tagWAVE
  · simp [h1, h2, headerFailure, Check.diag, Check.callsMade]
  by_cases h3 : ¬tagAt s 12 = tagFMT
  · simp [h1, h2, h3, headerFailure, Check.diag, Check.callsMade]
  by_cases h4 : ¬u32At s 16 = 16
  · simp [h1, h2, h3, h4, headerFailure, Check.diag, Check.callsMade]
  by_cases h5 : ¬u16At s 20 = 1
  · simp [h1, h2, h3, h4, h5, headerFailure, Check.diag, Check.callsMade]
  by_cases h6 : ¬u16At s 22 = 1 ∧ ¬u16At s 22 = 2
  · simp [h1, h2, h3, h4, h5, h6, headerFailure, Check.diag, Check.callsMade]
  by_cases h7 : ¬u32At s 28 = u32At s 24 * u16At s 32 % 4294967296
  · simp [h1, h2, h3, h4, h5, h6, h7, headerFailure, Check.diag, Check.callsMade]
  by_cases h8 : ¬u16At s 34 = 8 ∧ ¬u16At s 34 = 16
  · simp [h1, h2, h3, h4, h5, h6, h7, h8, headerFailure, Check.diag, Check.callsMade]
  by_cases h9 : ¬u16At s 32 = u16At s 34 / 8 * u16At s 22
  · simp [h1, h2, h3, h4, h5, h6, h7, h8, h9, headerFailure, Check.diag, Check.callsMade]
  by_cases h10 : ¬tagAt s 36 = tagDATA
  · simp [h1, h2, h3, h4, h5, h6, h7, h8, h9, h10, headerFailure, Check.diag, Check.callsMade]
  simp [h1, h2, h3, h4, h5, h6, h7, h8, h9, h10, svolume_tail, fileSize, dataSize, fmtChunkSize,
    audioFormat, numChannels, sampleRate, byteRate, blockAlign, bitsPerSample]

theorem play_sound_eq (drv : Driver) (mem : Nat → Byte) (s : List Byte) :
    play_sound drv mem s =
      match firstFailing s with
      | some c => ⟨1, [c.diag], s.drop c.callsMade, []⟩
      | none => play_tail drv mem s := by
  have hb := u16At_lt s 34
  unfold play_sound
  rw [show get_RIFF s = get_RIFF (s.drop 0) from rfl]
  simp only [get_WAVE, get_FMT, get_FormatChunk, get_MonoStereo, get_SampleRate, get_BytePerSec,
    get_BlockAlign, get_BitsPerSample, get_DataSegmentStart, get_DataSegmentSize,
    get_RIFF_drop, get_SizeOfFile_drop, get_WaveFormat_drop, getchar_drop, Nat.zero_add,
    Nat.reduceAdd]
  simp only [ne_eq, toInt16_eq_8 _ hb, toInt16_eq_16 _ hb]
  simp only [firstFailing, Check.order, List.find?, Check.fails, fmtChunkSize, audioFormat,
    numChannels, sampleRate, byteRate, blockAlign, bitsPerSample]
  by_cases h1 : ¬tagAt s 0 = tagRIFF
  · simp [h1, headerFailure, Check.diag, Check.callsMade]
  by_cases h2 : ¬tagAt s 8 = tagWAVE
  · simp [h1, h2, headerFailure, Check.diag, Check.callsMade]
  by_cases h3 : ¬tagAt s 12 = tagFMT
  · simp [h1, h2, h3, headerFailure, Check.diag, Check.callsMade]
  by_cases h4 : ¬u32At s 16 = 16
  · simp [h1, h2, h3, h4, headerFailure, Check.diag, Check.callsMade]
  by_cases h5 : ¬u16At s 20 = 1
  · simp [h1, h2, h3, h4, h5, headerFailure, Check.diag, Check.callsMade]
  by_cases h6 : ¬u16At s 22 = 1 ∧ ¬u16At s 22 = 2
  · simp [h1, h2, h3, h4, h5, h6, headerFailure, Check.diag, Check.callsMade]
  by_cases h7 : ¬u32At s 28 = u32At s 24 * u16At s 32 % 4294967296
  · simp [h1, h2, h3, h4, h5, h6, h7, headerFailure, Check.diag, Check.callsMade]
  by_cases h8 : ¬u16At s 34 = 8 ∧ ¬u16At s 34 = 16
  · simp [h1, h2, h3, h4, h5, h6, h7, h8, headerFailure, Check.diag, Check.callsMade]
  simp only [blockAlign_cond _ _ _ h8]
  by_cases h9 : ¬u16At s 32 = u16At s 34 / 8 * u16At s 22
  · simp [h1, h2, h3, h4, h5, h6, h7, h8, h9, headerFailure, Check.diag, Check.callsMade]
  by_cases h10 : ¬tagAt s 36 = tagDATA
  · simp [h1, h2, h3, h4, h5, h6, h7, h8, h9, h10, headerFailure, Check.diag, Check.callsMade]
  simp [h1, h2, h3, h4, h5, h6, h7, h8, h9, h10, play_tail, fileSize, dataSize, fmtChunkSize,
    audioFormat, numChannels, sampleRate, byteRate, blockAlign, bitsPerSample]

/-! ## Closed forms of the loops -/

theorem toChar_val (b : Byte) : toChar (b.val : Int) = b := by
  apply Fin.ext
  have := b.isLt
  simp only [toChar]
  omega

theorem getchar_fst_eq_EOF (t : List Byte) : (getchar t).1 = EOF ↔ t = [] := by
  cases t with
  | nil => simp [getchar]
  | cons b u =>
    have := b.isLt
    simp only [getchar, EOF, reduceCtorEq, iff_false]

theorem getchar_snd (t : List Byte) : (getchar t).2 = t.drop 1 := by
  cases t <;> simp [getchar]

theorem info_skipLoop_eq (n : Nat) (t : List Byte) : info_skipLoop n t = t.drop n := by
  induction n generalizing t with
  | zero => simp [info_skipLoop]
  | succ k ih =>
    cases t with
    | nil => simp [info_skipLoop, getchar, ih]
    | cons b u => simp [info_skipLoop, getchar, ih]

theorem info_dataLoop_complete (n : Nat) (t : List Byte) (h : n ≤ t.length) :
    info_dataLoop n t = (n, false, t.drop n) := by
  induction n generalizing t with
  | zero => simp [info_dataLoop]
  | succ k ih =>
    cases t with
    | nil => simp at h
    | cons b u =>
      have hb := b.isLt
      have hne : ¬((b.val : Int) = EOF) := by simp only [EOF]; omega
      have hk : k ≤ u.length := by simpa using h
      simp [info_dataLoop, getchar, hne, ih u hk]

theorem info_dataLoop_short (n : Nat) (t : List Byte) (h : t.length < n) :
    (info_dataLoop n t).2.1 = true ∧ (info_dataLoop n t).2.2 = [] := by
  induction n generalizing t with
  | zero => simp at h
  | succ k ih =>
    cases t with
    | nil => simp [info_dataLoop, getchar]
    | cons b u =>
      have hb := b.isLt
      have hne : ¬((b.val : Int) = EOF) := by simp only [EOF]; omega
      have hk : u.length < k := by simpa using h
      simp [info_dataLoop, getchar, hne, ih u hk]

theorem read_DataSegment_eof (n : Nat) (t : List Byte) :
    (read_DataSegment n t).2.1 = decide (t.length < n) := by
  induction n generalizing t with
  | zero => simp [read_DataSegment]
  | succ k ih =>
    cases t with
    | nil => simp [read_DataSegment, getchar]
    | cons b u =>
      have hb := b.isLt
      have hne : ¬((b.val : Int) = EOF) := by simp only [EOF]; omega
      simp [read_DataSegment, getchar, hne, ih u]

theorem read_DataSegment_rest (n : Nat) (t : List Byte) :
    (read_DataSegment n t).2.2 = t.drop n := by
  induction n generalizing t with
  | zero => simp [read_DataSegment]
  | succ k ih =>
    cases t with
    | nil => simp [read_DataSegment, getchar, ih]
    | cons b u => simp [read_DataSegment, getchar, ih]

theorem read_DataSegment_buffer (n : Nat) (t : List Byte) :
    (read_DataSegment n t).1 = t.take n ++ List.replicate (n - t.length) 255 := by
  induction n generalizing t with
  | zero => simp [read_DataSegment]
  | succ k ih =>
    cases t with
    | nil =>
      have e : toChar EOF = 255 := by decide
      simp [read_DataSegment, getchar, ih, e, List.replicate_succ]
    | cons b u => simp [read_DataSegment, getchar, ih, toChar_val]

theorem get_OtherData_loop_rest (n : Nat) (t : List Byte) :
    (get_OtherData_loop n t).2 = t.drop n := by
  induction n generalizing t with
  | zero => simp [get_OtherData_loop]
  | succ k ih =>
    cases t with
    | nil => simp [get_OtherData_loop, getchar, ih]
    | cons b u => simp [get_OtherData_loop, getchar, ih]

theorem get_OtherData_loop_buffer (n : Nat) (t : List Byte) :
    (get_OtherData_loop n t).1 = t.take n ++ List.replicate (n - t.length) 255 := by
  induction n generalizing t with
  | zero => simp [get_OtherData_loop]
  | succ k ih =>
    cases t with
    | nil =>
      have e : toChar EOF = 255 := by decide
      simp [get_OtherData_loop, getchar, ih, e, List.replicate_succ]
    | cons b u => simp [get_OtherData_loop, getchar, ih, toChar_val]

theorem swrite_ch_take (mem : Nat → Byte) (v : List Byte) (n : Nat) (h : n ≤ v.length) :
    swrite_ch mem v n = v.take n := by
  apply List.ext_getElem
  · simp [swrite_ch, h]
  · intro i h1 h2
    have hi : i < v.length := by
      simp [swrite_ch] at h1; omega
    simp [swrite_ch, rd, List.getD, hi]

theorem swrite_ch_length (mem : Nat → Byte) (v : List Byte) (n : Nat) :
    (swrite_ch mem v n).length = n := by
  simp [swrite_ch]

/-! ## Getting past the header -/

theorem diag_isHeader (c : Check) : c.diag.isHeader = true := by
  cases c <;> rfl

theorem not_pastHeader_headerFailure (s : List Byte) (c : Check) :
    ¬pastHeader (headerFailure s c).err := by
  intro h
  have := h c.diag (by simp [headerFailure])
  simp [diag_isHeader] at this

theorem pastHeader_info_tail (s : List Byte) : pastHeader (info_tail s).err := by
  unfold info_tail
  simp only []
  split_ifs <;> simp [pastHeader, Diag.isHeader]

theorem pastHeader_srate_tail (mem : Nat → Byte) (rate : ℚ) (flag0 : Int) (s : List Byte) :
    pastHeader (srate_tail mem rate flag0 s).err := by
  unfold srate_tail
  simp only []
  split_ifs <;> simp [pastHeader, Diag.isHeader]

theorem pastHeader_schannel_tail (mem : Nat → Byte) (channel : Int) (flag0 : Int)
    (s : List Byte) : pastHeader (schannel_tail mem channel flag0 s).err := by
  unfold schannel_tail
  simp only []
  split_ifs <;> simp [pastHeader, Diag.isHeader]

theorem pastHeader_svolume_tail (mem : Nat → Byte) (volume : ℚ) (flag0 : Int) (s : List Byte) :
    pastHeader (svolume_tail mem volume flag0 s).err := by
  unfold svolume_tail
  simp only []
  split_ifs <;> simp [pastHeader, Diag.isHeader]

theorem pastHeader_info_iff (s : List Byte) :
    pastHeader (info_command s).err ↔ validHeader s := by
  rw [info_command_eq, validHeader]
  cases h : firstFailing s with
  | none => simpa using pastHeader_info_tail s
  | some c => simpa using not_pastHeader_headerFailure s c

theorem pastHeader_srate_iff (mem : Nat → Byte) (rate : ℚ) (flag0 : Int) (s : List Byte) :
    pastHeader (srate_command mem rate flag0 s).err ↔ validHeader s := by
  rw [srate_command_eq, validHeader]
  cases h : firstFailing s with
  | none => simpa using pastHeader_srate_tail mem rate flag0 s
  | some c => simpa using not_pastHeader_headerFailure s c

theorem pastHeader_schannel_iff (mem : Nat → Byte) (channel : Int) (flag0 : Int)
    (s : List Byte) :
    pastHeader (schannel_command mem channel flag0 s).err ↔ validHeader s := by
  rw [schannel_command_eq, validHeader]
  cases h : firstFailing s with
  | none => simpa using pastHeader_schannel_tail mem channel flag0 s
  | some c => simpa using not_pastHeader_headerFailure s c

theorem pastHeader_svolume_iff (mem : Nat → Byte) (volume : ℚ) (flag0 : Int) (s : List Byte) :
    pastHeader (svolume_command mem volume flag0 s).err ↔ validHeader s := by
  rw [svolume_command_eq, validHeader]
  cases h : firstFailing s with
  | none => simpa using pastHeader_svolume_tail mem volume flag0 s
  | some c => simpa using not_pastHeader_headerFailure s c

theorem validHeader_iff (s : List Byte) :
    validHeader s ↔ ∀ c : Check, c.fails s = false := by
  unfold validHeader firstFailing
  rw [List.find?_eq_none]
  constructor
  · intro h c
    have := h c (by cases c <;> simp [Check.order])
    simpa using this
  · intro h c _
    simp [h c]

theorem validHeader_byteRate (s : List Byte) (h : validHeader s) :
    byteRate s = (sampleRate s * blockAlign s) % 2 ^ 32 := by
  have := (validHeader_iff s).1 h Check.byteRate
  simpa [Check.fails] using this

/-! ## The claims -/

/-- C1: for every input stream, `info_command` stops at the first check that
fails, in the order RIFF, WAVE, fmt, format-chunk size, audio format, channel
count, byte rate, bits per sample, block align, data tag: it sets the flag to 1
and emits exactly the diagnostic of that check; and it gets past the header
(emits none of the ten header diagnostics) if and only if no check fails. -/
theorem info_command_first_failing_check (s : List Byte) :
    (∀ c : Check, firstFailing s = some c →
      (info_command s).flag = 1 ∧ (info_command s).err = [c.diag] ∧
        (info_command s).out = []) ∧
    (pastHeader (info_command s).err ↔ ∀ c : Check, c.fails s = false) := by
  refine ⟨?_, (pastHeader_info_iff s).trans (validHeader_iff s)⟩
  intro c hc
  rw [info_command_eq, hc]
  simp [headerFailure]

/-- C2 (the code at the failing input): the header with `sampleRate = 2^31`,
`blockAlign = 2` and `byteRate = 0` is accepted by `info_command` and by the
transform commands, although `byteRate` differs from
`sampleRate * blockAlign = 2^32`. -/
theorem wrapRateWav_accepted :
    (info_command wrapRateWav).flag = 0 ∧ (info_command wrapRateWav).err = [] ∧
    (srate_command zeroMem 1 0 wrapRateWav).err = [] ∧
    (schannel_command zeroMem 0 0 wrapRateWav).err = [] ∧
    (svolume_command zeroMem 1 0 wrapRateWav).err = [] ∧
    byteRate wrapRateWav ≠ sampleRate wrapRateWav * blockAlign wrapRateWav := by
  decide

/-- What the byte-rate check does establish: for every input whose header is
accepted by `info_command` or by one of the transform commands, `byteRate`
equals `sampleRate * blockAlign` reduced modulo `2^32`; the equation holds
over the natural numbers whenever the product is below `2^32`. -/
theorem accepted_header_byteRate (mem : Nat → Byte) (rate volume : ℚ) (channel flag0 : Int)
    (s : List Byte)
    (h : pastHeader (info_command s).err ∨ pastHeader (srate_command mem rate flag0 s).err ∨
      pastHeader (schannel_command mem channel flag0 s).err ∨
      pastHeader (svolume_command mem volume flag0 s).err) :
    byteRate s = (sampleRate s * blockAlign s) % 2 ^ 32 ∧
    (sampleRate s * blockAlign s < 2 ^ 32 → byteRate s = sampleRate s * blockAlign s) := by
  have hv : validHeader s := by
    rcases h with h | h | h | h
    · exact (pastHeader_info_iff s).1 h
    · exact (pastHeader_srate_iff mem rate flag0 s).1 h
    · exact (pastHeader_schannel_iff mem channel flag0 s).1 h
    · exact (pastHeader_svolume_iff mem volume flag0 s).1 h
  have hb := validHeader_byteRate s hv
  refine ⟨hb, fun hlt => ?_⟩
  rw [hb, Nat.mod_eq_of_lt hlt]

theorem accepted_header_byteRate_witness :
    pastHeader (info_command minimalWav).err ∧
    byteRate minimalWav = (sampleRate minimalWav * blockAlign minimalWav) % 2 ^ 32 ∧
    (sampleRate minimalWav * blockAlign minimalWav < 2 ^ 32 →
      byteRate minimalWav = sampleRate minimalWav * blockAlign minimalWav) :=
  ⟨by decide, accepted_header_byteRate zeroMem 1 1 0 0 minimalWav (Or.inl (by decide))⟩

/-- C3 (counterexample): on the minimal file with a wrong `byteRate`, the
byte-rate check fails and `info_command` has consumed 34 bytes, not the 32
bytes that end the `byteRate` field; on the empty stream the RIFF check fails
and nothing has been consumed, not 4 bytes. -/
theorem badByteRateWav_consumed :
    firstFailing badByteRateWav = some Check.byteRate ∧
    Outcome.consumed badByteRateWav (info_command badByteRateWav) = 34 ∧
    Outcome.consumed badByteRateWav (info_command badByteRateWav)
      ≠ Check.fieldEnd Check.byteRate ∧
    firstFailing [] = some Check.riff ∧
    Outcome.consumed [] (info_command []) ≠ Check.fieldEnd Check.riff := by
  decide

/-- C3 (amended): when the header validation of `info_command` fails, the
unread input is the stream without its first `k` bytes and the number of bytes
consumed is `k` capped by the length of the stream, where `k` is the number of
bytes read up to the failing check: RIFF 4, WAVE 12, fmt 16, format-chunk size
20, audio format 22, channel count 24, byte rate 34 (the check is made after
`blockAlign` is read), bits per sample 36, block align 36 (the check is made
after `bitsPerSample` is read), data tag 40.  No later field is read. -/
theorem info_command_consumed_on_failure (s : List Byte) (c : Check)
    (h : firstFailing s = some c) :
    (info_command s).rest = s.drop c.callsMade ∧
    Outcome.consumed s (info_command s) = min c.callsMade s.length ∧
    Check.order.map Check.callsMade = [4, 12, 16, 20, 22, 24, 34, 36, 36, 40] := by
  rw [info_command_eq, h]
  refine ⟨rfl, ?_, rfl⟩
  simp only [Outcome.consumed, headerFailure, List.length_drop]
  omega

theorem info_command_consumed_on_failure_witness :
    firstFailing badByteRateWav = some Check.byteRate ∧
    (info_command badByteRateWav).rest = badByteRateWav.drop 34 ∧
    Outcome.consumed badByteRateWav (info_command badByteRateWav)
      = min 34 badByteRateWav.length :=
  ⟨by decide,
   (info_command_consumed_on_failure badByteRateWav Check.byteRate (by decide)).1,
   (info_command_consumed_on_failure badByteRateWav Check.byteRate (by decide)).2.1⟩

theorem validHeader_sampleRate_zero (s : List Byte) (h0 : sampleRate s = 0) :
    validHeader s ↔
      (byteRate s = 0 ∧ ∀ c : Check, c ≠ Check.byteRate → c.fails s = false) := by
  rw [validHeader_iff]
  constructor
  · intro h
    refine ⟨?_, fun c _ => h c⟩
    have := h Check.byteRate
    simpa [Check.fails, h0] using this
  · rintro ⟨hb, h⟩ c
    by_cases hc : c = Check.byteRate
    · subst hc
      simp [Check.fails, h0, hb]
    · exact h c hc

/-- C4 (counterexample): the header with `sampleRate = 0` and `byteRate = 0`
is accepted: `info_command` leaves the flag at 0 and prints its report, and the
rate, channel and volume commands emit no diagnostic and leave the flag at 0. -/
theorem zeroRateWav_accepted :
    sampleRate zeroRateWav = 0 ∧
    (info_command zeroRateWav).flag = 0 ∧ (info_command zeroRateWav).err = [] ∧
    (srate_command zeroMem 1 0 zeroRateWav).flag = 0 ∧
    (srate_command zeroMem 1 0 zeroRateWav).err = [] ∧
    (schannel_command zeroMem 0 0 zeroRateWav).flag = 0 ∧
    (schannel_command zeroMem 0 0 zeroRateWav).err = [] ∧
    (svolume_command zeroMem 1 0 zeroRateWav).flag = 0 ∧
    (svolume_command zeroMem 1 0 zeroRateWav).err = [] := by
  decide

/-- C4 (amended): the validator has no check on `sampleRate` alone.  An input
whose `sampleRate` field is 0 gets past the header validation of
`info_command` and of the rate, channel and volume commands exactly when its
`byteRate` field is 0 and no other check fails. -/
theorem sampleRate_zero_accepted_iff (mem : Nat → Byte) (rate volume : ℚ)
    (channel flag0 : Int) (s : List Byte) (h0 : sampleRate s = 0) :
    (pastHeader (info_command s).err ↔
      (byteRate s = 0 ∧ ∀ c : Check, c ≠ Check.byteRate → c.fails s = false)) ∧
    (pastHeader (srate_command mem rate flag0 s).err ↔
      (byteRate s = 0 ∧ ∀ c : Check, c ≠ Check.byteRate → c.fails s = false)) ∧
    (pastHeader (schannel_command mem channel flag0 s).err ↔
      (byteRate s = 0 ∧ ∀ c : Check, c ≠ Check.byteRate → c.fails s = false)) ∧
    (pastHeader (svolume_command mem volume flag0 s).err ↔
      (byteRate s = 0 ∧ ∀ c : Check, c ≠ Check.byteRate → c.fails s = false)) :=
  ⟨(pastHeader_info_iff s).trans (validHeader_sampleRate_zero s h0),
   (pastHeader_srate_iff mem rate flag0 s).trans (validHeader_sampleRate_zero s h0),
   (pastHeader_schannel_iff mem channel flag0 s).trans (validHeader_sampleRate_zero s h0),
   (pastHeader_svolume_iff mem volume flag0 s).trans (validHeader_sampleRate_zero s h0)⟩

theorem sampleRate_zero_accepted_iff_witness :
    sampleRate zeroRateWav = 0 ∧ pastHeader (info_command zeroRateWav).err ∧
    byteRate zeroRateWav = 0 :=
  ⟨by decide, by decide,
   ((sampleRate_zero_accepted_iff zeroMem 1 1 0 0 zeroRateWav (by decide)).1.1
      (by decide)).1⟩

theorem info_tail_flag_out (s : List Byte) :
    (info_tail s).flag = 1 → (info_tail s).out = [] := by
  unfold info_tail
  simp only []
  split_ifs <;> simp

theorem srate_tail_flag_out (mem : Nat → Byte) (rate : ℚ) (flag0 : Int) (s : List Byte)
    (hf : flag0 ≠ 1) :
    (srate_tail mem rate flag0 s).flag = 1 → (srate_tail mem rate flag0 s).out = [] := by
  unfold srate_tail
  simp only []
  split_ifs <;> simp [hf]

theorem schannel_tail_flag_out (mem : Nat → Byte) (channel : Int) (flag0 : Int) (s : List Byte)
    (hf : flag0 ≠ 1) :
    (schannel_tail mem channel flag0 s).flag = 1 →
      (schannel_tail mem channel flag0 s).out = [] := by
  unfold schannel_tail
  simp only []
  split_ifs <;> simp [hf]

theorem svolume_tail_flag_out (mem : Nat → Byte) (volume : ℚ) (flag0 : Int) (s : List Byte)
    (hf : flag0 ≠ 1) :
    (svolume_tail mem volume flag0 s).flag = 1 →
      (svolume_tail mem volume flag0 s).out = [] := by
  unfold svolume_tail
  simp only []
  split_ifs <;> simp [hf]

/-- C5: for every input stream and every multiplier or channel argument, when
`info_command`, `srate_command`, `schannel_command` or `svolume_command`
returns with the flag at 1 (the flag being 0, or anything but 1, on entry, as
`main` passes it), it has written no byte to standard output. -/
theorem failure_writes_nothing (mem : Nat → Byte) (rate volume : ℚ) (channel flag0 : Int)
    (s : List Byte) (hf : flag0 ≠ 1) :
    ((info_command s).flag = 1 → (info_command s).out = []) ∧
    ((srate_command mem rate flag0 s).flag = 1 → (srate_command mem rate flag0 s).out = []) ∧
    ((schannel_command mem channel flag0 s).flag = 1 →
      (schannel_command mem channel flag0 s).out = []) ∧
    ((svolume_command mem volume flag0 s).flag = 1 →
      (svolume_command mem volume flag0 s).out = []) := by
  rw [info_command_eq, srate_command_eq, schannel_command_eq, svolume_command_eq]
  cases h : firstFailing s with
  | some c => simp [headerFailure]
  | none =>
    exact ⟨info_tail_flag_out s, srate_tail_flag_out mem rate flag0 s hf,
      schannel_tail_flag_out mem channel flag0 s hf, svolume_tail_flag_out mem volume flag0 s hf⟩

theorem failure_writes_nothing_witness :
    (0 : Int) ≠ 1 ∧
    (srate_command zeroMem 2 0 (minimalWav ++ [5])).flag = 1 ∧
    (srate_command zeroMem 2 0 (minimalWav ++ [5])).out = [] :=
  ⟨by decide, by decide,
   (failure_writes_nothing zeroMem 2 1 0 0 (minimalWav ++ [5]) (by decide)).2.1 (by decide)⟩

/-! ## The header depends on the first 44 calls only -/

theorem header_congr (s t : List Byte) (h : ∀ i, i < 44 → peek s i = peek t i) :
    firstFailing s = firstFailing t ∧ fileSize s = fileSize t ∧ dataSize s = dataSize t ∧
    numChannels s = numChannels t ∧ sampleRate s = sampleRate t ∧ byteRate s = byteRate t ∧
    blockAlign s = blockAlign t ∧ bitsPerSample s = bitsPerSample t ∧
    fmtChunkSize s = fmtChunkSize t ∧ audioFormat s = audioFormat t ∧
    tagAt s 0 = tagAt t 0 ∧ tagAt s 8 = tagAt t 8 ∧ tagAt s 12 = tagAt t 12 ∧
    tagAt s 36 = tagAt t 36 := by
  have hp : ∀ i, i < 44 → peek s i = peek t i := h
  simp (disch := omega) only [firstFailing, Check.order, List.find?, Check.fails, fileSize,
    dataSize, fmtChunkSize, audioFormat, numChannels, sampleRate, byteRate, blockAlign,
    bitsPerSample, tagAt, u32At, u16At, Nat.reduceAdd, hp, and_self]

theorem peek_append_left (s t : List Byte) (i : Nat) (h : i < s.length) :
    peek (s ++ t) i = peek s i := by
  simp [peek, List.getElem?_append_left h]

theorem peek_dropLast (s : List Byte) (i : Nat) (h : i + 1 < s.length) :
    peek s.dropLast i = peek s i := by
  have h1 : i < s.dropLast.length := by simp; omega
  have h2 : i < s.length := by omega
  simp [peek, List.getElem?_eq_getElem h1, List.getElem?_eq_getElem h2, List.getElem_dropLast]

/-! ## Truncated payload -/

theorem info_tail_short (s : List Byte) (h : s.length - 44 < dataSize s) :
    (info_tail s).flag = 1 ∧ (info_tail s).err = [Diag.insufficientData] := by
  have hl : (s.drop 44).length < dataSize s := by simpa using h
  unfold info_tail
  simp [(info_dataLoop_short _ _ hl).1]

theorem srate_tail_short (mem : Nat → Byte) (rate : ℚ) (flag0 : Int) (s : List Byte)
    (h : s.length - 44 < dataSize s) :
    (srate_tail mem rate flag0 s).flag = 1 ∧
      (srate_tail mem rate flag0 s).err = [Diag.insufficientData] := by
  unfold srate_tail
  simp [read_DataSegment_eof, h]

theorem schannel_tail_short (mem : Nat → Byte) (channel : Int) (flag0 : Int) (s : List Byte)
    (h : s.length - 44 < dataSize s) :
    (schannel_tail mem channel flag0 s).flag = 1 ∧
      (schannel_tail mem channel flag0 s).err = [Diag.insufficientData] := by
  unfold schannel_tail
  simp [read_DataSegment_eof, h]

theorem svolume_tail_short (mem : Nat → Byte) (volume : ℚ) (flag0 : Int) (s : List Byte)
    (h : s.length - 44 < dataSize s) :
    (svolume_tail mem volume flag0 s).flag = 1 ∧
      (svolume_tail mem volume flag0 s).err = [Diag.insufficientData] := by
  unfold svolume_tail
  simp [read_DataSegment_eof, h]

theorem allFailInsufficient_of_short (mem : Nat → Byte) (rate volume : ℚ)
    (channel flag0 : Int) (s : List Byte) (hv : validHeader s)
    (h : s.length - 44 < dataSize s) :
    allFailInsufficient mem rate volume channel flag0 s := by
  unfold allFailInsufficient
  rw [info_command_eq, srate_command_eq, schannel_command_eq, svolume_command_eq]
  rw [validHeader] at hv
  simp only [hv]
  exact ⟨info_tail_short s h, srate_tail_short mem rate flag0 s h,
    schannel_tail_short mem channel flag0 s h, svolume_tail_short mem volume flag0 s h⟩

/-- C6: for every input with a valid 44-byte header followed by fewer than
`dataSize` bytes, `info_command`, `srate_command`, `schannel_command` and
`svolume_command` each return with the flag at 1 and the insufficient-data
diagnostic; in particular they do so on a valid file with `dataSize ≥ 1` and no
trailing bytes from which the last payload byte has been removed. -/
theorem truncated_payload_fails (mem : Nat → Byte) (rate volume : ℚ) (channel flag0 : Int)
    (s : List Byte) (hv : validHeader s) :
    (s.length - 44 < dataSize s → allFailInsufficient mem rate volume channel flag0 s) ∧
    (s.length = 44 + dataSize s → 1 ≤ dataSize s →
      allFailInsufficient mem rate volume channel flag0 s.dropLast) := by
  constructor
  · intro h
    exact allFailInsufficient_of_short mem rate volume channel flag0 s hv h
  · intro h1 h2
    have hc := header_congr s.dropLast s (fun i hi => peek_dropLast s i (by omega))
    apply allFailInsufficient_of_short
    · rw [validHeader, hc.1]; exact hv
    · rw [hc.2.2.1]; simp; omega

theorem truncated_payload_fails_witness :
    validHeader minimalWav ∧
    minimalWav.length = 44 + dataSize minimalWav ∧ 1 ≤ dataSize minimalWav ∧
    allFailInsufficient zeroMem 2 2 1 0 minimalWav.dropLast :=
  ⟨by decide, by decide, by decide,
   (truncated_payload_fails zeroMem 2 2 1 0 minimalWav (by decide)).2
     (by decide) (by decide)⟩

/-! ## Bytes after the declared end -/

theorem getchar_ne_EOF_of_length_pos (t : List Byte) (h : 0 < t.length) :
    (getchar t).1 ≠ EOF := by
  intro he
  rw [getchar_fst_eq_EOF] at he
  simp [he] at h

/-- C7: for every input with a valid header and a complete payload, with
`fileSize ≥ 36 + dataSize`, that has at least one byte after the first
`fileSize + 8` bytes of the stream, `info_command` returns with the flag at 1
and the bad-file-size diagnostic, and prints no report. -/
theorem info_command_trailing_byte_fails (s : List Byte) (hv : validHeader s)
    (hp : 44 + dataSize s ≤ s.length) (hfs : 36 + dataSize s ≤ fileSize s)
    (hx : fileSize s + 8 < s.length) :
    (info_command s).flag = 1 ∧ (info_command s).err = [Diag.badFileSize] ∧
    (info_command s).out = [] := by
  rw [validHeader] at hv
  rw [info_command_eq, hv]
  have hf := u32At_lt s 4
  have hl : dataSize s ≤ (s.drop 44).length := by simp; omega
  have hmod : (SIZE_OF_WAVE_HEADER + dataSize s) % 2 ^ 32 = 36 + dataSize s := by
    rw [SIZE_OF_WAVE_HEADER]
    apply Nat.mod_eq_of_lt
    unfold fileSize at hfs
    omega
  have hne : (getchar (info_skipLoop (fileSize s - (36 + dataSize s))
      (s.drop (44 + dataSize s)))).1 ≠ EOF := by
    apply getchar_ne_EOF_of_length_pos
    rw [info_skipLoop_eq]
    simp only [List.length_drop]
    omega
  simp only [info_tail, info_dataLoop_complete _ _ hl, hmod]
  simp [hne]

theorem info_command_trailing_byte_fails_witness :
    validHeader (minimalWav ++ [5]) ∧
    (info_command (minimalWav ++ [5])).flag = 1 ∧
    (info_command (minimalWav ++ [5])).err = [Diag.badFileSize] ∧
    (info_command (minimalWav ++ [5])).out = [] :=
  ⟨by decide,
   info_command_trailing_byte_fails (minimalWav ++ [5]) (by decide) (by decide) (by decide)
     (by decide)⟩

/-! ## Playback -/

theorem deviceOk_okDriver : deviceOk okDriver := by
  refine ⟨by decide, by decide, fun _ => ?_, fun _ => ?_, by decide, fun _ => rfl⟩ <;>
    simp [okDriver]

theorem caudio_setup_params_ok (drv : Driver) (h : deviceOk drv) (channels : Nat)
    (bits_per_sample : Int) (sample_rate segment_size : Nat) :
    (caudio_setup_params drv channels bits_per_sample sample_rate segment_size).1 = 0 := by
  obtain ⟨_, h2, h3, h4, h5, _⟩ := h
  unfold caudio_setup_params
  simp [not_lt.2 h2, not_lt.2 (h3 _), not_lt.2 (h4 _), not_lt.2 h5]

theorem retCode_eq_two (x : Int) : ((x : WithBot Int) = 2) ↔ x = 2 :=
  ⟨fun h => WithBot.coe_injective
      (show ((x : Int) : WithBot Int) = ((2 : Int) : WithBot Int) from h),
    fun h => by rw [h]; rfl⟩

theorem play_loop_done (drv : Driver) (mem : Nat → Byte) (buffer : List Byte)
    (size fuel steps ptr k : Nat) (segment : List Byte) (h : size ≤ steps) :
    play_loop drv mem buffer size fuel steps ptr k segment
      = (0, [], [DevEvent.drain, DevEvent.close]) := by
  cases fuel with
  | zero =>
    unfold play_loop
    rw [if_neg (by omega)]
  | succ n =>
    unfold play_loop
    rw [if_neg (by omega)]

theorem play_loop_ok (drv : Driver) (h : ∀ k, drv.write_ok k = true) (mem : Nat → Byte)
    (buffer : List Byte) (size : Nat) (h32 : size ≤ 2 ^ 32 - 1024) (fuel steps ptr k : Nat)
    (segment : List Byte) (hf : size ≤ steps + fuel) :
    (play_loop drv mem buffer size fuel steps ptr k segment).1 = 0 ∧
    (play_loop drv mem buffer size fuel steps ptr k segment).2.1 = [] := by
  induction fuel generalizing steps ptr k segment with
  | zero =>
    rw [play_loop_done drv mem buffer size 0 steps ptr k segment (by omega)]
    exact ⟨rfl, rfl⟩
  | succ n ih =>
    by_cases hs : steps < size
    · unfold play_loop
      rw [if_pos hs]
      simp only [h k, if_true]
      have hm : (steps + 1024) % 2 ^ 32 = steps + 1024 := Nat.mod_eq_of_lt (by omega)
      rw [hm]
      by_cases hc : steps + 1024 < size
      · rw [if_pos hc, Nat.mod_eq_of_lt (by omega)]
        exact ih _ _ _ _ (by omega)
      · rw [if_neg hc, Nat.mod_eq_of_lt (by omega)]
        exact ih _ _ _ _ (by omega)
    · rw [play_loop_done drv mem buffer size (n + 1) steps ptr k segment (by omega)]
      exact ⟨rfl, rfl⟩

/-- The loop ends within `fuel` iterations when `size ≤ 2^32 - 1024` and
`size ≤ steps + fuel`: it returns 0 or 2, whatever the device answers. -/
theorem play_loop_returns (drv : Driver) (mem : Nat → Byte) (buffer : List Byte) (size : Nat)
    (h32 : size ≤ 2 ^ 32 - 1024) (fuel steps ptr k : Nat) (segment : List Byte)
    (hf : size ≤ steps + fuel) :
    (play_loop drv mem buffer size fuel steps ptr k segment).1 = 0 ∨
    (play_loop drv mem buffer size fuel steps ptr k segment).1 = 2 := by
  induction fuel generalizing steps ptr k segment with
  | zero =>
    rw [play_loop_done drv mem buffer size 0 steps ptr k segment (by omega)]
    exact Or.inl rfl
  | succ n ih =>
    by_cases hs : steps < size
    · unfold play_loop
      rw [if_pos hs]
      simp only []
      by_cases hw : drv.write_ok k = true
      · rw [if_pos hw]
        have hm : (steps + 1024) % 2 ^ 32 = steps + 1024 := Nat.mod_eq_of_lt (by omega)
        rw [hm]
        by_cases hc : steps + 1024 < size
        · rw [if_pos hc, Nat.mod_eq_of_lt (by omega)]
          exact ih _ _ _ _ (by omega)
        · rw [if_neg hc, Nat.mod_eq_of_lt (by omega)]
          exact ih _ _ _ _ (by omega)
      · rw [if_neg hw]
        exact Or.inr rfl
    · rw [play_loop_done drv mem buffer size (n + 1) steps ptr k segment (by omega)]
      exact Or.inl rfl

/-- For `2^32 - 1024 < size < 2^32` and a device that accepts every block, the
loop counter, a multiple of 1024, stays below `size` for ever: the loop has not
ended after any number of iterations. -/
theorem play_loop_wraps (drv : Driver) (h : ∀ k, drv.write_ok k = true) (mem : Nat → Byte)
    (buffer : List Byte) (size : Nat) (h32 : 2 ^ 32 - 1024 < size) (fuel steps ptr k : Nat)
    (segment : List Byte) (hs : steps < 2 ^ 32) (hm : steps % 1024 = 0) :
    (play_loop drv mem buffer size fuel steps ptr k segment).1 = ⊥ := by
  induction fuel generalizing steps ptr k segment with
  | zero =>
    unfold play_loop
    rw [if_pos (by omega)]
  | succ n ih =>
    unfold play_loop
    rw [if_pos (by omega)]
    simp only [h k, if_true]
    have hc : (steps + 1024) % 2 ^ 32 < size := by omega
    rw [if_pos hc]
    exact ih _ _ _ _ (Nat.mod_lt _ (by norm_num)) (by omega)

theorem play_loop_writes (drv : Driver) (h : ∀ k, drv.write_ok k = true) (mem : Nat → Byte)
    (buffer : List Byte) (size fuel : Nat) (segment : List Byte) (hsz : 0 < size)
    (hfuel : 0 < fuel) :
    ((play_loop drv mem buffer size fuel 0 0 0 segment).2.2).any DevEvent.isWrite = true := by
  cases fuel with
  | zero => simp at hfuel
  | succ n =>
    unfold play_loop
    simp [hsz, h 0, DevEvent.isWrite]

theorem read_DataSegment_exact (p t : List Byte) :
    read_DataSegment p.length (p ++ t) = (p, false, t) := by
  have h1 := read_DataSegment_buffer p.length (p ++ t)
  have h2 := read_DataSegment_eof p.length (p ++ t)
  have h3 := read_DataSegment_rest p.length (p ++ t)
  simp at h1 h2 h3
  rw [Prod.ext_iff, Prod.ext_iff]
  exact ⟨h1, h2, h3⟩

theorem play_tail_append (drv : Driver) (mem : Nat → Byte) (s t : List Byte)
    (hp : s.length = 44 + dataSize s) :
    play_tail drv mem (s ++ t) =
      { play_tail drv mem s with rest := (play_tail drv mem s).rest ++ t } ∧
    (play_tail drv mem s).rest = [] := by
  have hc := header_congr (s ++ t) s (fun i hi => peek_append_left s t i (by omega))
  have hd : (s ++ t).drop 44 = s.drop 44 ++ t := by
    rw [List.drop_append_of_le_length (by omega)]
  have hl : (s.drop 44).length = dataSize s := by simp; omega
  have e1 : read_DataSegment (dataSize s) (s.drop 44 ++ t) = (s.drop 44, false, t) := by
    rw [← hl]; exact read_DataSegment_exact _ _
  have e2 : read_DataSegment (dataSize s) (s.drop 44) = (s.drop 44, false, []) := by
    have := read_DataSegment_exact (s.drop 44) []
    rw [hl] at this
    simpa using this
  unfold play_tail
  rw [hc.2.2.1, hc.2.2.2.1, hc.2.2.2.2.1, hc.2.2.2.2.2.2.2.1, hd, e1, e2]
  simp only []
  split_ifs <;> simp

/-- C8 (counterexample): with a device that accepts everything, `play_sound`
returns 0 and passes a block to the device on the minimal file followed by one
extra byte, and also on the minimal file without its last payload byte. -/
theorem play_sound_plays_invalid_streams :
    validHeader (minimalWav ++ [5]) ∧
    (play_sound okDriver zeroMem (minimalWav ++ [5])).ret = 0 ∧
    (play_sound okDriver zeroMem (minimalWav ++ [5])).dev.any DevEvent.isWrite = true ∧
    validHeader minimalWav.dropLast ∧
    (play_sound okDriver zeroMem minimalWav.dropLast).ret = 0 ∧
    (play_sound okDriver zeroMem minimalWav.dropLast).dev.any DevEvent.isWrite = true := by
  decide

/-- C8 (amended): `play_sound` makes the header checks of `info_command` but no
end-of-stream check.  For every input with a valid header and a complete
payload, bytes that follow the payload are left unread and change nothing:
`play_sound` returns the same code, emits the same diagnostics and sends the
same requests to the device as on the stream without them.  When the device
opens and accepts every request, it returns 0 provided
`dataSize ≤ 2^32 - 1024` (beyond that the loop counter wraps around and the
chunk loop does not end), and it passes at least one block to the device when
the payload is not empty. -/
theorem play_sound_ignores_trailing_bytes (drv : Driver) (mem : Nat → Byte) (s t : List Byte)
    (hv : validHeader s) (hp : s.length = 44 + dataSize s) :
    (play_sound drv mem (s ++ t)).ret = (play_sound drv mem s).ret ∧
    (play_sound drv mem (s ++ t)).err = (play_sound drv mem s).err ∧
    (play_sound drv mem (s ++ t)).dev = (play_sound drv mem s).dev ∧
    (play_sound drv mem (s ++ t)).rest = t ∧
    (deviceOk drv →
      (dataSize s ≤ 2 ^ 32 - 1024 →
        (play_sound drv mem (s ++ t)).ret = 0 ∧ (play_sound drv mem (s ++ t)).err = []) ∧
      (1 ≤ dataSize s → (play_sound drv mem (s ++ t)).dev.any DevEvent.isWrite = true)) := by
  have hc := header_congr (s ++ t) s (fun i hi => peek_append_left s t i (by omega))
  have hv2 : firstFailing (s ++ t) = none := by rw [hc.1]; exact hv
  rw [validHeader] at hv
  have ha := play_tail_append drv mem s t hp
  rw [play_sound_eq, play_sound_eq, hv, hv2]
  simp only []
  rw [ha.1]
  refine ⟨rfl, rfl, rfl, by simp [ha.2], ?_⟩
  intro hok
  have h1 : ¬drv.open_fd < 0 := not_lt.2 hok.1
  have h2 := caudio_setup_params_ok drv hok (numChannels s) (toInt16 (bitsPerSample s))
    (sampleRate s) 1024
  refine ⟨?_, ?_⟩
  · intro hb
    have h3 := fun b => play_loop_ok drv hok.2.2.2.2.2 mem b (dataSize s) hb (dataSize s) 0 0 0
      (fresh mem 1024) (by omega)
    refine ⟨?_, ?_⟩
    · simp [play_tail, h1, h2, h3]
    · simp [play_tail, h1, h2, h3]
  · intro hd
    have h4 := fun b => play_loop_writes drv hok.2.2.2.2.2 mem b (dataSize s) (dataSize s)
      (fresh mem 1024) (by omega) (by omega)
    simp [play_tail, h1, h2, h4]

theorem play_sound_ignores_trailing_bytes_witness :
    validHeader minimalWav ∧ minimalWav.length = 44 + dataSize minimalWav ∧
    (play_sound okDriver zeroMem (minimalWav ++ [5])).ret
      = (play_sound okDriver zeroMem minimalWav).ret ∧
    (play_sound okDriver zeroMem (minimalWav ++ [5])).rest = [5] ∧
    dataSize minimalWav ≤ 2 ^ 32 - 1024 ∧
    (play_sound okDriver zeroMem (minimalWav ++ [5])).ret = 0 :=
  ⟨by decide, by decide,
   (play_sound_ignores_trailing_bytes okDriver zeroMem minimalWav [5] (by decide)
      (by decide)).1,
   (play_sound_ignores_trailing_bytes okDriver zeroMem minimalWav [5] (by decide)
      (by decide)).2.2.2.1,
   by decide,
   (((play_sound_ignores_trailing_bytes okDriver zeroMem minimalWav [5] (by decide)
      (by decide)).2.2.2.2 deviceOk_okDriver).1 (by decide)).1⟩

/-! ## Trailing bytes in the transform commands -/

theorem read_DataSegment_complete (n : Nat) (t : List Byte) (h : n ≤ t.length) :
    read_DataSegment n t = (t.take n, false, t.drop n) := by
  have h1 := read_DataSegment_buffer n t
  have h2 := read_DataSegment_eof n t
  have h3 := read_DataSegment_rest n t
  have h0 : n - t.length = 0 := by omega
  have hlt : ¬t.length < n := by omega
  rw [h0] at h1
  simp [hlt] at h1 h2
  rw [Prod.ext_iff, Prod.ext_iff]
  exact ⟨h1, h2, h3⟩

/-- C9 (the code at the failing input): the header declares one trailing byte
and the stream ends right after the complete payload; `info_command` leaves the
flag at 0 and emits no diagnostic, `srate_command` and `svolume_command` leave
the flag at 0 and write a 53-byte file whose last byte is `0xFF`, the stored
`EOF`. -/
theorem missingTrailerWav_succeeds :
    validHeader missingTrailerWav ∧
    missingTrailerWav.length = 44 + dataSize missingTrailerWav ∧
    36 + dataSize missingTrailerWav < fileSize missingTrailerWav ∧
    missingTrailerWav.length < fileSize missingTrailerWav + 8 ∧
    (info_command missingTrailerWav).flag = 0 ∧ (info_command missingTrailerWav).err = [] ∧
    (srate_command zeroMem 1 0 missingTrailerWav).flag = 0 ∧
    (srate_command zeroMem 1 0 missingTrailerWav).err = [] ∧
    (srate_command zeroMem 1 0 missingTrailerWav).out = missingTrailerWav ++ [255] ∧
    (svolume_command zeroMem 1 0 missingTrailerWav).flag = 0 ∧
    (svolume_command zeroMem 1 0 missingTrailerWav).err = [] ∧
    (svolume_command zeroMem 1 0 missingTrailerWav).out = missingTrailerWav ++ [255] := by
  decide

/-- C10 (counterexample): on the minimal file (`fileSize = 36 + dataSize`)
followed by one extra byte, `srate_command` and `svolume_command` with
multiplier 1 set the flag to 1, emit the bad-file-size diagnostic and write
nothing. -/
theorem undeclared_trailing_byte_rejected :
    validHeader (minimalWav ++ [5]) ∧
    fileSize (minimalWav ++ [5]) = 36 + dataSize (minimalWav ++ [5]) ∧
    (minimalWav ++ [5]).length = 44 + dataSize (minimalWav ++ [5]) + 1 ∧
    (srate_command zeroMem 1 0 (minimalWav ++ [5])).flag = 1 ∧
    (srate_command zeroMem 1 0 (minimalWav ++ [5])).err = [Diag.badFileSize] ∧
    (srate_command zeroMem 1 0 (minimalWav ++ [5])).out = [] ∧
    (svolume_command zeroMem 1 0 (minimalWav ++ [5])).flag = 1 ∧
    (svolume_command zeroMem 1 0 (minimalWav ++ [5])).err = [Diag.badFileSize] ∧
    (svolume_command zeroMem 1 0 (minimalWav ++ [5])).out = [] := by
  decide

theorem last_of_drop_singleton (s : List Byte) (n : Nat) (x : Byte) (h : s.drop n = [x]) :
    s.getLast? = some x := by
  have e : s = s.take n ++ [x] := by rw [← h, List.take_append_drop]
  rw [e, List.getLast?_append]
  simp

/-- C10 (amended): for every valid file followed by exactly one extra byte
after the payload (in particular a mono 8-bit one), `srate_command` and
`svolume_command`, with multiplier 1 or any other, set the flag to 1 with the
bad-file-size diagnostic and write nothing when `fileSize = 36 + dataSize`;
when the header declares the extra byte, `fileSize = 37 + dataSize`, they
succeed (the flag keeps its value, 0) and their output ends with that byte. -/
theorem one_trailing_byte (mem : Nat → Byte) (rate volume : ℚ) (flag0 : Int) (s : List Byte)
    (hv : validHeader s) (hlen : s.length = 44 + dataSize s + 1) :
    (fileSize s = 36 + dataSize s →
      (srate_command mem rate flag0 s).flag = 1 ∧
      (srate_command mem rate flag0 s).err = [Diag.badFileSize] ∧
      (srate_command mem rate flag0 s).out = [] ∧
      (svolume_command mem volume flag0 s).flag = 1 ∧
      (svolume_command mem volume flag0 s).err = [Diag.badFileSize] ∧
      (svolume_command mem volume flag0 s).out = []) ∧
    (fileSize s = 37 + dataSize s →
      (srate_command mem rate flag0 s).flag = flag0 ∧
      (srate_command mem rate flag0 s).err = [] ∧
      (srate_command mem rate flag0 s).out.getLast? = s.getLast? ∧
      (svolume_command mem volume flag0 s).flag = flag0 ∧
      (svolume_command mem volume flag0 s).err = [] ∧
      (svolume_command mem volume flag0 s).out.getLast? = s.getLast?) := by
  rw [validHeader] at hv
  rw [srate_command_eq, svolume_command_eq, hv]
  simp only []
  have hf := u32At_lt s 4
  have hl : dataSize s ≤ (s.drop 44).length := by simp; omega
  have e1 := read_DataSegment_complete (dataSize s) (s.drop 44) hl
  have hr : (s.drop (44 + dataSize s)).length = 1 := by simp; omega
  obtain ⟨x, hx⟩ := List.length_eq_one.1 hr
  have hlast := last_of_drop_singleton s _ x hx
  constructor
  · intro hfs
    have hc : otherDataCount (fileSize s) (dataSize s) = 0 := by
      unfold otherDataCount sub32 SIZE_OF_WAVE_HEADER
      unfold fileSize at hfs
      rw [fileSize]
      omega
    simp [srate_tail, svolume_tail, e1, get_OtherData, hc, get_OtherData_loop, hx, getchar, EOF]
  · intro hfs
    have hc : otherDataCount (fileSize s) (dataSize s) = 1 := by
      unfold otherDataCount sub32 SIZE_OF_WAVE_HEADER
      unfold fileSize at hfs
      rw [fileSize]
      omega
    have hc2 : sub32 (fileSize s) ((SIZE_OF_WAVE_HEADER + dataSize s) % 2 ^ 32) = 1 := hc
    have hw : swrite_ch mem [x] 1 = [x] := swrite_ch_take mem [x] 1 (by simp)
    simp only [srate_tail, svolume_tail, e1, get_OtherData, hc, hc2, get_OtherData_loop,
      List.drop_drop, hx, getchar, toChar_val, hw, hlast]
    simp [EOF, List.getLast?_append]

theorem one_trailing_byte_witness :
    validHeader declaredTrailerWav ∧
    declaredTrailerWav.length = 44 + dataSize declaredTrailerWav + 1 ∧
    fileSize declaredTrailerWav = 37 + dataSize declaredTrailerWav ∧
    (srate_command zeroMem 1 0 declaredTrailerWav).flag = 0 ∧
    (srate_command zeroMem 1 0 declaredTrailerWav).out.getLast? = some 5 ∧
    (svolume_command zeroMem 1 0 declaredTrailerWav).flag = 0 ∧
    (svolume_command zeroMem 1 0 declaredTrailerWav).out.getLast? = some 5 :=
  ⟨by decide, by decide, by decide,
   ((one_trailing_byte zeroMem 1 1 0 declaredTrailerWav (by decide) (by decide)).2
      (by decide)).1,
   ((one_trailing_byte zeroMem 1 1 0 declaredTrailerWav (by decide) (by decide)).2
      (by decide)).2.2.1,
   ((one_trailing_byte zeroMem 1 1 0 declaredTrailerWav (by decide) (by decide)).2
      (by decide)).2.2.2.1,
   ((one_trailing_byte zeroMem 1 1 0 declaredTrailerWav (by decide) (by decide)).2
      (by decide)).2.2.2.2.2⟩

/-! ## Trailing bytes: how many are read, and what `schannel_command` writes -/

/-- C12 (the code at the failing input): on the stereo 8-bit file followed by
one declared trailing byte 99, `schannel_command` succeeds and writes the
44-byte header and the two payload bytes only: the trailing byte, which it has
read, is not in the output. -/
theorem stereo8TrailerWav_trailer_dropped :
    validHeader stereo8TrailerWav ∧
    fileSize stereo8TrailerWav = 36 + dataSize stereo8TrailerWav + 1 ∧
    stereo8TrailerWav.length = fileSize stereo8TrailerWav + 8 ∧
    stereo8TrailerWav.drop (44 + dataSize stereo8TrailerWav) = [99] ∧
    (schannel_command zeroMem 0 0 stereo8TrailerWav).flag = 0 ∧
    (schannel_command zeroMem 0 0 stereo8TrailerWav).err = [] ∧
    (schannel_command zeroMem 0 0 stereo8TrailerWav).rest = [] ∧
    (schannel_command zeroMem 0 0 stereo8TrailerWav).out
      = mkHeader 38 1 8000 8000 1 8 2 ++ [10, 0] ∧
    (99 : Byte) ∉ (schannel_command zeroMem 0 0 stereo8TrailerWav).out := by
  decide

/-- C13 (counterexample): with `fileSize = 37` and `dataSize = 0`, on ten
available bytes `get_OtherData` consumes one byte, not
`fileSize + 8 - (36 + dataSize) = 9`. -/
theorem get_OtherData_reads_one :
    get_OtherData 37 0 [1, 2, 3, 4, 5, 6, 7, 8, 9, 10] = ([1], [2, 3, 4, 5, 6, 7, 8, 9, 10]) ∧
    [1, 2, 3, 4, 5, 6, 7, 8, 9, 10].length
      - (get_OtherData 37 0 [1, 2, 3, 4, 5, 6, 7, 8, 9, 10]).2.length ≠ 37 + 8 - (36 + 0) := by
  decide

/-- C13 (amended): for every 32-bit `fileSize` and `dataSize`, `get_OtherData`
makes `n = (fileSize - (36 + dataSize)) mod 2^32` calls of `getchar`, which is
`fileSize - (36 + dataSize)` when `fileSize ≥ 36 + dataSize`: it leaves the
input without its first `n` bytes, so it consumes exactly `n` bytes when that
many are available and all the remaining ones otherwise, and its buffer holds
the bytes read followed by `0xFF` for each call that met the end of input. -/
theorem get_OtherData_consumes (total_size data_segment_size : Nat) (t : List Byte)
    (h1 : total_size < 2 ^ 32) (h2 : data_segment_size < 2 ^ 32) :
    ((otherDataCount total_size data_segment_size : Nat) : Int)
      = ((total_size : Int) - (36 + (data_segment_size : Int))) % 2 ^ 32 ∧
    (36 + data_segment_size ≤ total_size →
      otherDataCount total_size data_segment_size = total_size - (36 + data_segment_size)) ∧
    (get_OtherData total_size data_segment_size t).2
      = t.drop (otherDataCount total_size data_segment_size) ∧
    t.length - (get_OtherData total_size data_segment_size t).2.length
      = min (otherDataCount total_size data_segment_size) t.length ∧
    (get_OtherData total_size data_segment_size t).1
      = t.take (otherDataCount total_size data_segment_size)
        ++ List.replicate (otherDataCount total_size data_segment_size - t.length) 255 := by
  refine ⟨?_, ?_, ?_, ?_, ?_⟩
  · unfold otherDataCount sub32 SIZE_OF_WAVE_HEADER
    omega
  · intro h
    unfold otherDataCount sub32 SIZE_OF_WAVE_HEADER
    omega
  · exact get_OtherData_loop_rest _ t
  · rw [get_OtherData, get_OtherData_loop_rest, List.length_drop]
    omega
  · exact get_OtherData_loop_buffer _ t

theorem get_OtherData_consumes_witness :
    get_OtherData 37 0 [1, 2, 3, 4, 5, 6, 7, 8, 9, 10]
      = ([1], [2, 3, 4, 5, 6, 7, 8, 9, 10]) ∧
    otherDataCount 37 0 = 37 - (36 + 0) ∧
    (get_OtherData 37 0 [1, 2, 3, 4, 5, 6, 7, 8, 9, 10]).2
      = [1, 2, 3, 4, 5, 6, 7, 8, 9, 10].drop (otherDataCount 37 0) :=
  ⟨by decide,
   (get_OtherData_consumes 37 0 [1, 2, 3, 4, 5, 6, 7, 8, 9, 10] (by decide) (by decide)).2.1
     (by decide),
   (get_OtherData_consumes 37 0 [1, 2, 3, 4, 5, 6, 7, 8, 9, 10] (by decide)
     (by decide)).2.2.1⟩

/-! ## Channel extraction and volume at concrete inputs -/

/-- C16 (the code at the failing input): on the stereo 8-bit payload
10 20 30 40 the left channel is 10 30 and the right channel 20 40, but
`schannel_command` writes, for the left selector, 10 followed by whatever the
fresh buffer held (0 or 7 here), and for the right selector whatever the fresh
buffer held followed by 20; on the stereo 16-bit payload 1 .. 8 the left
channel is 1 2 5 6 and the right channel 3 4 7 8, but the output payload is
1 2 3 4 for the left selector and a stale byte followed by 2 3 4 for the right
one. -/
theorem schannel_command_not_deinterleaved :
    validHeader stereo8Wav ∧ numChannels stereo8Wav = 2 ∧
    (schannel_command zeroMem 0 0 stereo8Wav).err = [] ∧
    (schannel_command zeroMem 0 0 stereo8Wav).out.drop 44 = [10, 0] ∧
    (schannel_command sevenMem 0 0 stereo8Wav).out.drop 44 = [10, 7] ∧
    (schannel_command zeroMem 1 0 stereo8Wav).out.drop 44 = [0, 20] ∧
    (schannel_command sevenMem 1 0 stereo8Wav).out.drop 44 = [7, 20] ∧
    validHeader stereo16Wav ∧ numChannels stereo16Wav = 2 ∧
    (schannel_command zeroMem 0 0 stereo16Wav).err = [] ∧
    (schannel_command zeroMem 0 0 stereo16Wav).out.drop 44 = [1, 2, 3, 4] ∧
    (schannel_command sevenMem 1 0 stereo16Wav).out.drop 44 = [7, 2, 3, 4] := by
  decide

/-- C19 (the code at the failing input): with multiplier 1 the payload byte
200 becomes 255 (the `char` cell is read as -56, whose conversion to
`uint32_t` exceeds 255), while 1 stays 1; with multiplier -1 the byte 1
becomes 255, not 0, and the byte 200 becomes 56. -/
theorem set_Volume8bit_signed_char :
    set_Volume8bit zeroMem [200, 1] 2 1 = [255, 1] ∧
    set_Volume8bit zeroMem [200, 1] 2 (-1) = [56, 255] ∧
    validHeader loudWav ∧ bitsPerSample loudWav = 8 ∧
    (svolume_command zeroMem 1 0 loudWav).err = [] ∧
    (svolume_command zeroMem 1 0 loudWav).out.drop 44 = [255, 1] := by
  decide

/-! ## Well-formed files: byte-exact output of the rate and volume commands -/

theorem peek_add (s : List Byte) (n k : Nat) : peek s (n + k) = peek (s.drop n) k := by
  simp [peek, List.getElem?_drop]

theorem peek_cons_zero (a : Byte) (l : List Byte) : peek (a :: l) 0 = (a.val : Int) := by
  simp [peek]

theorem peek_cons_succ (a : Byte) (l : List Byte) (k : Nat) :
    peek (a :: l) (k + 1) = peek l k := by
  simp [peek]

theorem drop_eq_cons4 (s : List Byte) (n : Nat) (h : n + 4 ≤ s.length) :
    ∃ a b c d : Byte, s.drop n = a :: b :: c :: d :: s.drop (n + 4) := by
  have hl : (s.drop n).length = s.length - n := List.length_drop n s
  cases h0 : s.drop n with
  | nil => rw [h0] at hl; simp at hl; omega
  | cons a t0 =>
    cases t0 with
    | nil => rw [h0] at hl; simp at hl; omega
    | cons b t1 =>
      cases t1 with
      | nil => rw [h0] at hl; simp at hl; omega
      | cons c t2 =>
        cases t2 with
        | nil => rw [h0] at hl; simp at hl; omega
        | cons d t3 =>
          refine ⟨a, b, c, d, ?_⟩
          have : s.drop (n + 4) = (s.drop n).drop 4 := by rw [List.drop_drop, Nat.add_comm]
          rw [this, h0]
          rfl

theorem peeks4 (s : List Byte) (n : Nat) (a b c d : Byte) (l : List Byte)
    (e : s.drop n = a :: b :: c :: d :: l) :
    peek s n = (a.val : Int) ∧ peek s (n + 1) = (b.val : Int) ∧ peek s (n + 2) = (c.val : Int) ∧
    peek s (n + 3) = (d.val : Int) := by
  have p0 := peek_add s n 0
  have p1 := peek_add s n 1
  have p2 := peek_add s n 2
  have p3 := peek_add s n 3
  rw [e] at p0 p1 p2 p3
  simp only [Nat.add_zero] at p0
  exact ⟨p0.trans (peek_cons_zero _ _),
    p1.trans ((peek_cons_succ _ _ 0).trans (peek_cons_zero _ _)),
    p2.trans ((peek_cons_succ _ _ 1).trans ((peek_cons_succ _ _ 0).trans (peek_cons_zero _ _))),
    p3.trans ((peek_cons_succ _ _ 2).trans ((peek_cons_succ _ _ 1).trans
      ((peek_cons_succ _ _ 0).trans (peek_cons_zero _ _))))⟩

theorem tagAt_eq_take (s : List Byte) (n : Nat) (h : n + 4 ≤ s.length) :
    tagAt s n = (s.drop n).take 4 := by
  obtain ⟨a, b, c, d, e⟩ := drop_eq_cons4 s n h
  obtain ⟨q0, q1, q2, q3⟩ := peeks4 s n a b c d _ e
  simp [tagAt, q0, q1, q2, q3, e, toChar_val]

theorem le32_roundtrip (a b c d : Byte) :
    write_u32 (((a.val : Int) + (b.val : Int) * 2 ^ 8 + (c.val : Int) * 2 ^ 16
      + (d.val : Int) * 2 ^ 24) % 2 ^ 32).toNat = [a, b, c, d] := by
  have ha := a.isLt
  have hb := b.isLt
  have hc := c.isLt
  have hd := d.isLt
  simp only [write_u32, byteOf]
  refine congrArg₂ _ (Fin.ext ?_) (congrArg₂ _ (Fin.ext ?_) (congrArg₂ _ (Fin.ext ?_)
    (congrArg₂ _ (Fin.ext ?_) rfl)))
  all_goals simp only []
  all_goals omega

theorem le16_roundtrip (a b : Byte) :
    write_u16 (((a.val : Int) + (b.val : Int) * 2 ^ 8) % 2 ^ 16).toNat = [a, b] := by
  have ha := a.isLt
  have hb := b.isLt
  simp only [write_u16, byteOf]
  refine congrArg₂ _ (Fin.ext ?_) (congrArg₂ _ (Fin.ext ?_) rfl)
  all_goals simp only []
  all_goals omega

theorem write_u32_u32At (s : List Byte) (n : Nat) (h : n + 4 ≤ s.length) :
    write_u32 (u32At s n) = (s.drop n).take 4 := by
  obtain ⟨a, b, c, d, e⟩ := drop_eq_cons4 s n h
  obtain ⟨q0, q1, q2, q3⟩ := peeks4 s n a b c d _ e
  rw [u32At, q0, q1, q2, q3, le32_roundtrip, e]
  rfl

theorem drop_eq_cons2 (s : List Byte) (n : Nat) (h : n + 2 ≤ s.length) :
    ∃ a b : Byte, s.drop n = a :: b :: s.drop (n + 2) := by
  have hl : (s.drop n).length = s.length - n := List.length_drop n s
  cases h0 : s.drop n with
  | nil => rw [h0] at hl; simp at hl; omega
  | cons a t0 =>
    cases t0 with
    | nil => rw [h0] at hl; simp at hl; omega
    | cons b t1 =>
      refine ⟨a, b, ?_⟩
      have : s.drop (n + 2) = (s.drop n).drop 2 := by rw [List.drop_drop, Nat.add_comm]
      rw [this, h0]
      rfl

theorem write_u16_u16At (s : List Byte) (n : Nat) (h : n + 2 ≤ s.length) :
    write_u16 (u16At s n) = (s.drop n).take 2 := by
  obtain ⟨a, b, e⟩ := drop_eq_cons2 s n h
  have p0 := peek_add s n 0
  have p1 := peek_add s n 1
  rw [e] at p0 p1
  simp only [Nat.add_zero] at p0
  have q0 := p0.trans (peek_cons_zero _ _)
  have q1 := p1.trans ((peek_cons_succ _ _ 0).trans (peek_cons_zero _ _))
  rw [u16At, q0, q1, le16_roundtrip, e]
  rfl

theorem write_d16_toInt16 (u : Nat) (h : u < 2 ^ 16) : write_d16 (toInt16 u) = write_u16 u := by
  have : ((toInt16 u) % 2 ^ 16).toNat = u := by
    unfold toInt16; split_ifs <;> omega
  rw [write_d16, this]

theorem drop_split (s : List Byte) (n k m : Nat) (h : m = n + k) :
    s.drop n = (s.drop n).take k ++ s.drop m := by
  subst h
  rw [← List.drop_drop, List.take_append_drop]

theorem take_split (s : List Byte) (n k m : Nat) (h : m = n + k) :
    s.take m = s.take n ++ (s.drop n).take k := by
  subst h
  exact List.take_add s n k

/-- The 44 header bytes of a stream of at least 44 bytes, field by field. -/
theorem header_roundtrip (mem : Nat → Byte) (s : List Byte) (h : 44 ≤ s.length) :
    swrite_ch mem (tagAt s 0) 4 = (s.drop 0).take 4 ∧
    write_u32 (fileSize s) = (s.drop 4).take 4 ∧
    swrite_ch mem (tagAt s 8) 4 = (s.drop 8).take 4 ∧
    swrite_ch mem (tagAt s 12) 4 = (s.drop 12).take 4 ∧
    write_u32 (fmtChunkSize s) = (s.drop 16).take 4 ∧
    write_u16 (audioFormat s) = (s.drop 20).take 2 ∧
    write_u16 (numChannels s) = (s.drop 22).take 2 ∧
    write_u32 (sampleRate s) = (s.drop 24).take 4 ∧
    write_u32 (byteRate s) = (s.drop 28).take 4 ∧
    write_u16 (blockAlign s) = (s.drop 32).take 2 ∧
    write_d16 (toInt16 (bitsPerSample s)) = (s.drop 34).take 2 ∧
    swrite_ch mem (tagAt s 36) 4 = (s.drop 36).take 4 ∧
    write_u32 (dataSize s) = (s.drop 40).take 4 := by
  have ht : ∀ n, n + 4 ≤ s.length → swrite_ch mem (tagAt s n) 4 = (s.drop n).take 4 := by
    intro n hn
    rw [swrite_ch_take mem (tagAt s n) 4 (by simp [tagAt]), tagAt_eq_take s n hn]
    simp
  refine ⟨ht 0 (by omega), write_u32_u32At s 4 (by omega), ht 8 (by omega), ht 12 (by omega),
    write_u32_u32At s 16 (by omega), write_u16_u16At s 20 (by omega),
    write_u16_u16At s 22 (by omega), write_u32_u32At s 24 (by omega),
    write_u32_u32At s 28 (by omega), write_u16_u16At s 32 (by omega), ?_, ht 36 (by omega),
    write_u32_u32At s 40 (by omega)⟩
  rw [bitsPerSample, write_d16_toInt16 _ (u16At_lt s 34)]
  exact write_u16_u16At s 34 (by omega)

theorem take24_split (s : List Byte) :
    s.take 24 = (s.drop 0).take 4 ++ (s.drop 4).take 4 ++ (s.drop 8).take 4 ++ (s.drop 12).take 4
      ++ (s.drop 16).take 4 ++ (s.drop 20).take 2 ++ (s.drop 22).take 2 := by
  rw [take_split s 22 2 24 rfl, take_split s 20 2 22 rfl, take_split s 16 4 20 rfl,
    take_split s 12 4 16 rfl, take_split s 8 4 12 rfl, take_split s 4 4 8 rfl,
    take_split s 0 4 4 rfl]
  simp

theorem drop32_split (s : List Byte) :
    s.drop 32 = (s.drop 32).take 2 ++ ((s.drop 34).take 2 ++ ((s.drop 36).take 4
      ++ ((s.drop 40).take 4 ++ s.drop 44))) := by
  rw [← drop_split s 40 4 44 rfl, ← drop_split s 36 4 40 rfl, ← drop_split s 34 2 36 rfl,
    ← drop_split s 32 2 34 rfl]

theorem wellFormed_reads (s : List Byte) (h : wellFormed s) :
    read_DataSegment (dataSize s) (s.drop 44)
      = ((s.drop 44).take (dataSize s), false, s.drop (44 + dataSize s)) ∧
    get_OtherData (fileSize s) (dataSize s) (s.drop (44 + dataSize s))
      = (s.drop (44 + dataSize s), []) ∧
    sub32 (fileSize s) ((SIZE_OF_WAVE_HEADER + dataSize s) % 2 ^ 32)
      = (s.drop (44 + dataSize s)).length := by
  obtain ⟨_, hfs, hlen⟩ := h
  have hf := u32At_lt s 4
  have hf' : fileSize s < 2 ^ 32 := hf
  have hl : dataSize s ≤ (s.drop 44).length := by simp; omega
  have e1 := read_DataSegment_complete (dataSize s) (s.drop 44) hl
  rw [List.drop_drop] at e1
  have hc : otherDataCount (fileSize s) (dataSize s) = (s.drop (44 + dataSize s)).length := by
    unfold otherDataCount sub32 SIZE_OF_WAVE_HEADER
    simp only [List.length_drop]
    omega
  refine ⟨by rw [e1, Nat.add_comm], ?_, hc⟩
  rw [get_OtherData, hc, Prod.ext_iff]
  constructor
  · rw [get_OtherData_loop_buffer]; simp
  · rw [get_OtherData_loop_rest]; simp; omega

theorem srate_command_wellFormed (mem : Nat → Byte) (rate : ℚ) (flag0 : Int) (s : List Byte)
    (h : wellFormed s) :
    srate_command mem rate flag0 s =
      ⟨flag0, s.take 24 ++ write_u32 (toU32 (truncMul (sampleRate s) rate))
        ++ write_u32 (toU32 (truncMul (byteRate s) rate)) ++ s.drop 32, [], []⟩ := by
  obtain ⟨e1, e2, e3⟩ := wellFormed_reads s h
  obtain ⟨hv, hfs, hlen⟩ := h
  have h44 : 44 ≤ s.length := by omega
  obtain ⟨r0, r1, r2, r3, r4, r5, r6, _, _, r9, r10, r11, r12⟩ := header_roundtrip mem s h44
  rw [validHeader] at hv
  rw [srate_command_eq, hv]
  simp only [srate_tail, e1, e2, e3, r0, r1, r2, r3, r4, r5, r6, r9, r10, r11, r12]
  have w1 : swrite_ch mem ((s.drop 44).take (dataSize s)) (dataSize s)
      = (s.drop 44).take (dataSize s) := by
    rw [swrite_ch_take _ _ _ (by simp; omega)]; simp
  have w2 : swrite_ch mem (s.drop (44 + dataSize s)) (s.drop (44 + dataSize s)).length
      = s.drop (44 + dataSize s) := by
    rw [swrite_ch_take _ _ _ (le_refl _)]; simp
  rw [w1, w2]
  conv_rhs => rw [take24_split, drop32_split, drop_split s 44 (dataSize s) _ rfl]
  simp [getchar, EOF]

theorem fresh_length (mem : Nat → Byte) (n : Nat) : (fresh mem n).length = n := by
  simp [fresh]

theorem set_Volume8bit_loop_length (mem : Nat → Byte) (data : List Byte) (size : Nat)
    (volume : ℚ) (fuel i : Nat) (buffer : List Byte) :
    (set_Volume8bit_loop mem data size volume fuel i buffer).length = buffer.length := by
  induction fuel generalizing i buffer with
  | zero => simp [set_Volume8bit_loop]
  | succ n ih =>
    unfold set_Volume8bit_loop
    split_ifs
    · simp only []; rw [ih]; simp
    · rfl

theorem set_Volume16bit_loop_length (mem : Nat → Byte) (data : List Byte) (size : Nat)
    (volume : ℚ) (fuel i : Nat) (buffer : List Byte) :
    (set_Volume16bit_loop mem data size volume fuel i buffer).length = buffer.length := by
  induction fuel generalizing i buffer with
  | zero => simp [set_Volume16bit_loop]
  | succ n ih =>
    unfold set_Volume16bit_loop
    split_ifs
    · simp only []; rw [ih]; simp
    · rfl

theorem set_Volume_length (mem : Nat → Byte) (data : List Byte) (size : Nat)
    (bits_pet_sample : Int) (volume : ℚ) :
    (set_Volume mem data size bits_pet_sample volume).length = size := by
  unfold set_Volume set_Volume8bit set_Volume16bit
  split_ifs
  · rw [set_Volume8bit_loop_length, fresh_length]
  · rw [set_Volume16bit_loop_length, fresh_length]

theorem take44_split (s : List Byte) :
    s.take 44 = (s.drop 0).take 4 ++ (s.drop 4).take 4 ++ (s.drop 8).take 4 ++ (s.drop 12).take 4
      ++ (s.drop 16).take 4 ++ (s.drop 20).take 2 ++ (s.drop 22).take 2 ++ (s.drop 24).take 4
      ++ (s.drop 28).take 4 ++ (s.drop 32).take 2 ++ (s.drop 34).take 2 ++ (s.drop 36).take 4
      ++ (s.drop 40).take 4 := by
  rw [take_split s 40 4 44 rfl, take_split s 36 4 40 rfl, take_split s 34 2 36 rfl,
    take_split s 32 2 34 rfl, take_split s 28 4 32 rfl, take_split s 24 4 28 rfl,
    take24_split]

theorem svolume_command_wellFormed (mem : Nat → Byte) (volume : ℚ) (flag0 : Int)
    (s : List Byte) (h : wellFormed s) :
    svolume_command mem volume flag0 s =
      ⟨flag0, s.take 44 ++ set_Volume mem ((s.drop 44).take (dataSize s)) (dataSize s)
          (toInt16 (bitsPerSample s)) volume ++ s.drop (44 + dataSize s), [], []⟩ := by
  obtain ⟨e1, e2, e3⟩ := wellFormed_reads s h
  obtain ⟨hv, hfs, hlen⟩ := h
  have h44 : 44 ≤ s.length := by omega
  obtain ⟨r0, r1, r2, r3, r4, r5, r6, r7, r8, r9, r10, r11, r12⟩ := header_roundtrip mem s h44
  rw [validHeader] at hv
  rw [svolume_command_eq, hv]
  simp only [svolume_tail, e1, e2, e3, r0, r1, r2, r3, r4, r5, r6, r7, r8, r9, r10, r11, r12]
  have w1 : ∀ v : List Byte, v.length = dataSize s → swrite_ch mem v (dataSize s) = v := by
    intro v hv
    rw [swrite_ch_take _ _ _ (by omega), ← hv]; simp
  have w2 : swrite_ch mem (s.drop (44 + dataSize s)) (s.drop (44 + dataSize s)).length
      = s.drop (44 + dataSize s) := by
    rw [swrite_ch_take _ _ _ (le_refl _)]; simp
  rw [w1 _ (set_Volume_length _ _ _ _ _), w2]
  conv_rhs => rw [take44_split]
  simp [getchar, EOF]

theorem log2Fuel_step (c n l : Nat) (h1 : 2 ^ l ≤ n / 2 ^ c)
    (h2 : n / 2 ^ c < 2 ^ (l + 1)) : 2 ^ (l + c) ≤ n ∧ n < 2 ^ (l + c + 1) := by
  have hp : 0 < 2 ^ c := by positivity
  constructor
  · rw [pow_add]
    exact (Nat.le_div_iff_mul_le hp).1 h1
  · rw [show l + c + 1 = (l + 1) + c by omega, pow_add]
    exact (Nat.div_lt_iff_lt_mul hp).1 h2

theorem log2Fuel_spec (fuel n : Nat) (hn : 0 < n) (hf : n < 2 ^ fuel) :
    2 ^ log2Fuel fuel n ≤ n ∧ n < 2 ^ (log2Fuel fuel n + 1) := by
  induction fuel generalizing n with
  | zero => simp at hf; omega
  | succ f ih =>
    have hlt : ∀ c, 0 < c → n / 2 ^ c < 2 ^ f := by
      intro c hc
      have h2 : n / 2 ^ c ≤ n / 2 := by
        apply Nat.div_le_div_left _ (by norm_num)
        calc 2 = 2 ^ 1 := by norm_num
          _ ≤ 2 ^ c := Nat.pow_le_pow_right (by norm_num) hc
      have h3 : n / 2 < 2 ^ f := by rw [pow_succ] at hf; omega
      omega
    unfold log2Fuel
    split_ifs with h128 h16 h2
    · have hpos : 0 < n / 2 ^ 128 := Nat.div_pos h128 (by positivity)
      have h := ih (n / 2 ^ 128) hpos (hlt 128 (by norm_num))
      exact log2Fuel_step 128 n _ h.1 h.2
    · have hpos : 0 < n / 2 ^ 16 := Nat.div_pos h16 (by positivity)
      have h := ih (n / 2 ^ 16) hpos (hlt 16 (by norm_num))
      exact log2Fuel_step 16 n _ h.1 h.2
    · have hpos : 0 < n / 2 ^ 1 := Nat.div_pos (by simpa using h2) (by positivity)
      have h := ih (n / 2 ^ 1) hpos (hlt 1 (by norm_num))
      have := log2Fuel_step 1 n _ h.1 h.2
      simpa using this
    · have : n = 1 := by omega
      subst this
      simp

theorem log2Fuel_self (n : Nat) (hn : 0 < n) :
    2 ^ log2Fuel n n ≤ n ∧ n < 2 ^ (log2Fuel n n + 1) :=
  log2Fuel_spec n n hn (Nat.lt_two_pow n)

theorem zpow_split (k : Int) : (2 : ℚ) ^ k = (2 : ℚ) ^ k.toNat / (2 : ℚ) ^ (-k).toNat := by
  rcases le_total 0 k with h | h
  · have e1 : (-k).toNat = 0 := by omega
    have e2 : (k.toNat : Int) = k := Int.toNat_of_nonneg h
    rw [e1, pow_zero, div_one, ← zpow_natCast, e2]
  · have e1 : k.toNat = 0 := by omega
    have e2 : ((-k).toNat : Int) = -k := Int.toNat_of_nonneg (by omega)
    rw [e1, pow_zero, one_div, ← zpow_natCast, e2, zpow_neg, inv_inv]

theorem floorLog2_spec (N d : Nat) (hN : 0 < N) (hd : 0 < d) :
    (2 : ℚ) ^ floorLog2 N d ≤ (N : ℚ) / d ∧ (N : ℚ) / d < (2 : ℚ) ^ (floorLog2 N d + 1) := by
  have hdq : (0 : ℚ) < d := by exact_mod_cast hd
  obtain ⟨n1, n2⟩ := log2Fuel_self N hN
  obtain ⟨d1, d2⟩ := log2Fuel_self d hd
  have n1q : (2 : ℚ) ^ (log2Fuel N N : Int) ≤ N := by rw [zpow_natCast]; exact_mod_cast n1
  have n2q : (N : ℚ) < (2 : ℚ) ^ ((log2Fuel N N : Int) + 1) := by
    rw [show ((log2Fuel N N : Int) + 1) = ((log2Fuel N N + 1 : Nat) : Int) by push_cast; rfl,
      zpow_natCast]
    exact_mod_cast n2
  have d1q : (2 : ℚ) ^ (log2Fuel d d : Int) ≤ d := by rw [zpow_natCast]; exact_mod_cast d1
  have d2q : (d : ℚ) < (2 : ℚ) ^ ((log2Fuel d d : Int) + 1) := by
    rw [show ((log2Fuel d d : Int) + 1) = ((log2Fuel d d + 1 : Nat) : Int) by push_cast; rfl,
      zpow_natCast]
    exact_mod_cast d2
  have two : (0 : ℚ) < 2 := by norm_num
  have hup : (N : ℚ) / d < (2 : ℚ) ^ ((log2Fuel N N : Int) - (log2Fuel d d : Int) + 1) := by
    rw [div_lt_iff₀ hdq]
    calc (N : ℚ) < (2 : ℚ) ^ ((log2Fuel N N : Int) + 1) := n2q
      _ = (2 : ℚ) ^ ((log2Fuel N N : Int) - (log2Fuel d d : Int) + 1)
            * (2 : ℚ) ^ (log2Fuel d d : Int) := by
          rw [← zpow_add₀ two.ne']; congr 1; ring
      _ ≤ (2 : ℚ) ^ ((log2Fuel N N : Int) - (log2Fuel d d : Int) + 1) * d :=
          mul_le_mul_of_nonneg_left d1q (zpow_pos two _).le
  have hlo : (2 : ℚ) ^ ((log2Fuel N N : Int) - (log2Fuel d d : Int) - 1) ≤ (N : ℚ) / d := by
    rw [le_div_iff₀ hdq]
    calc (2 : ℚ) ^ ((log2Fuel N N : Int) - (log2Fuel d d : Int) - 1) * d
        ≤ (2 : ℚ) ^ ((log2Fuel N N : Int) - (log2Fuel d d : Int) - 1)
            * (2 : ℚ) ^ ((log2Fuel d d : Int) + 1) :=
          mul_le_mul_of_nonneg_left d2q.le (zpow_pos two _).le
      _ = (2 : ℚ) ^ (log2Fuel N N : Int) := by
          rw [← zpow_add₀ two.ne']; congr 1; ring
      _ ≤ N := n1q
  unfold floorLog2
  simp only []
  split_ifs with hc
  · refine ⟨?_, hup⟩
    rw [zpow_split, div_le_div_iff₀ (by positivity) hdq]
    have : ((d * 2 ^ ((log2Fuel N N : Int) - (log2Fuel d d : Int)).toNat : Nat) : ℚ)
        ≤ ((N * 2 ^ (-((log2Fuel N N : Int) - (log2Fuel d d : Int))).toNat : Nat) : ℚ) := by
      exact_mod_cast hc
    push_cast at this
    linarith
  · refine ⟨hlo, ?_⟩
    rw [sub_add_cancel, zpow_split, lt_div_iff₀ (by positivity), div_mul_eq_mul_div,
      div_lt_iff₀ hdq]
    have : ((N * 2 ^ (-((log2Fuel N N : Int) - (log2Fuel d d : Int))).toNat : Nat) : ℚ)
        < ((d * 2 ^ ((log2Fuel N N : Int) - (log2Fuel d d : Int)).toNat : Nat) : ℚ) := by
      exact_mod_cast not_le.1 hc
    push_cast at this
    linarith

theorem roundHalfEven_ge (N d m : Nat) (hd : 0 < d) (h : m * d ≤ N) :
    m ≤ roundHalfEven N d := by
  have h1 : m ≤ N / d := (Nat.le_div_iff_mul_le hd).2 h
  unfold roundHalfEven
  split_ifs <;> omega

theorem roundHalfEven_le (N d m : Nat) (hd : 0 < d) (h : N ≤ m * d) :
    roundHalfEven N d ≤ m := by
  have h0 : N / d ≤ m := by
    calc N / d ≤ m * d / d := Nat.div_le_div_right h
      _ = m := Nat.mul_div_cancel _ hd
  have h1 : N % d ≠ 0 → N / d < m := by
    intro hne
    by_contra hlt
    have hm : m = N / d := by omega
    have e := Nat.div_add_mod N d
    rw [hm, Nat.mul_comm] at h
    omega
  unfold roundHalfEven
  split_ifs with a b c
  · exact h0
  · exact h1 (by omega)
  · exact h0
  · exact h1 (by omega)

theorem ulpExp_nonpos (N d : Nat) (hd : 0 < d) (h : (N : ℚ) / d < 2 ^ 53) :
    (nearestDouble N d).2 ≤ 0 := by
  have hL : floorLog2 N d ≤ 52 := by
    rcases Nat.eq_zero_or_pos N with h0 | hN
    · subst h0
      unfold floorLog2
      simp only [log2Fuel]
      rw [if_neg (by simp; omega)]
      omega
    · have hs := (floorLog2_spec N d hN hd).1
      have hlt : (2 : ℚ) ^ floorLog2 N d < (2 : ℚ) ^ (53 : Int) := by
        rw [show ((2 : ℚ) ^ (53 : Int)) = 2 ^ 53 by norm_num]
        exact lt_of_le_of_lt hs h
      have := (zpow_lt_zpow_iff_right₀ (by norm_num : (1 : ℚ) < 2)).1 hlt
      omega
  unfold nearestDouble
  simp only []
  omega

theorem doubleValue_eq (N d : Nat) (h : (nearestDouble N d).2 ≤ 0) :
    doubleValue (nearestDouble N d)
      = (roundHalfEven (N * 2 ^ (-(nearestDouble N d).2).toNat) d : ℚ)
          / 2 ^ (-(nearestDouble N d).2).toNat := by
  have e1 : (nearestDouble N d).2.toNat = 0 := by omega
  have e3 : (nearestDouble N d).1
      = roundHalfEven (N * 2 ^ (-(nearestDouble N d).2).toNat) d := by
    have : (nearestDouble N d).1 = roundHalfEven (N * 2 ^ (-(nearestDouble N d).2).toNat)
        (d * 2 ^ (nearestDouble N d).2.toNat) := rfl
    rw [this, e1, pow_zero, Nat.mul_one]
  rw [doubleValue, zpow_split, e1, pow_zero, ← e3]
  ring

theorem doubleValue_ge (N d m : Nat) (hd : 0 < d) (h : (N : ℚ) / d < 2 ^ 53)
    (hm : (m : ℚ) ≤ (N : ℚ) / d) : (m : ℚ) ≤ doubleValue (nearestDouble N d) := by
  have hdq : (0 : ℚ) < d := by exact_mod_cast hd
  rw [doubleValue_eq N d (ulpExp_nonpos N d hd h), le_div_iff₀ (by positivity)]
  rw [le_div_iff₀ hdq] at hm
  have hm2 : m * d ≤ N := by exact_mod_cast hm
  have := roundHalfEven_ge (N * 2 ^ (-(nearestDouble N d).2).toNat) d
    (m * 2 ^ (-(nearestDouble N d).2).toNat) hd (by
      calc m * 2 ^ (-(nearestDouble N d).2).toNat * d
          = m * d * 2 ^ (-(nearestDouble N d).2).toNat := by ring
        _ ≤ N * 2 ^ (-(nearestDouble N d).2).toNat := Nat.mul_le_mul_right _ hm2)
  exact_mod_cast this

theorem doubleValue_le (N d m : Nat) (hd : 0 < d) (h : (N : ℚ) / d < 2 ^ 53)
    (hm : (N : ℚ) / d ≤ (m : ℚ)) : doubleValue (nearestDouble N d) ≤ (m : ℚ) := by
  have hdq : (0 : ℚ) < d := by exact_mod_cast hd
  rw [doubleValue_eq N d (ulpExp_nonpos N d hd h), div_le_iff₀ (by positivity)]
  rw [div_le_iff₀ hdq] at hm
  have hm2 : N ≤ m * d := by exact_mod_cast hm
  have := roundHalfEven_le (N * 2 ^ (-(nearestDouble N d).2).toNat) d
    (m * 2 ^ (-(nearestDouble N d).2).toNat) hd (by
      calc N * 2 ^ (-(nearestDouble N d).2).toNat
          ≤ m * d * 2 ^ (-(nearestDouble N d).2).toNat := Nat.mul_le_mul_right _ hm2
        _ = m * 2 ^ (-(nearestDouble N d).2).toNat * d := by ring)
  exact_mod_cast this

theorem doubleValue_nonneg (p : Nat × Int) : 0 ≤ doubleValue p := by
  unfold doubleValue
  positivity

theorem doubleValue_large (N d : Nat) (hd : 0 < d) (h : (2 : ℚ) ^ 53 ≤ (N : ℚ) / d) :
    (2 : ℚ) ^ 53 ≤ doubleValue (nearestDouble N d) := by
  have hdq : (0 : ℚ) < d := by exact_mod_cast hd
  have hN : 0 < N := by
    rcases Nat.eq_zero_or_pos N with h0 | hN
    · subst h0; norm_num at h
    · exact hN
  obtain ⟨s1, s2⟩ := floorLog2_spec N d hN hd
  have hL : 53 ≤ floorLog2 N d := by
    have hlt : (2 : ℚ) ^ (53 : Int) < (2 : ℚ) ^ (floorLog2 N d + 1) := by
      rw [show ((2 : ℚ) ^ (53 : Int)) = 2 ^ 53 by norm_num]
      exact lt_of_le_of_lt h s2
    have := (zpow_lt_zpow_iff_right₀ (by norm_num : (1 : ℚ) < 2)).1 hlt
    omega
  have he : (nearestDouble N d).2 = floorLog2 N d - 52 := by
    unfold nearestDouble
    simp only []
    omega
  have e1 : (-(nearestDouble N d).2).toNat = 0 := by omega
  have e2 : (((nearestDouble N d).2.toNat : Nat) : Int) = floorLog2 N d - 52 := by omega
  have e3 : (nearestDouble N d).1 = roundHalfEven N (d * 2 ^ (nearestDouble N d).2.toNat) := by
    have : (nearestDouble N d).1 = roundHalfEven (N * 2 ^ (-(nearestDouble N d).2).toNat)
        (d * 2 ^ (nearestDouble N d).2.toNat) := rfl
    rw [this, e1, pow_zero, Nat.mul_one]
  have hpow : (2 : ℚ) ^ floorLog2 N d
      = 2 ^ 52 * (2 : ℚ) ^ (nearestDouble N d).2.toNat := by
    rw [← zpow_natCast (2 : ℚ) (nearestDouble N d).2.toNat, e2,
      show ((2 : ℚ) ^ 52) = (2 : ℚ) ^ (52 : Int) by norm_num, ← zpow_add₀ (by norm_num)]
    congr 1; ring
  have hM : 2 ^ 52 ≤ (nearestDouble N d).1 := by
    rw [e3]
    apply roundHalfEven_ge _ _ _ (by positivity)
    have : (2 : ℚ) ^ 52 * ((d : ℚ) * 2 ^ (nearestDouble N d).2.toNat) ≤ N := by
      rw [le_div_iff₀ hdq, hpow] at s1
      linarith
    exact_mod_cast this
  have hMq : (2 : ℚ) ^ 52 ≤ ((nearestDouble N d).1 : ℚ) := by exact_mod_cast hM
  have he1 : (1 : Int) ≤ (nearestDouble N d).2 := by omega
  have h2 : (2 : ℚ) ≤ (2 : ℚ) ^ (nearestDouble N d).2 := by
    calc (2 : ℚ) = (2 : ℚ) ^ (1 : Int) := by norm_num
      _ ≤ (2 : ℚ) ^ (nearestDouble N d).2 := zpow_le_zpow_right₀ (by norm_num) he1
  unfold doubleValue
  calc (2 : ℚ) ^ 53 = 2 ^ 52 * 2 := by norm_num
    _ ≤ ((nearestDouble N d).1 : ℚ) * (2 : ℚ) ^ (nearestDouble N d).2 :=
        mul_le_mul hMq h2 (by norm_num) (by positivity)

theorem toNat_cast (z : Int) (h : 0 ≤ z) : ((z.toNat : Nat) : ℚ) = (z : ℚ) := by
  rw [← Int.cast_natCast, Int.toNat_of_nonneg h]

theorem mul_eq_div (x : Int) (r : ℚ) :
    (x : ℚ) * r = ((x * r.num : Int) : ℚ) / ((r.den : Nat) : ℚ) := by
  have h := Rat.num_div_den r
  push_cast
  rw [mul_div_assoc, h]

theorem mul_eq_natAbs_div (x : Int) (r : ℚ) (h : 0 ≤ x * r.num) :
    (x : ℚ) * r = ((x * r.num).natAbs : ℚ) / (r.den : ℚ) := by
  rw [mul_eq_div]
  congr 1
  rw [Nat.cast_natAbs, abs_of_nonneg h]

theorem mul_eq_neg_natAbs_div (x : Int) (r : ℚ) (h : x * r.num < 0) :
    (x : ℚ) * r = -(((x * r.num).natAbs : ℚ) / (r.den : ℚ)) := by
  rw [mul_eq_div, ← neg_div]
  congr 1
  rw [Nat.cast_natAbs, abs_of_neg h]
  push_cast
  ring

theorem mulDouble_nonneg (x : Int) (r : ℚ) (h : 0 ≤ (x : ℚ) * r) : 0 ≤ mulDouble x r := by
  unfold mulDouble
  split_ifs with hn
  · exfalso
    rw [mul_eq_neg_natAbs_div x r hn] at h
    have hp : (0 : ℚ) < ((x * r.num).natAbs : ℚ) / (r.den : ℚ) := by
      apply div_pos
      · exact_mod_cast Int.natAbs_pos.2 (by omega)
      · exact_mod_cast r.den_pos
    linarith
  · exact doubleValue_nonneg _

theorem mulDouble_bracket (x : Int) (r : ℚ) (h : |(x : ℚ) * r| < 2 ^ 53) :
    ((⌊(x : ℚ) * r⌋ : Int) : ℚ) ≤ mulDouble x r ∧ mulDouble x r ≤ ((⌈(x : ℚ) * r⌉ : Int) : ℚ) := by
  have hd := r.den_pos
  rw [abs_lt] at h
  unfold mulDouble
  split_ifs with hn
  · have e := mul_eq_neg_natAbs_div x r hn
    have hq : ((x * r.num).natAbs : ℚ) / (r.den : ℚ) < 2 ^ 53 := by linarith
    have hq0 : (0 : ℚ) ≤ ((x * r.num).natAbs : ℚ) / (r.den : ℚ) := by positivity
    rw [e, Int.floor_neg, Int.ceil_neg]
    push_cast
    constructor
    · have h1 : ((⌈((x * r.num).natAbs : ℚ) / (r.den : ℚ)⌉.toNat : Nat) : ℚ)
          = ((⌈((x * r.num).natAbs : ℚ) / (r.den : ℚ)⌉ : Int) : ℚ) :=
        toNat_cast _ (Int.ceil_nonneg hq0)
      have := doubleValue_le (x * r.num).natAbs r.den _ hd hq (by
        rw [h1]; exact Int.le_ceil _)
      rw [h1] at this
      linarith
    · have h1 : ((⌊((x * r.num).natAbs : ℚ) / (r.den : ℚ)⌋.toNat : Nat) : ℚ)
          = ((⌊((x * r.num).natAbs : ℚ) / (r.den : ℚ)⌋ : Int) : ℚ) :=
        toNat_cast _ (Int.floor_nonneg.2 hq0)
      have := doubleValue_ge (x * r.num).natAbs r.den _ hd hq (by
        rw [h1]; exact Int.floor_le _)
      rw [h1] at this
      linarith
  · have e := mul_eq_natAbs_div x r (not_lt.1 hn)
    have hq : ((x * r.num).natAbs : ℚ) / (r.den : ℚ) < 2 ^ 53 := by linarith
    have hq0 : (0 : ℚ) ≤ ((x * r.num).natAbs : ℚ) / (r.den : ℚ) := by positivity
    rw [e]
    constructor
    · have h1 : ((⌊((x * r.num).natAbs : ℚ) / (r.den : ℚ)⌋.toNat : Nat) : ℚ)
          = ((⌊((x * r.num).natAbs : ℚ) / (r.den : ℚ)⌋ : Int) : ℚ) :=
        toNat_cast _ (Int.floor_nonneg.2 hq0)
      have := doubleValue_ge (x * r.num).natAbs r.den _ hd hq (by
        rw [h1]; exact Int.floor_le _)
      rw [h1] at this
      exact this
    · have h1 : ((⌈((x * r.num).natAbs : ℚ) / (r.den : ℚ)⌉.toNat : Nat) : ℚ)
          = ((⌈((x * r.num).natAbs : ℚ) / (r.den : ℚ)⌉ : Int) : ℚ) :=
        toNat_cast _ (Int.ceil_nonneg hq0)
      have := doubleValue_le (x * r.num).natAbs r.den _ hd hq (by
        rw [h1]; exact Int.le_ceil _)
      rw [h1] at this
      exact this

theorem mulDouble_of_int (x : Int) (r : ℚ) (n : Int) (h : (x : ℚ) * r = n)
    (hb : |n| < 2 ^ 53) : mulDouble x r = n := by
  have hq : |(x : ℚ) * r| < 2 ^ 53 := by
    rw [h]; exact_mod_cast hb
  have hbr := mulDouble_bracket x r hq
  rw [h, Int.floor_intCast, Int.ceil_intCast] at hbr
  exact le_antisymm hbr.2 hbr.1

theorem mulDouble_small (x : Int) (r : ℚ) (h0 : 0 ≤ (x : ℚ) * r)
    (h : mulDouble x r < 2 ^ 53) : (x : ℚ) * r < 2 ^ 53 := by
  by_contra hge
  rw [not_lt] at hge
  have hn : 0 ≤ x * r.num := by
    by_contra hneg
    rw [mul_eq_neg_natAbs_div x r (not_le.1 hneg)] at h0
    have hp : (0 : ℚ) < ((x * r.num).natAbs : ℚ) / (r.den : ℚ) := by
      apply div_pos
      · exact_mod_cast Int.natAbs_pos.2 (by omega)
      · exact_mod_cast r.den_pos
    linarith
  rw [mul_eq_natAbs_div x r hn] at hge
  have := doubleValue_large _ _ r.den_pos hge
  unfold mulDouble at h
  rw [if_neg (not_lt.2 hn)] at h
  linarith

theorem truncQ_neg (q : ℚ) : truncQ (-q) = -truncQ q := by
  unfold truncQ
  rcases lt_trichotomy q 0 with h | h | h
  · rw [if_pos (by linarith), if_neg (by linarith), Int.floor_neg]
  · subst h; simp
  · rw [if_neg (by linarith), if_pos h.le, Int.ceil_neg]

theorem truncDouble_eq (p : Nat × Int) : (truncDouble p : Int) = truncQ (doubleValue p) := by
  unfold truncQ
  rw [if_pos (doubleValue_nonneg p)]
  unfold doubleValue truncDouble
  rw [zpow_split, ← mul_div_assoc]
  have : ((p.1 : ℚ) * 2 ^ p.2.toNat) / 2 ^ (-p.2).toNat
      = (((p.1 * 2 ^ p.2.toNat : Nat) : Int) : ℚ) / ((2 ^ (-p.2).toNat : Nat) : ℚ) := by
    push_cast; rfl
  rw [this, Rat.floor_intCast_div_natCast]
  push_cast
  rfl

theorem truncMul_eq_truncQ (x : Int) (r : ℚ) : truncMul x r = truncQ (mulDouble x r) := by
  unfold truncMul mulDouble
  split_ifs
  · rw [truncQ_neg, truncDouble_eq]
  · rw [truncDouble_eq]

theorem toU32_truncMul (x : Nat) (r : ℚ) (hr : 0 ≤ r) (h : mulDouble x r < 2 ^ 32) :
    toU32 (truncMul x r) = ⌊mulDouble x r⌋₊ := by
  have hq : (0 : ℚ) ≤ mulDouble x r :=
    mulDouble_nonneg x r (mul_nonneg (by positivity) hr)
  rw [truncMul_eq_truncQ, truncQ, if_pos hq]
  have h0 : 0 ≤ ⌊mulDouble x r⌋ := Int.floor_nonneg.2 hq
  have h1 : ⌊mulDouble x r⌋ < 2 ^ 32 := by
    rw [Int.floor_lt]; exact_mod_cast h
  have h2 : ⌊mulDouble x r⌋.toNat = ⌊mulDouble x r⌋₊ := Int.floor_toNat _
  rw [← h2]
  unfold toU32
  rw [if_pos ⟨by omega, by omega⟩]
  omega

theorem floor_mulDouble (x : Nat) (r : ℚ) (hr : 0 ≤ r) (h : mulDouble x r < 2 ^ 32) :
    (x : ℚ) * r < 2 ^ 32 ∧
    ⌊(x : ℚ) * r⌋₊ ≤ ⌊mulDouble x r⌋₊ ∧ ⌊mulDouble x r⌋₊ ≤ ⌈(x : ℚ) * r⌉₊ ∧
    ⌊mulDouble x r⌋₊ < 2 ^ 32 := by
  have h0 : (0 : ℚ) ≤ ((x : Int) : ℚ) * r := mul_nonneg (by positivity) hr
  have hq : (0 : ℚ) ≤ mulDouble x r := mulDouble_nonneg x r h0
  have hs := mulDouble_small x r h0 (lt_trans h (by norm_num))
  have hb := mulDouble_bracket x r (by rw [abs_of_nonneg h0]; exact hs)
  simp only [Int.cast_natCast] at h0 hs hb
  have hfl : ((⌊(x : ℚ) * r⌋₊ : Nat) : ℚ) ≤ mulDouble x r := by
    have e : ((⌊(x : ℚ) * r⌋₊ : Nat) : ℚ) = ((⌊(x : ℚ) * r⌋ : Int) : ℚ) := by
      rw [← Int.floor_toNat]; exact toNat_cast _ (Int.floor_nonneg.2 h0)
    rw [e]; exact hb.1
  have hce : mulDouble x r ≤ ((⌈(x : ℚ) * r⌉₊ : Nat) : ℚ) := by
    have e : ((⌈(x : ℚ) * r⌉₊ : Nat) : ℚ) = ((⌈(x : ℚ) * r⌉ : Int) : ℚ) := by
      rw [← Int.ceil_toNat]; exact toNat_cast _ (Int.ceil_nonneg h0)
    rw [e]; exact hb.2
  refine ⟨?_, Nat.le_floor hfl, Nat.floor_le_of_le hce, ?_⟩
  · have := lt_of_le_of_lt hfl h
    have h3 : ⌊(x : ℚ) * r⌋₊ < 2 ^ 32 := by exact_mod_cast this
    have h4 := Nat.lt_floor_add_one ((x : ℚ) * r)
    have h5 : ((⌊(x : ℚ) * r⌋₊ : Nat) : ℚ) + 1 ≤ 2 ^ 32 := by exact_mod_cast h3
    linarith
  · rw [Nat.floor_lt hq]; exact_mod_cast h

theorem roundHalfEven_err (N d : Nat) (hd : 0 < d) :
    |(roundHalfEven N d : ℚ) - (N : ℚ) / d| ≤ 1 / 2 := by
  have hdq : (0 : ℚ) < d := by exact_mod_cast hd
  have e : (N : ℚ) / d = (N / d : Nat) + ((N % d : Nat) : ℚ) / d := by
    have h := Nat.div_add_mod N d
    have hq : (N : ℚ) = (d : ℚ) * (N / d : Nat) + (N % d : Nat) := by exact_mod_cast h.symm
    field_simp
    linarith
  have hr0 : (0 : ℚ) ≤ ((N % d : Nat) : ℚ) / d := by positivity
  rw [e, abs_le]
  unfold roundHalfEven
  split_ifs with a b c
  · have : 2 * ((N % d : Nat) : ℚ) < d := by exact_mod_cast a
    have h2 : ((N % d : Nat) : ℚ) / d < 1 / 2 := by
      rw [div_lt_iff₀ hdq]; linarith
    constructor <;> linarith
  · have : (d : ℚ) < 2 * ((N % d : Nat) : ℚ) := by exact_mod_cast b
    have h2 : 1 / 2 < ((N % d : Nat) : ℚ) / d := by
      rw [lt_div_iff₀ hdq]; linarith
    have h3 : ((N % d : Nat) : ℚ) / d < 1 := by
      rw [div_lt_one hdq]; exact_mod_cast Nat.mod_lt N hd
    push_cast
    constructor <;> linarith
  · have h1 : 2 * (N % d) = d := by omega
    have : 2 * ((N % d : Nat) : ℚ) = d := by exact_mod_cast h1
    have h2 : ((N % d : Nat) : ℚ) / d = 1 / 2 := by
      rw [div_eq_iff hdq.ne']; linarith
    constructor <;> linarith
  · have h1 : 2 * (N % d) = d := by omega
    have : 2 * ((N % d : Nat) : ℚ) = d := by exact_mod_cast h1
    have h2 : ((N % d : Nat) : ℚ) / d = 1 / 2 := by
      rw [div_eq_iff hdq.ne']; linarith
    push_cast
    constructor <;> linarith

theorem roundHalfEven_err_lt (N d : Nat) (hd : 0 < d) (h : 2 * (N % d) ≠ d) :
    |(roundHalfEven N d : ℚ) - (N : ℚ) / d| < 1 / 2 := by
  have hdq : (0 : ℚ) < d := by exact_mod_cast hd
  have e : (N : ℚ) / d = (N / d : Nat) + ((N % d : Nat) : ℚ) / d := by
    have h := Nat.div_add_mod N d
    have hq : (N : ℚ) = (d : ℚ) * (N / d : Nat) + (N % d : Nat) := by exact_mod_cast h.symm
    field_simp
    linarith
  have hr0 : (0 : ℚ) ≤ ((N % d : Nat) : ℚ) / d := by positivity
  rw [e, abs_lt]
  unfold roundHalfEven
  split_ifs with a b c
  · have : 2 * ((N % d : Nat) : ℚ) < d := by exact_mod_cast a
    have h2 : ((N % d : Nat) : ℚ) / d < 1 / 2 := by
      rw [div_lt_iff₀ hdq]; linarith
    constructor <;> linarith
  · have : (d : ℚ) < 2 * ((N % d : Nat) : ℚ) := by exact_mod_cast b
    have h2 : 1 / 2 < ((N % d : Nat) : ℚ) / d := by
      rw [lt_div_iff₀ hdq]; linarith
    have h3 : ((N % d : Nat) : ℚ) / d < 1 := by
      rw [div_lt_one hdq]; exact_mod_cast Nat.mod_lt N hd
    push_cast
    constructor <;> linarith
  · exact absurd (by omega) h
  · exact absurd (by omega) h

theorem roundHalfEven_tie (N d : Nat) (h : 2 * (N % d) = d) : roundHalfEven N d % 2 = 0 := by
  unfold roundHalfEven
  split_ifs <;> omega

theorem scaled_quotient (N d : Nat) (e : Int) :
    ((N * 2 ^ (-e).toNat : Nat) : ℚ) / ((d * 2 ^ e.toNat : Nat) : ℚ)
      = (N : ℚ) / d / (2 : ℚ) ^ e := by
  rw [zpow_split e]
  push_cast
  field_simp

/-- The pair `nearestDouble N d` is the binary64 number nearest to `N / d`:
its exponent is the binary exponent of `N / d` less 52, and not below `-1074`;
its significand is at most `2^53`, and at least `2^52` unless the exponent is
`-1074`; its value is within half a unit in the last place of `N / d`, and the
significand is even when `N / d` lies half-way between two candidates. -/
theorem nearestDouble_spec (N d : Nat) (hN : 0 < N) (hd : 0 < d) :
    (nearestDouble N d).2 = max (floorLog2 N d - 52) (-1074) ∧
    (2 : ℚ) ^ floorLog2 N d ≤ (N : ℚ) / d ∧ (N : ℚ) / d < (2 : ℚ) ^ (floorLog2 N d + 1) ∧
    (nearestDouble N d).1 ≤ 2 ^ 53 ∧
    (-1074 < (nearestDouble N d).2 → 2 ^ 52 ≤ (nearestDouble N d).1) ∧
    |doubleValue (nearestDouble N d) - (N : ℚ) / d| ≤ (2 : ℚ) ^ (nearestDouble N d).2 / 2 ∧
    (|doubleValue (nearestDouble N d) - (N : ℚ) / d| = (2 : ℚ) ^ (nearestDouble N d).2 / 2 →
      (nearestDouble N d).1 % 2 = 0) := by
  have hdq : (0 : ℚ) < d := by exact_mod_cast hd
  obtain ⟨s1, s2⟩ := floorLog2_spec N d hN hd
  have he : (nearestDouble N d).2 = max (floorLog2 N d - 52) (-1074) := rfl
  have hM : (nearestDouble N d).1 = roundHalfEven (N * 2 ^ (-(nearestDouble N d).2).toNat)
      (d * 2 ^ (nearestDouble N d).2.toNat) := rfl
  have hd2 : 0 < d * 2 ^ (nearestDouble N d).2.toNat := by positivity
  have hd2q : (0 : ℚ) < ((d * 2 ^ (nearestDouble N d).2.toNat : Nat) : ℚ) := by
    exact_mod_cast hd2
  have hpe : (0 : ℚ) < (2 : ℚ) ^ (nearestDouble N d).2 := zpow_pos (by norm_num) _
  have hsq := scaled_quotient N d (nearestDouble N d).2
  have hup : (N : ℚ) / d / (2 : ℚ) ^ (nearestDouble N d).2 < 2 ^ 53 := by
    rw [div_lt_iff₀ hpe]
    calc (N : ℚ) / d < (2 : ℚ) ^ (floorLog2 N d + 1) := s2
      _ ≤ (2 : ℚ) ^ (53 + (nearestDouble N d).2) :=
          zpow_le_zpow_right₀ (by norm_num) (by omega)
      _ = 2 ^ 53 * (2 : ℚ) ^ (nearestDouble N d).2 := by
          rw [zpow_add₀ (by norm_num)]; norm_num
  have herr := roundHalfEven_err (N * 2 ^ (-(nearestDouble N d).2).toNat)
    (d * 2 ^ (nearestDouble N d).2.toNat) hd2
  rw [hsq, ← hM] at herr
  have hval : doubleValue (nearestDouble N d) - (N : ℚ) / d
      = (((nearestDouble N d).1 : ℚ) - (N : ℚ) / d / (2 : ℚ) ^ (nearestDouble N d).2)
          * (2 : ℚ) ^ (nearestDouble N d).2 := by
    unfold doubleValue
    field_simp
    ring
  have habs : |doubleValue (nearestDouble N d) - (N : ℚ) / d|
      = |((nearestDouble N d).1 : ℚ) - (N : ℚ) / d / (2 : ℚ) ^ (nearestDouble N d).2|
          * (2 : ℚ) ^ (nearestDouble N d).2 := by
    rw [hval, abs_mul, abs_of_pos hpe]
  refine ⟨he, s1, s2, ?_, ?_, ?_, ?_⟩
  · rw [hM]
    apply roundHalfEven_le _ _ _ hd2
    have := (div_lt_iff₀ hd2q).1 (by rw [hsq]; exact hup)
    have h3 : ((N * 2 ^ (-(nearestDouble N d).2).toNat : Nat) : ℚ)
        ≤ ((2 ^ 53 * (d * 2 ^ (nearestDouble N d).2.toNat) : Nat) : ℚ) := by
      push_cast at this ⊢
      linarith
    exact_mod_cast h3
  · intro hnorm
    have he2 : (nearestDouble N d).2 = floorLog2 N d - 52 := by omega
    rw [hM]
    apply roundHalfEven_ge _ _ _ hd2
    have hlow : (2 : ℚ) ^ 52 ≤ (N : ℚ) / d / (2 : ℚ) ^ (nearestDouble N d).2 := by
      rw [le_div_iff₀ hpe]
      calc (2 : ℚ) ^ 52 * (2 : ℚ) ^ (nearestDouble N d).2
          = (2 : ℚ) ^ (52 + (nearestDouble N d).2) := by
            rw [zpow_add₀ (by norm_num)]; norm_num
        _ = (2 : ℚ) ^ floorLog2 N d := by congr 1; omega
        _ ≤ (N : ℚ) / d := s1
    rw [← hsq, le_div_iff₀ hd2q] at hlow
    have h3 : ((2 ^ 52 * (d * 2 ^ (nearestDouble N d).2.toNat) : Nat) : ℚ)
        ≤ ((N * 2 ^ (-(nearestDouble N d).2).toNat : Nat) : ℚ) := by
      push_cast at hlow ⊢
      linarith
    exact_mod_cast h3
  · rw [habs]
    calc |((nearestDouble N d).1 : ℚ) - (N : ℚ) / d / (2 : ℚ) ^ (nearestDouble N d).2|
          * (2 : ℚ) ^ (nearestDouble N d).2
        ≤ 1 / 2 * (2 : ℚ) ^ (nearestDouble N d).2 := mul_le_mul_of_nonneg_right herr hpe.le
      _ = (2 : ℚ) ^ (nearestDouble N d).2 / 2 := by ring
  · intro htie
    rw [habs] at htie
    have h1 : |((nearestDouble N d).1 : ℚ) - (N : ℚ) / d / (2 : ℚ) ^ (nearestDouble N d).2|
        = 1 / 2 := by
      have := mul_right_cancel₀ hpe.ne' (htie.trans (by ring :
        (2 : ℚ) ^ (nearestDouble N d).2 / 2 = 1 / 2 * (2 : ℚ) ^ (nearestDouble N d).2))
      exact this
    rw [hM]
    apply roundHalfEven_tie
    rw [← hsq, hM] at h1
    by_contra hne
    have hlt : |(roundHalfEven (N * 2 ^ (-(nearestDouble N d).2).toNat)
          (d * 2 ^ (nearestDouble N d).2.toNat) : ℚ)
        - ((N * 2 ^ (-(nearestDouble N d).2).toNat : Nat) : ℚ)
          / ((d * 2 ^ (nearestDouble N d).2.toNat : Nat) : ℚ)| < 1 / 2 :=
      roundHalfEven_err_lt _ _ hd2 hne
    linarith

theorem mulDouble_lt_of_truncMul (x : Int) (r : ℚ) (n : Int) (h : truncMul x r < n) :
    mulDouble x r < n := by
  rw [truncMul_eq_truncQ, truncQ] at h
  split_ifs at h
  · exact Int.floor_lt.1 h
  · exact lt_of_le_of_lt (Int.le_ceil _) (by exact_mod_cast h)

theorem double115_eq : double115 = 5179139571476070 / 2 ^ 52 := by
  rw [double115, Rat.mk'_eq_divInt, Rat.divInt_eq_div]
  norm_num

theorem withRates_length (s : List Byte) (a b : Nat) (h : 32 ≤ s.length) :
    (withRates s a b).length = s.length := by
  simp [withRates, write_u32]; omega

theorem withRates_getElem? (s : List Byte) (a b : Nat) (h : 32 ≤ s.length) (i : Nat)
    (hi : i < 24 ∨ 32 ≤ i) : (withRates s a b)[i]? = s[i]? := by
  have e : withRates s a b = s.take 24 ++ (write_u32 a ++ (write_u32 b ++ s.drop 32)) := by
    simp [withRates]
  rw [e]
  rcases hi with hi | hi
  · rw [List.getElem?_append_left (by simp; omega), List.getElem?_take_of_lt hi]
  · rw [List.getElem?_append_right (by simp; omega),
      List.getElem?_append_right (by simp [write_u32]; omega),
      List.getElem?_append_right (by simp [write_u32]; omega), List.getElem?_drop]
    congr 1
    simp [write_u32]
    omega

theorem withRates_peek (s : List Byte) (a b : Nat) (h : 32 ≤ s.length) (i : Nat)
    (hi : i < 24 ∨ 32 ≤ i) : peek (withRates s a b) i = peek s i := by
  simp only [peek, withRates_getElem? s a b h i hi]

theorem u32At_write_u32 (p q : List Byte) (v n : Nat) (hn : n = p.length) :
    u32At (p ++ (write_u32 v ++ q)) n = v % 2 ^ 32 := by
  have e : (p ++ (write_u32 v ++ q)).drop n
      = byteOf v :: byteOf (v / 2 ^ 8) :: byteOf (v / 2 ^ 16) :: byteOf (v / 2 ^ 24) :: q := by
    subst hn
    simp [write_u32]
  obtain ⟨q0, q1, q2, q3⟩ := peeks4 _ n _ _ _ _ _ e
  rw [u32At, q0, q1, q2, q3]
  simp only [byteOf]
  omega

theorem withRates_rates (s : List Byte) (a b : Nat) (h : 32 ≤ s.length) :
    sampleRate (withRates s a b) = a % 2 ^ 32 ∧ byteRate (withRates s a b) = b % 2 ^ 32 := by
  constructor
  · have e : withRates s a b = s.take 24 ++ (write_u32 a ++ (write_u32 b ++ s.drop 32)) := by
      simp [withRates]
    rw [sampleRate, e]
    exact u32At_write_u32 _ _ a 24 (by simp; omega)
  · have e : withRates s a b = (s.take 24 ++ write_u32 a) ++ (write_u32 b ++ s.drop 32) := by
      simp [withRates]
    rw [byteRate, e]
    exact u32At_write_u32 _ _ b 28 (by simp [write_u32]; omega)

theorem withRates_header (s : List Byte) (a b : Nat) (h : 32 ≤ s.length) :
    fileSize (withRates s a b) = fileSize s ∧ dataSize (withRates s a b) = dataSize s ∧
    numChannels (withRates s a b) = numChannels s ∧
    blockAlign (withRates s a b) = blockAlign s ∧
    bitsPerSample (withRates s a b) = bitsPerSample s ∧
    fmtChunkSize (withRates s a b) = fmtChunkSize s ∧
    audioFormat (withRates s a b) = audioFormat s ∧
    ∀ c : Check, c ≠ Check.byteRate → c.fails (withRates s a b) = c.fails s := by
  have hp : ∀ i, i < 24 ∨ 32 ≤ i → peek (withRates s a b) i = peek s i :=
    fun i hi => withRates_peek s a b h i hi
  refine ⟨?_, ?_, ?_, ?_, ?_, ?_, ?_, ?_⟩
  all_goals try (simp (disch := omega) only [fileSize, dataSize, fmtChunkSize,
    audioFormat, numChannels, blockAlign, bitsPerSample, tagAt, u32At, u16At,
    Nat.reduceAdd, hp])
  intro c hc
  cases c <;> first
    | exact absurd rfl hc
    | simp (disch := omega) only [Check.fails, fileSize, dataSize, fmtChunkSize,
        audioFormat, numChannels, blockAlign, bitsPerSample, tagAt, u32At, u16At,
        Nat.reduceAdd, Nat.zero_add, hp]

theorem withRates_drop (s : List Byte) (a b : Nat) (h : 32 ≤ s.length) (n : Nat)
    (hn : 32 ≤ n) : (withRates s a b).drop n = s.drop n := by
  have e : withRates s a b = (s.take 24 ++ write_u32 a ++ write_u32 b) ++ s.drop 32 := rfl
  have hl : (s.take 24 ++ write_u32 a ++ write_u32 b).length = 32 := by
    simp [write_u32]; omega
  rw [e, List.drop_append_eq_append_drop, hl, List.drop_of_length_le (by omega), List.drop_drop]
  simp
  congr 1
  omega

theorem srate_command_withRates (mem : Nat → Byte) (rate : ℚ) (flag0 : Int) (s : List Byte)
    (h : wellFormed s) :
    srate_command mem rate flag0 s =
      ⟨flag0, withRates s (toU32 (truncMul (sampleRate s) rate))
        (toU32 (truncMul (byteRate s) rate)), [], []⟩ :=
  srate_command_wellFormed mem rate flag0 s h

theorem wellFormed_length (s : List Byte) (h : wellFormed s) : 44 + dataSize s ≤ s.length := by
  obtain ⟨_, h1, h2⟩ := h
  omega

/-- C11: for every valid input of exactly `fileSize + 8` bytes with
`fileSize ≥ 36 + dataSize`, the output of `srate_command` and of
`svolume_command` has the same length as the input, and its bytes from offset
`44 + dataSize` on are the trailing bytes of the input, in the same order. -/
theorem transform_preserves_trailing (mem : Nat → Byte) (rate volume : ℚ) (flag0 : Int)
    (s : List Byte) (hv : validHeader s) (hfs : 36 + dataSize s ≤ fileSize s)
    (hlen : s.length = fileSize s + 8) :
    (srate_command mem rate flag0 s).out.length = s.length ∧
    (srate_command mem rate flag0 s).out.drop (44 + dataSize s) = s.drop (44 + dataSize s) ∧
    (svolume_command mem volume flag0 s).out.length = s.length ∧
    (svolume_command mem volume flag0 s).out.drop (44 + dataSize s)
      = s.drop (44 + dataSize s) := by
  have h : wellFormed s := ⟨hv, hfs, hlen⟩
  have h44 := wellFormed_length s h
  rw [srate_command_withRates mem rate flag0 s h, svolume_command_wellFormed mem volume flag0 s h]
  simp only []
  refine ⟨withRates_length s _ _ (by omega), withRates_drop s _ _ (by omega) _ (by omega), ?_, ?_⟩
  · simp [set_Volume_length]; omega
  · have hl : (s.take 44 ++ set_Volume mem ((s.drop 44).take (dataSize s)) (dataSize s)
        (toInt16 (bitsPerSample s)) volume).length = 44 + dataSize s := by
      simp [set_Volume_length]; omega
    rw [List.drop_append_eq_append_drop, hl, List.drop_of_length_le (by omega)]
    simp

/-- The rate command on a well-formed file, with both `double` products in
range: the closed form of the output and the fields it decodes to. -/
theorem srate_command_floor_rates (mem : Nat → Byte) (rate : ℚ) (flag0 : Int)
    (s : List Byte) (hv : validHeader s) (hfs : 36 + dataSize s ≤ fileSize s)
    (hlen : s.length = fileSize s + 8) (hr : 0 ≤ rate)
    (h1 : mulDouble (sampleRate s) rate < 2 ^ 32) (h2 : mulDouble (byteRate s) rate < 2 ^ 32) :
    (srate_command mem rate flag0 s).flag = flag0 ∧
    (srate_command mem rate flag0 s).err = [] ∧
    (srate_command mem rate flag0 s).out
      = s.take 24 ++ write_u32 ⌊mulDouble (sampleRate s) rate⌋₊
          ++ write_u32 ⌊mulDouble (byteRate s) rate⌋₊ ++ s.drop 32 ∧
    (srate_command mem rate flag0 s).out.length = s.length ∧
    (∀ i, i < 24 ∨ 32 ≤ i → (srate_command mem rate flag0 s).out[i]? = s[i]?) ∧
    sampleRate (srate_command mem rate flag0 s).out = ⌊mulDouble (sampleRate s) rate⌋₊ ∧
    byteRate (srate_command mem rate flag0 s).out = ⌊mulDouble (byteRate s) rate⌋₊ ∧
    blockAlign (srate_command mem rate flag0 s).out = blockAlign s ∧
    bitsPerSample (srate_command mem rate flag0 s).out = bitsPerSample s ∧
    dataSize (srate_command mem rate flag0 s).out = dataSize s ∧
    (srate_command mem rate flag0 s).out.drop 44 = s.drop 44 := by
  have h : wellFormed s := ⟨hv, hfs, hlen⟩
  have h44 := wellFormed_length s h
  have h32 : 32 ≤ s.length := by omega
  rw [srate_command_withRates mem rate flag0 s h, toU32_truncMul _ _ hr h1,
    toU32_truncMul _ _ hr h2]
  simp only []
  have hh := withRates_header s ⌊mulDouble (sampleRate s) rate⌋₊
    ⌊mulDouble (byteRate s) rate⌋₊ h32
  have hrt := withRates_rates s ⌊mulDouble (sampleRate s) rate⌋₊
    ⌊mulDouble (byteRate s) rate⌋₊ h32
  have b1 := (floor_mulDouble _ _ hr h1).2.2.2
  have b2 := (floor_mulDouble _ _ hr h2).2.2.2
  refine ⟨trivial, trivial, rfl, withRates_length s _ _ h32,
    fun i hi => withRates_getElem? s _ _ h32 i hi, ?_, ?_, hh.2.2.2.1, hh.2.2.2.2.1, hh.2.1,
    withRates_drop s _ _ h32 44 (by omega)⟩
  · rw [hrt.1, Nat.mod_eq_of_lt b1]
  · rw [hrt.2, Nat.mod_eq_of_lt b2]

/-- C14 (counterexample): the multiplier is the `double` nearest to 1.15, which
is a little less than 1.15.  On the minimal file (`sampleRate = byteRate =
8000`) the exact products are a little less than 9200, so that
`trunc (sampleRate * r) = trunc (byteRate * r) = 9199`; `srate_command` writes
9200 in both fields, the `double` nearest to the product being 9200. -/
theorem srate_command_rounds_product :
    validHeader minimalWav ∧ 36 + dataSize minimalWav ≤ fileSize minimalWav ∧
    minimalWav.length = fileSize minimalWav + 8 ∧
    sampleRate minimalWav = 8000 ∧ byteRate minimalWav = 8000 ∧
    double115 = 5179139571476070 / 2 ^ 52 ∧ |double115 - 115 / 100| < 1 / 2 ^ 53 ∧
    (0 : ℚ) ≤ double115 ∧
    (sampleRate minimalWav : ℚ) * double115 < 2 ^ 32 ∧
    (byteRate minimalWav : ℚ) * double115 < 2 ^ 32 ∧
    ⌊(sampleRate minimalWav : ℚ) * double115⌋₊ = 9199 ∧
    ⌊(byteRate minimalWav : ℚ) * double115⌋₊ = 9199 ∧
    (srate_command zeroMem double115 0 minimalWav).err = [] ∧
    sampleRate (srate_command zeroMem double115 0 minimalWav).out = 9200 ∧
    byteRate (srate_command zeroMem double115 0 minimalWav).out = 9200 ∧
    (srate_command zeroMem double115 0 minimalWav).out
      = minimalWav.take 24 ++ write_u32 9200 ++ write_u32 9200 ++ minimalWav.drop 32 := by
  have hs : sampleRate minimalWav = 8000 := by decide
  have hb : byteRate minimalWav = 8000 := by decide
  have hf : ⌊(8000 : ℚ) * double115⌋₊ = 9199 := by
    rw [double115_eq, Nat.floor_eq_iff (by norm_num)]
    norm_num
  refine ⟨by decide, by decide, by decide, hs, hb, double115_eq, ?_, ?_, ?_, ?_, ?_, ?_,
    by decide, by decide, by decide, by decide⟩
  · rw [double115_eq, abs_lt]; norm_num
  · rw [double115_eq]; norm_num
  · rw [hs, double115_eq]; norm_num
  · rw [hb, double115_eq]; norm_num
  · rw [hs]; exact_mod_cast hf
  · rw [hb]; exact_mod_cast hf

/-- C14 (amended): for every valid input (valid header, `fileSize ≥ 36 +
dataSize`, stream of exactly `fileSize + 8` bytes) and every multiplier
`rate ≥ 0` for which the `double` products `sampleRate * rate` and
`byteRate * rate` (`mulDouble`: the exact product rounded to the nearest
`double`) are below `2^32`, `srate_command` succeeds and its output is the
input with the bytes at offsets 24 .. 27 and 28 .. 31 replaced by the
little-endian encodings of the integer parts of those two `double` products:
it has the length of the input, agrees with it at every offset outside
24 .. 31, decodes to those two values, and has the same `blockAlign`,
`bitsPerSample`, `dataSize`, payload and trailing bytes.  Each value written
lies between the floor and the ceiling of the exact product: it is
`trunc (x * rate)` or one more, and `x * rate` itself when that is an integer. -/
theorem srate_command_changes_rates_only (mem : Nat → Byte) (rate : ℚ) (flag0 : Int)
    (s : List Byte) (hv : validHeader s) (hfs : 36 + dataSize s ≤ fileSize s)
    (hlen : s.length = fileSize s + 8) (hr : 0 ≤ rate)
    (h1 : mulDouble (sampleRate s) rate < 2 ^ 32) (h2 : mulDouble (byteRate s) rate < 2 ^ 32) :
    (srate_command mem rate flag0 s).flag = flag0 ∧
    (srate_command mem rate flag0 s).err = [] ∧
    (srate_command mem rate flag0 s).out
      = s.take 24 ++ write_u32 ⌊mulDouble (sampleRate s) rate⌋₊
          ++ write_u32 ⌊mulDouble (byteRate s) rate⌋₊ ++ s.drop 32 ∧
    (srate_command mem rate flag0 s).out.length = s.length ∧
    (∀ i, i < 24 ∨ 32 ≤ i → (srate_command mem rate flag0 s).out[i]? = s[i]?) ∧
    sampleRate (srate_command mem rate flag0 s).out = ⌊mulDouble (sampleRate s) rate⌋₊ ∧
    byteRate (srate_command mem rate flag0 s).out = ⌊mulDouble (byteRate s) rate⌋₊ ∧
    blockAlign (srate_command mem rate flag0 s).out = blockAlign s ∧
    bitsPerSample (srate_command mem rate flag0 s).out = bitsPerSample s ∧
    dataSize (srate_command mem rate flag0 s).out = dataSize s ∧
    (srate_command mem rate flag0 s).out.drop 44 = s.drop 44 ∧
    ⌊(sampleRate s : ℚ) * rate⌋₊ ≤ ⌊mulDouble (sampleRate s) rate⌋₊ ∧
    ⌊mulDouble (sampleRate s) rate⌋₊ ≤ ⌈(sampleRate s : ℚ) * rate⌉₊ ∧
    ⌊(byteRate s : ℚ) * rate⌋₊ ≤ ⌊mulDouble (byteRate s) rate⌋₊ ∧
    ⌊mulDouble (byteRate s) rate⌋₊ ≤ ⌈(byteRate s : ℚ) * rate⌉₊ := by
  have h : wellFormed s := ⟨hv, hfs, hlen⟩
  have h44 := wellFormed_length s h
  have h32 : 32 ≤ s.length := by omega
  rw [srate_command_withRates mem rate flag0 s h, toU32_truncMul _ _ hr h1,
    toU32_truncMul _ _ hr h2]
  simp only []
  have hh := withRates_header s ⌊mulDouble (sampleRate s) rate⌋₊
    ⌊mulDouble (byteRate s) rate⌋₊ h32
  have hrt := withRates_rates s ⌊mulDouble (sampleRate s) rate⌋₊
    ⌊mulDouble (byteRate s) rate⌋₊ h32
  have f1 := floor_mulDouble _ _ hr h1
  have f2 := floor_mulDouble _ _ hr h2
  refine ⟨trivial, trivial, rfl, withRates_length s _ _ h32,
    fun i hi => withRates_getElem? s _ _ h32 i hi, ?_, ?_, hh.2.2.2.1, hh.2.2.2.2.1, hh.2.1,
    withRates_drop s _ _ h32 44 (by omega), f1.2.1, f1.2.2.1, f2.2.1, f2.2.2.1⟩
  · rw [hrt.1, Nat.mod_eq_of_lt f1.2.2.2]
  · rw [hrt.2, Nat.mod_eq_of_lt f2.2.2.2]

theorem transform_preserves_trailing_witness :
    validHeader declaredTrailerWav ∧
    36 + dataSize declaredTrailerWav ≤ fileSize declaredTrailerWav ∧
    declaredTrailerWav.length = fileSize declaredTrailerWav + 8 ∧
    declaredTrailerWav.drop (44 + dataSize declaredTrailerWav) = [5] ∧
    (srate_command zeroMem 2 0 declaredTrailerWav).out.length = declaredTrailerWav.length ∧
    (srate_command zeroMem 2 0 declaredTrailerWav).out.drop (44 + dataSize declaredTrailerWav)
      = declaredTrailerWav.drop (44 + dataSize declaredTrailerWav) ∧
    (svolume_command zeroMem 2 0 declaredTrailerWav).out.drop
        (44 + dataSize declaredTrailerWav)
      = declaredTrailerWav.drop (44 + dataSize declaredTrailerWav) :=
  ⟨by decide, by decide, by decide, by decide,
   (transform_preserves_trailing zeroMem 2 2 0 declaredTrailerWav (by decide) (by decide)
     (by decide)).1,
   (transform_preserves_trailing zeroMem 2 2 0 declaredTrailerWav (by decide) (by decide)
     (by decide)).2.1,
   (transform_preserves_trailing zeroMem 2 2 0 declaredTrailerWav (by decide) (by decide)
     (by decide)).2.2.2⟩

theorem srate_command_changes_rates_only_witness :
    validHeader minimalWav ∧ sampleRate minimalWav = 8000 ∧ byteRate minimalWav = 8000 ∧
    (0 : ℚ) ≤ double115 ∧ mulDouble (sampleRate minimalWav) double115 < 2 ^ 32 ∧
    (srate_command zeroMem double115 0 minimalWav).out
      = minimalWav.take 24 ++ write_u32 ⌊mulDouble (sampleRate minimalWav) double115⌋₊
          ++ write_u32 ⌊mulDouble (byteRate minimalWav) double115⌋₊ ++ minimalWav.drop 32 ∧
    sampleRate (srate_command zeroMem double115 0 minimalWav).out
      = ⌊mulDouble (sampleRate minimalWav) double115⌋₊ ∧
    ⌊mulDouble (sampleRate minimalWav) double115⌋₊ ≤ ⌈(sampleRate minimalWav : ℚ) * double115⌉₊ :=
  have hs : sampleRate minimalWav = 8000 := by decide
  have hb : byteRate minimalWav = 8000 := by decide
  have h0 : (0 : ℚ) ≤ double115 := by rw [double115_eq]; norm_num
  have h1 : mulDouble (sampleRate minimalWav) double115 < 2 ^ 32 := by
    have := mulDouble_lt_of_truncMul (sampleRate minimalWav) double115 (2 ^ 32) (by decide)
    exact_mod_cast this
  have h2 : mulDouble (byteRate minimalWav) double115 < 2 ^ 32 := by
    have := mulDouble_lt_of_truncMul (byteRate minimalWav) double115 (2 ^ 32) (by decide)
    exact_mod_cast this
  ⟨by decide, hs, hb, h0, h1,
   (srate_command_changes_rates_only zeroMem double115 0 minimalWav (by decide) (by decide)
     (by decide) h0 h1 h2).2.2.1,
   (srate_command_changes_rates_only zeroMem double115 0 minimalWav (by decide) (by decide)
     (by decide) h0 h1 h2).2.2.2.2.2.1,
   (srate_command_changes_rates_only zeroMem double115 0 minimalWav (by decide) (by decide)
     (by decide) h0 h1 h2).2.2.2.2.2.2.2.2.2.2.2.2.1⟩

/-! ## The rate command and its inverse -/

theorem threeHalves_eq : (3 / 2 : ℚ) = ⟨3, 2, by decide, by decide⟩ := by
  apply Rat.ext
  · simpa using Rat.num_div_eq_of_coprime (a := (3 : ℤ)) (b := (2 : ℤ)) (by norm_num) (by decide)
  · have h := Rat.den_div_eq_of_coprime (a := (3 : ℤ)) (b := (2 : ℤ)) (by norm_num) (by decide)
    have h2 : (((3 / 2 : ℚ).den : ℕ) : ℤ) = 2 := by simpa using h
    exact_mod_cast h2
theorem withRates_validHeader (s : List Byte) (a b : Nat) (h : 32 ≤ s.length)
    (hv : validHeader s) (ha : a < 2 ^ 32) (hb : b < 2 ^ 32) :
    (b = (a * blockAlign s) % 2 ^ 32 → validHeader (withRates s a b)) ∧
    (b ≠ (a * blockAlign s) % 2 ^ 32 → firstFailing (withRates s a b) = some Check.byteRate) := by
  have hh := withRates_header s a b h
  have hr := withRates_rates s a b h
  rw [Nat.mod_eq_of_lt ha, Nat.mod_eq_of_lt hb] at hr
  have hs := (validHeader_iff s).1 hv
  have hf : ∀ c : Check, c ≠ Check.byteRate → c.fails (withRates s a b) = false := by
    intro c hc
    rw [hh.2.2.2.2.2.2.2 c hc]
    exact hs c
  have hbr : Check.byteRate.fails (withRates s a b)
      = decide (b ≠ (a * blockAlign s) % 2 ^ 32) := by
    simp only [Check.fails, hr.1, hr.2, hh.2.2.2.1]
  constructor
  · intro hm
    rw [validHeader_iff]
    intro c
    by_cases hc : c = Check.byteRate
    · subst hc
      rw [hbr]
      exact decide_eq_false (not_not.2 hm)
    · exact hf c hc
  · intro hm
    have hbt : Check.byteRate.fails (withRates s a b) = true := by
      rw [hbr]; exact decide_eq_true hm
    simp [firstFailing, Check.order, List.find?, hf Check.riff, hf Check.wave, hf Check.fmt,
      hf Check.fmtSize, hf Check.audioFormat, hf Check.channels, hbt]

theorem peek_cons (a : Byte) (l : List Byte) (n : Nat) :
    peek (a :: l) n = if n = 0 then (a.val : Int) else peek l (n - 1) := by
  cases n with
  | zero => simp [peek]
  | succ k => simp [peek]

theorem mkHeader_fields (fs ch sr br ba bits ds : Nat) (p : List Byte) :
    tagAt (mkHeader fs ch sr br ba bits ds ++ p) 0 = tagRIFF ∧
    fileSize (mkHeader fs ch sr br ba bits ds ++ p) = fs % 2 ^ 32 ∧
    tagAt (mkHeader fs ch sr br ba bits ds ++ p) 8 = tagWAVE ∧
    tagAt (mkHeader fs ch sr br ba bits ds ++ p) 12 = tagFMT ∧
    fmtChunkSize (mkHeader fs ch sr br ba bits ds ++ p) = 16 ∧
    audioFormat (mkHeader fs ch sr br ba bits ds ++ p) = 1 ∧
    numChannels (mkHeader fs ch sr br ba bits ds ++ p) = ch % 2 ^ 16 ∧
    sampleRate (mkHeader fs ch sr br ba bits ds ++ p) = sr % 2 ^ 32 ∧
    byteRate (mkHeader fs ch sr br ba bits ds ++ p) = br % 2 ^ 32 ∧
    blockAlign (mkHeader fs ch sr br ba bits ds ++ p) = ba % 2 ^ 16 ∧
    bitsPerSample (mkHeader fs ch sr br ba bits ds ++ p) = bits % 2 ^ 16 ∧
    tagAt (mkHeader fs ch sr br ba bits ds ++ p) 36 = tagDATA ∧
    dataSize (mkHeader fs ch sr br ba bits ds ++ p) = ds % 2 ^ 32 := by
  simp only [mkHeader, tagRIFF, tagWAVE, tagFMT, tagDATA, write_u32, write_u16, List.cons_append,
    List.nil_append, List.append_assoc, tagAt, fileSize, fmtChunkSize, audioFormat, numChannels,
    sampleRate, byteRate, blockAlign, bitsPerSample, dataSize, u32At, u16At, peek_cons,
    Nat.reduceAdd, Nat.reduceSub, Nat.reduceEqDiff, OfNat.ofNat_ne_zero, if_true, if_false,
    byteOf]
  refine ⟨by decide, ?_, by decide, by decide, ?_, ?_, ?_, ?_, ?_, ?_, ?_, by decide, ?_⟩
  all_goals omega

theorem read_Channel_8bit_loop_length (mem : Nat → Byte) (data : List Byte) (size fuel i : Nat)
    (buffer : List Byte) :
    (read_Channel_8bit_loop mem data size fuel i buffer).length = buffer.length := by
  induction fuel generalizing i buffer with
  | zero => simp [read_Channel_8bit_loop]
  | succ n ih =>
    unfold read_Channel_8bit_loop
    split_ifs
    · rw [ih]; simp
    · rfl

theorem read_Channel_16bit_loop_length (mem : Nat → Byte) (data : List Byte) (size fuel i : Nat)
    (buffer : List Byte) :
    (read_Channel_16bit_loop mem data size fuel i buffer).length = buffer.length := by
  induction fuel generalizing i buffer with
  | zero => simp [read_Channel_16bit_loop]
  | succ n ih =>
    unfold read_Channel_16bit_loop
    split_ifs
    · rw [ih]; simp
    · rfl

theorem channelData_length (mem : Nat → Byte) (channel : Int) (s : List Byte) :
    (channelData mem channel s).length = dataSize s / 2 := by
  unfold channelData read_Channel_8bit read_Channel_16bit
  split_ifs <;>
    simp only [read_Channel_8bit_loop_length, read_Channel_16bit_loop_length, fresh_length]

theorem validHeader_tags (s : List Byte) (h : validHeader s) :
    tagAt s 0 = tagRIFF ∧ tagAt s 8 = tagWAVE ∧ tagAt s 12 = tagFMT ∧ tagAt s 36 = tagDATA ∧
    fmtChunkSize s = 16 ∧ audioFormat s = 1 ∧ (numChannels s = 1 ∨ numChannels s = 2) ∧
    (bitsPerSample s = 8 ∨ bitsPerSample s = 16) ∧
    blockAlign s = bitsPerSample s / 8 * numChannels s := by
  have hs := (validHeader_iff s).1 h
  have h1 := hs Check.riff
  have h2 := hs Check.wave
  have h3 := hs Check.fmt
  have h4 := hs Check.dataTag
  have h5 := hs Check.fmtSize
  have h6 := hs Check.audioFormat
  have h7 := hs Check.channels
  have h8 := hs Check.bits
  have h9 := hs Check.blockAlign
  simp only [Check.fails, decide_eq_false_iff_not, ne_eq, not_not] at h1 h2 h3 h4 h5 h6
  simp only [Check.fails, decide_eq_false_iff_not, ne_eq, not_not, not_and] at h7 h8 h9
  exact ⟨h1, h2, h3, h4, h5, h6, by omega, by omega, h9⟩

theorem schannel_command_accepted (mem : Nat → Byte) (channel flag0 : Int) (s : List Byte)
    (hacc : (schannel_command mem channel flag0 s).err = []) :
    validHeader s ∧ dataSize s ≤ s.length - 44 ∧
    schannel_command mem channel flag0 s =
      ⟨flag0,
       mkHeader (36 + dataSize s / 2) 1 (sampleRate s) (byteRate s / 2) (blockAlign s / 2)
         (bitsPerSample s) (dataSize s / 2) ++ channelData mem channel s, [], []⟩ := by
  rw [schannel_command_eq] at hacc ⊢
  cases hff : firstFailing s with
  | some c => rw [hff] at hacc; simp [headerFailure] at hacc
  | none =>
    rw [hff] at hacc
    simp only [] at hacc ⊢
    have hv : validHeader s := hff
    obtain ⟨t0, t8, t12, t36, hfc, haf, _, _, _⟩ := validHeader_tags s hv
    have hd := u32At_lt s 40
    have hd' : dataSize s < 2 ^ 32 := hd
    by_cases hshort : (s.drop 44).length < dataSize s
    · exfalso
      have hshort' : s.length - 44 < dataSize s := by simpa using hshort
      simp [schannel_tail, read_DataSegment_eof, hshort'] at hacc
    · have hl : dataSize s ≤ (s.drop 44).length := not_lt.1 hshort
      have e1 : read_DataSegment (dataSize s) (s.drop 44)
          = ((s.drop 44).take (dataSize s), false, s.drop (44 + dataSize s)) := by
        rw [read_DataSegment_complete (dataSize s) (s.drop 44) hl, List.drop_drop, Nat.add_comm]
      have hl' : dataSize s ≤ s.length - 44 := by simpa using hl
      refine ⟨hv, hl', ?_⟩
      by_cases hlast : (getchar (get_OtherData (fileSize s) (dataSize s)
          (s.drop (44 + dataSize s))).2).1 = EOF
      · have hnil := (getchar_fst_eq_EOF _).1 hlast
        have hmod : (SIZE_OF_WAVE_HEADER + dataSize s / 2) % 2 ^ 32 = 36 + dataSize s / 2 := by
          rw [SIZE_OF_WAVE_HEADER]; omega
        have hsub : sub32 (36 + dataSize s / 2) (36 + dataSize s / 2) = 0 := by
          unfold sub32; omega
        have hw : ∀ t : List Byte, t.length = 4 → swrite_ch mem t 4 = t := by
          intro t ht
          rw [swrite_ch_take mem t 4 (by omega), ← ht]; simp
        have hcd : swrite_ch mem (channelData mem channel s) (dataSize s / 2)
            = channelData mem channel s := by
          rw [swrite_ch_take _ _ _ (by rw [channelData_length]),
            ← channelData_length mem channel s]
          simp
        have hbits := write_d16_toInt16 (bitsPerSample s) (u16At_lt s 34)
        simp only [schannel_tail, e1, hlast, hnil, hmod, hsub, t0, t8, t12, t36, hfc, haf,
          hw tagRIFF rfl, hw tagWAVE rfl, hw tagFMT rfl, hw tagDATA rfl, hbits]
        simp only [channelData] at hcd
        rw [hcd]
        simp [getchar, EOF, swrite_ch, mkHeader, channelData]
      · exfalso
        simp [schannel_tail, e1, hlast] at hacc

theorem mkHeader_length (fs ch sr br ba bits ds : Nat) :
    (mkHeader fs ch sr br ba bits ds).length = 44 := by
  simp [mkHeader, tagRIFF, tagWAVE, tagFMT, tagDATA, write_u32, write_u16]

/-- C17: for every input accepted by `schannel_command` (it returns without a
diagnostic), the output is a 44-byte header followed by exactly
`dataSize / 2` payload bytes, and the header decodes to `numChannels = 1`,
`byteRate / 2`, `blockAlign / 2`, `dataSize / 2` (all rounded down),
`fileSize = 36 + dataSize / 2`, and the `sampleRate` and `bitsPerSample` of the
input. -/
theorem schannel_command_header (mem : Nat → Byte) (channel flag0 : Int) (s : List Byte)
    (hacc : (schannel_command mem channel flag0 s).err = []) :
    numChannels (schannel_command mem channel flag0 s).out = 1 ∧
    byteRate (schannel_command mem channel flag0 s).out = byteRate s / 2 ∧
    blockAlign (schannel_command mem channel flag0 s).out = blockAlign s / 2 ∧
    dataSize (schannel_command mem channel flag0 s).out = dataSize s / 2 ∧
    fileSize (schannel_command mem channel flag0 s).out = 36 + dataSize s / 2 ∧
    sampleRate (schannel_command mem channel flag0 s).out = sampleRate s ∧
    bitsPerSample (schannel_command mem channel flag0 s).out = bitsPerSample s ∧
    (schannel_command mem channel flag0 s).out.length = 44 + dataSize s / 2 ∧
    ((schannel_command mem channel flag0 s).out.drop 44).length = dataSize s / 2 := by
  obtain ⟨_, _, e⟩ := schannel_command_accepted mem channel flag0 s hacc
  rw [e]
  simp only []
  obtain ⟨_, f1, _, _, _, _, f2, f3, f4, f5, f6, _, f7⟩ :=
    mkHeader_fields (36 + dataSize s / 2) 1 (sampleRate s) (byteRate s / 2) (blockAlign s / 2)
      (bitsPerSample s) (dataSize s / 2) (channelData mem channel s)
  have b1 : sampleRate s < 2 ^ 32 := u32At_lt s 24
  have b2 : byteRate s < 2 ^ 32 := u32At_lt s 28
  have b3 : blockAlign s < 2 ^ 16 := u16At_lt s 32
  have b4 : bitsPerSample s < 2 ^ 16 := u16At_lt s 34
  have b5 : dataSize s < 2 ^ 32 := u32At_lt s 40
  rw [f1, f2, f3, f4, f5, f6, f7]
  refine ⟨by omega, by omega, by omega, by omega, by omega, by omega, by omega, ?_, ?_⟩
  · rw [List.length_append, mkHeader_length, channelData_length]
  · rw [List.length_drop, List.length_append, mkHeader_length, channelData_length]
    omega

theorem schannel_command_header_witness :
    (schannel_command zeroMem 0 0 stereo16Wav).err = [] ∧
    numChannels (schannel_command zeroMem 0 0 stereo16Wav).out = 1 ∧
    byteRate (schannel_command zeroMem 0 0 stereo16Wav).out = byteRate stereo16Wav / 2 ∧
    (schannel_command zeroMem 0 0 stereo16Wav).out.length = 44 + dataSize stereo16Wav / 2 :=
  ⟨by decide,
   (schannel_command_header zeroMem 0 0 stereo16Wav (by decide)).1,
   (schannel_command_header zeroMem 0 0 stereo16Wav (by decide)).2.1,
   (schannel_command_header zeroMem 0 0 stereo16Wav (by decide)).2.2.2.2.2.2.2.1⟩

/-! ## Sample transforms: loop invariants, mono extraction, 16-bit volume -/

theorem read_Channel_8bit_loop_getElem? (mem : Nat → Byte) (data : List Byte) (size : Nat)
    (fuel i : Nat) (buffer : List Byte) (j : Nat) :
    (read_Channel_8bit_loop mem data size fuel i buffer)[j]? =
      if i ≤ j ∧ (j - i) % 2 = 0 ∧ j < i + 2 * fuel ∧ j < size ∧ j < buffer.length then
        some (rd mem data j)
      else buffer[j]? := by
  induction fuel generalizing i buffer with
  | zero =>
    have : ¬(i ≤ j ∧ (j - i) % 2 = 0 ∧ j < i + 2 * 0 ∧ j < size ∧ j < buffer.length) := by omega
    simp only [read_Channel_8bit_loop, if_neg this]
  | succ n ih =>
    unfold read_Channel_8bit_loop
    by_cases hi : i < size
    · rw [if_pos hi, ih, List.length_set, List.getElem?_set]
      by_cases hij : i = j
      · subst hij
        by_cases hl : i < buffer.length
        · rw [if_neg (by omega), if_pos rfl, if_pos hl, if_pos (by omega)]
        · rw [if_neg (by omega), if_pos rfl, if_neg hl, if_neg (by omega)]
          rw [List.getElem?_eq_none (by omega)]
      · rw [if_neg hij]
        by_cases hc : i ≤ j ∧ (j - i) % 2 = 0 ∧ j < i + 2 * (n + 1) ∧ j < size ∧ j < buffer.length
        · rw [if_pos hc, if_pos (by omega)]
        · rw [if_neg hc, if_neg (by omega)]
    · rw [if_neg hi, if_neg (by omega)]

theorem read_Channel_16bit_loop_getElem? (mem : Nat → Byte) (data : List Byte) (size : Nat)
    (fuel i : Nat) (buffer : List Byte) (hlen : buffer.length = size) (j : Nat) :
    (read_Channel_16bit_loop mem data size fuel i buffer)[j]? =
      if i ≤ j ∧ j < i + 2 * fuel ∧ j < size then some (rd mem data j) else buffer[j]? := by
  induction fuel generalizing i buffer with
  | zero =>
    have : ¬(i ≤ j ∧ j < i + 2 * 0 ∧ j < size) := by omega
    simp only [read_Channel_16bit_loop, if_neg this]
  | succ n ih =>
    unfold read_Channel_16bit_loop
    by_cases hi : i < size
    · rw [if_pos hi, ih _ _ (by simp [hlen]), List.getElem?_set, List.getElem?_set]
      simp only [List.length_set, hlen]
      by_cases hc : i ≤ j ∧ j < i + 2 * (n + 1) ∧ j < size
      · rw [if_pos hc]
        by_cases h2 : i + 2 ≤ j
        · rw [if_pos (by omega)]
        · rw [if_neg (by omega)]
          by_cases h1 : i + 1 = j
          · rw [if_pos h1, if_pos (by omega), h1]
          · rw [if_neg h1, if_pos (by omega), if_pos (by omega)]
            have : i = j := by omega
            rw [this]
      · rw [if_neg hc, if_neg (by omega)]
        by_cases h1 : i + 1 = j
        · rw [if_pos h1, if_neg (by omega), List.getElem?_eq_none (by omega)]
        · rw [if_neg h1, if_neg (by omega)]
    · rw [if_neg hi, if_neg (by omega)]

theorem set_Volume8bit_loop_getElem? (mem : Nat → Byte) (data : List Byte) (size : Nat)
    (volume : ℚ) (fuel i : Nat) (buffer : List Byte) (j : Nat) :
    (set_Volume8bit_loop mem data size volume fuel i buffer)[j]? =
      if i ≤ j ∧ j < i + fuel ∧ j < size ∧ j < buffer.length then
        some (vol8 volume (rd mem data j))
      else buffer[j]? := by
  induction fuel generalizing i buffer with
  | zero =>
    have : ¬(i ≤ j ∧ j < i + 0 ∧ j < size ∧ j < buffer.length) := by omega
    simp only [set_Volume8bit_loop, if_neg this]
  | succ n ih =>
    unfold set_Volume8bit_loop
    by_cases hi : i < size
    · rw [if_pos hi]
      simp only []
      rw [ih, List.length_set, List.getElem?_set]
      by_cases hij : i = j
      · subst hij
        by_cases hl : i < buffer.length
        · rw [if_neg (by omega), if_pos rfl, if_pos hl, if_pos (by omega)]
          rfl
        · rw [if_neg (by omega), if_pos rfl, if_neg hl, if_neg (by omega)]
          rw [List.getElem?_eq_none (by omega)]
      · rw [if_neg hij]
        by_cases hc : i ≤ j ∧ j < i + (n + 1) ∧ j < size ∧ j < buffer.length
        · rw [if_pos hc, if_pos (by omega)]
        · rw [if_neg hc, if_neg (by omega)]
    · rw [if_neg hi, if_neg (by omega)]

theorem set_Volume16bit_loop_getElem? (mem : Nat → Byte) (data : List Byte) (size : Nat)
    (volume : ℚ) (fuel i : Nat) (buffer : List Byte) (hlen : buffer.length = size) (j : Nat) :
    (set_Volume16bit_loop mem data size volume fuel i buffer)[j]? =
      if i ≤ j ∧ j < i + 2 * fuel ∧ j < size then
        some (if (j - i) % 2 = 0 then
            toChar (vol16 volume (rd mem data j) (rd mem data (j + 1)) % 256)
          else toChar (vol16 volume (rd mem data (j - 1)) (rd mem data j) / 256 % 256))
      else buffer[j]? := by
  induction fuel generalizing i buffer with
  | zero =>
    have : ¬(i ≤ j ∧ j < i + 2 * 0 ∧ j < size) := by omega
    simp only [set_Volume16bit_loop, if_neg this]
  | succ n ih =>
    unfold set_Volume16bit_loop
    by_cases hi : i < size
    · rw [if_pos hi]
      simp only []
      rw [ih _ _ (by simp [hlen]), List.getElem?_set, List.getElem?_set]
      simp only [List.length_set, hlen]
      by_cases hc : i ≤ j ∧ j < i + 2 * (n + 1) ∧ j < size
      · rw [if_pos hc]
        by_cases h2 : i + 2 ≤ j
        · rw [if_pos (by omega)]
          have hpar : ((j - (i + 2)) % 2 = 0) ↔ ((j - i) % 2 = 0) := by omega
          simp only [hpar]
        · rw [if_neg (by omega)]
          by_cases h1 : i + 1 = j
          · rw [if_pos h1, if_pos (by omega), if_neg (by omega)]
            subst h1
            simp [vol16]
          · rw [if_neg h1, if_pos (by omega), if_pos (by omega)]
            have : i = j := by omega
            subst this
            simp [vol16]
      · rw [if_neg hc, if_neg (by omega)]
        by_cases h1 : i + 1 = j
        · rw [if_pos h1, if_neg (by omega), List.getElem?_eq_none (by omega)]
        · rw [if_neg h1, if_neg (by omega)]
    · rw [if_neg hi, if_neg (by omega)]

theorem fresh_getElem? (mem : Nat → Byte) (n j : Nat) (h : j < n) :
    (fresh mem n)[j]? = some (mem j) := by
  simp [fresh, List.getElem?_map, List.getElem?_range h]

theorem rd_getElem? (mem : Nat → Byte) (data : List Byte) (i : Nat) (h : i < data.length) :
    some (rd mem data i) = data[i]? := by
  rw [rd, List.getD_eq_getElem _ _ h, List.getElem?_eq_getElem h]

/-- C18 (counterexample): on the mono 16-bit payload 1 2 3 4 the output
payload is 1 2 whatever the fresh buffer held (0 or 7): the byte at the odd
index 1 has been written by the extraction, with the input byte 2. -/
theorem mono16Wav_odd_byte_written :
    validHeader mono16Wav ∧ numChannels mono16Wav = 1 ∧ bitsPerSample mono16Wav = 16 ∧
    (schannel_command zeroMem 0 0 mono16Wav).err = [] ∧
    (schannel_command zeroMem 0 0 mono16Wav).out.drop 44 = [1, 2] ∧
    (schannel_command sevenMem 0 0 mono16Wav).out.drop 44 = [1, 2] ∧
    (schannel_command sevenMem 1 0 mono16Wav).out.drop 44 = [1, 2] := by
  decide

/-- C18 (amended): for every mono input accepted by `schannel_command`, of
either bit width, the output is the same for every selector, the output
payload has `dataSize / 2` bytes (rounded down) and its byte `i` equals input
payload byte `i` for every even `i`.  For 8-bit input no odd-indexed byte is
written: it holds what the fresh buffer held.  For 16-bit input the
odd-indexed bytes are written too: every output payload byte equals the input
payload byte at the same index. -/
theorem schannel_command_mono (mem : Nat → Byte) (channel flag0 : Int) (s : List Byte)
    (hmono : numChannels s = 1)
    (hacc : (schannel_command mem channel flag0 s).err = []) :
    (∀ c : Int, schannel_command mem c flag0 s = schannel_command mem channel flag0 s) ∧
    ((schannel_command mem channel flag0 s).out.drop 44).length = dataSize s / 2 ∧
    (∀ i, i < dataSize s / 2 → i % 2 = 0 →
      ((schannel_command mem channel flag0 s).out.drop 44)[i]? = (s.drop 44)[i]?) ∧
    (bitsPerSample s = 8 → ∀ i, i < dataSize s / 2 → i % 2 = 1 →
      ((schannel_command mem channel flag0 s).out.drop 44)[i]? = some (mem i)) ∧
    (bitsPerSample s = 16 → ∀ i, i < dataSize s / 2 →
      ((schannel_command mem channel flag0 s).out.drop 44)[i]? = (s.drop 44)[i]?) := by
  obtain ⟨hv, hl, e⟩ := schannel_command_accepted mem channel flag0 s hacc
  obtain ⟨_, _, _, _, _, _, _, hbits, _⟩ := validHeader_tags s hv
  have hsel : ∀ c : Int, schannel_command mem c flag0 s = schannel_command mem channel flag0 s := by
    intro c
    rw [schannel_command_eq, schannel_command_eq]
    simp only [schannel_tail, hmono, if_true]
  have hdrop : (schannel_command mem channel flag0 s).out.drop 44 = channelData mem channel s := by
    rw [e]
    simp only []
    rw [List.drop_append_eq_append_drop, mkHeader_length, List.drop_of_length_le (by
      rw [mkHeader_length])]
    simp
  have hdl : ((s.drop 44).take (dataSize s)).length = dataSize s := by
    simp only [List.length_take, List.length_drop]; omega
  have hdata : ∀ i, i < dataSize s →
      some (rd mem ((s.drop 44).take (dataSize s)) i) = (s.drop 44)[i]? := by
    intro i hi
    rw [rd_getElem? _ _ _ (by omega), List.getElem?_take_of_lt hi]
  have h8 : bitsPerSample s = 8 → ∀ i, i < dataSize s / 2 →
      (channelData mem channel s)[i]?
        = if i % 2 = 0 then (s.drop 44)[i]? else some (mem i) := by
    intro hb i hi
    simp only [channelData, hb, hmono, if_true, read_Channel_8bit]
    rw [read_Channel_8bit_loop_getElem?, fresh_length]
    by_cases hpar : i % 2 = 0
    · rw [if_pos ⟨by omega, by simpa using hpar, by omega, hi, hi⟩, if_pos hpar]
      exact hdata i (by omega)
    · rw [if_neg (by simp only [Nat.sub_zero]; omega), if_neg hpar]
      exact fresh_getElem? mem _ i hi
  have h16 : bitsPerSample s = 16 → ∀ i, i < dataSize s / 2 →
      (channelData mem channel s)[i]? = (s.drop 44)[i]? := by
    intro hb i hi
    have hb8 : ¬bitsPerSample s = 8 := by omega
    simp only [channelData, hb8, hmono, if_true, if_false, read_Channel_16bit]
    rw [read_Channel_16bit_loop_getElem? _ _ _ _ _ _ (fresh_length _ _),
      if_pos ⟨by omega, by omega, hi⟩]
    exact hdata i (by omega)
  rw [hdrop]
  refine ⟨hsel, channelData_length mem channel s, ?_, ?_, h16⟩
  · intro i hi hpar
    rcases hbits with hb | hb
    · rw [h8 hb i hi, if_pos hpar]
    · exact h16 hb i hi
  · intro hb i hi hpar
    rw [h8 hb i hi, if_neg (by omega)]

theorem schannel_command_mono_witness :
    numChannels mono16Wav = 1 ∧ (schannel_command zeroMem 1 0 mono16Wav).err = [] ∧
    bitsPerSample mono16Wav = 16 ∧ 1 < dataSize mono16Wav / 2 ∧
    ((schannel_command zeroMem 1 0 mono16Wav).out.drop 44)[1]? = (mono16Wav.drop 44)[1]? :=
  ⟨by decide, by decide, by decide, by decide,
   (schannel_command_mono zeroMem 1 0 mono16Wav (by decide) (by decide)).2.2.2.2 (by decide) 1
     (by decide)⟩

/-! ## Volume: overflow and the zero multiplier; the report of info -/

/-- C21 (the code at the failing input): the sample 1 with the multiplier
`2^31` has the product `2^31`, above 32767, yet `set_Volume16bit` writes the
bytes 0, 128, the sample -32768, and so does `svolume_command`; with the
multiplier `2^31 - 1` the product is inside the `int32_t` range and the sample
written is 32767. -/
theorem set_Volume16bit_overflow_wraps :
    sample16 [1, 0] 0 = 1 ∧
    set_Volume16bit zeroMem [1, 0] 2 2147483648 = [0, 128] ∧
    sample16 (set_Volume16bit zeroMem [1, 0] 2 2147483648) 0 = -32768 ∧
    sample16 (set_Volume16bit zeroMem [1, 0] 2 2147483647) 0 = 32767 ∧
    validHeader unitSampleWav ∧ bitsPerSample unitSampleWav = 16 ∧
    (svolume_command zeroMem 2147483648 0 unitSampleWav).err = [] ∧
    (svolume_command zeroMem 2147483648 0 unitSampleWav).out.drop 44 = [0, 128] := by
  decide

theorem truncMul_zero (x : Int) : truncMul x 0 = 0 := by
  have : x * (0 : ℚ).num = 0 := by simp
  unfold truncMul
  rw [this]
  decide

theorem vol8_zero (b : Byte) : vol8 0 b = 0 := by
  rw [vol8, truncMul_zero]
  decide

theorem vol16_zero (lo hi : Byte) : vol16 0 lo hi = 0 := by
  rw [vol16, truncMul_zero]
  decide

/-- C22: with the multiplier 0, `set_Volume` applied to a payload of any
length for `bits_pet_sample = 8`, and of even length for the 16-bit transform,
returns a buffer of the same length in which every byte is 0. -/
theorem set_Volume_zero (mem : Nat → Byte) (data : List Byte) (bits : Int) :
    bits = 8 ∨ data.length % 2 = 0 →
    (set_Volume mem data data.length bits 0).length = data.length ∧
    set_Volume mem data data.length bits 0 = List.replicate data.length 0 ∧
    ∀ b ∈ set_Volume mem data data.length bits 0, b = 0 := by
  intro _
  have key : set_Volume mem data data.length bits 0 = List.replicate data.length 0 := by
    apply List.ext_getElem?
    intro j
    unfold set_Volume
    by_cases hb : bits = 8
    · rw [if_pos hb, set_Volume8bit, set_Volume8bit_loop_getElem?, fresh_length]
      by_cases hj : j < data.length
      · rw [if_pos ⟨by omega, by omega, hj, hj⟩, vol8_zero, List.getElem?_replicate, if_pos hj]
      · rw [if_neg (by omega), List.getElem?_eq_none (by rw [fresh_length]; omega),
          List.getElem?_eq_none (by rw [List.length_replicate]; omega)]
    · rw [if_neg hb, set_Volume16bit,
        set_Volume16bit_loop_getElem? _ _ _ _ _ _ _ (fresh_length _ _)]
      by_cases hj : j < data.length
      · rw [if_pos ⟨by omega, by omega, hj⟩, vol16_zero, vol16_zero, List.getElem?_replicate,
          if_pos hj]
        simp [toChar]
      · rw [if_neg (by omega), List.getElem?_eq_none (by rw [fresh_length]; omega),
          List.getElem?_eq_none (by rw [List.length_replicate]; omega)]
  refine ⟨by rw [key, List.length_replicate], key, ?_⟩
  intro b hb
  rw [key] at hb
  exact List.eq_of_mem_replicate hb

theorem set_Volume_zero_witness :
    set_Volume sevenMem [200, 1, 3] [(200 : Byte), 1, 3].length 8 0
        = List.replicate [(200 : Byte), 1, 3].length 0 ∧
    set_Volume sevenMem [200, 1, 3, 4] [(200 : Byte), 1, 3, 4].length 16 0
        = List.replicate [(200 : Byte), 1, 3, 4].length 0 :=
  ⟨(set_Volume_zero sevenMem [200, 1, 3] 8 (Or.inl rfl)).2.1,
   (set_Volume_zero sevenMem [200, 1, 3, 4] 16 (Or.inr (by decide))).2.1⟩

theorem toString_bits (b : Nat) (h : b = 8 ∨ b = 16) :
    toString (toInt16 b) = toString b := by
  rcases h with h | h <;> subst h <;> decide

/-- C23: for every valid input with no trailing bytes, declared or actual
(`fileSize = 36 + dataSize`, stream of exactly `44 + dataSize` bytes),
`info_command` returns with the flag at 0, no diagnostic and the whole input
read, and its output is exactly nine lines, each a label followed by the
decimal value of a header field decoded little-endian at its offset, in the
order `fileSize`, `fmtChunkSize`, `audioFormat`, `numChannels`, `sampleRate`,
`byteRate`, `blockAlign`, `bitsPerSample`, `dataSize`. -/
theorem info_command_report (s : List Byte) (hv : validHeader s)
    (hlen : s.length = 44 + dataSize s) (hfs : fileSize s = 36 + dataSize s) :
    (info_command s).flag = 0 ∧ (info_command s).err = [] ∧ (info_command s).rest = [] ∧
    (info_command s).out =
      strBytes ("size of file: " ++ toString (fileSize s) ++ "\n") ++
      strBytes ("size of format chunk: " ++ toString (fmtChunkSize s) ++ "\n") ++
      strBytes ("WAVE type format: " ++ toString (audioFormat s) ++ "\n") ++
      strBytes ("mono/stereo: " ++ toString (numChannels s) ++ "\n") ++
      strBytes ("sample rate: " ++ toString (sampleRate s) ++ "\n") ++
      strBytes ("byte/sec: " ++ toString (byteRate s) ++ "\n") ++
      strBytes ("block align: " ++ toString (blockAlign s) ++ "\n") ++
      strBytes ("bits/sample: " ++ toString (bitsPerSample s) ++ "\n") ++
      strBytes ("size of data chunk: " ++ toString (dataSize s) ++ "\n") := by
  obtain ⟨_, _, _, _, _, _, _, hbits, _⟩ := validHeader_tags s hv
  rw [validHeader] at hv
  rw [info_command_eq, hv]
  have hf := u32At_lt s 4
  have hl : dataSize s ≤ (s.drop 44).length := by simp; omega
  have hmod : (SIZE_OF_WAVE_HEADER + dataSize s) % 2 ^ 32 = 36 + dataSize s := by
    rw [SIZE_OF_WAVE_HEADER]
    apply Nat.mod_eq_of_lt
    unfold fileSize at hfs
    omega
  have hrest : List.drop (dataSize s) (List.drop 44 s) = [] := by
    rw [List.drop_drop]
    exact List.drop_of_length_le (by omega)
  simp only [info_tail, info_dataLoop_complete _ _ hl, hmod, hfs, Nat.sub_self, info_skipLoop,
    hrest, getchar, EOF, ne_eq, not_true_eq_false, if_false, Bool.false_eq_true, info_report,
    List.flatMap_cons, List.flatMap_nil, List.append_nil, toString_bits _ hbits,
    List.append_assoc]
  exact ⟨trivial, trivial, trivial, trivial⟩

set_option maxRecDepth 100000 in
theorem info_command_report_witness :
    validHeader minimalWav ∧ minimalWav.length = 44 + dataSize minimalWav ∧
    (info_command minimalWav).flag = 0 ∧
    (info_command minimalWav).out =
      strBytes ("size of file: 44\nsize of format chunk: 16\nWAVE type format: 1\n" ++
        "mono/stereo: 1\nsample rate: 8000\nbyte/sec: 8000\nblock align: 1\n" ++
        "bits/sample: 8\nsize of data chunk: 8\n") :=
  ⟨by decide, by decide,
   (info_command_report minimalWav (by decide) (by decide) (by decide)).1,
   (info_command_report minimalWav (by decide) (by decide) (by decide)).2.2.2.trans
     (by decide)⟩

/-! ## Device setup: what is requested, and in which order -/

theorem caudio_setup_params_eq (drv : Driver) (channels : Nat) (bits_per_sample : Int)
    (sample_rate segment_size : Nat) :
    caudio_setup_params drv channels bits_per_sample sample_rate segment_size =
      if drv.refine_ret < 0 then (-1, [DevEvent.hwRefine]) else
      if drv.hw_params_ret
          (requestedHw drv.refined channels bits_per_sample sample_rate segment_size) < 0 then
        (-2, [DevEvent.hwRefine, DevEvent.hwParams
          (requestedHw drv.refined channels bits_per_sample sample_rate segment_size)]) else
      if drv.sw_params_ret (requestedSw drv.refined segment_size) < 0 then
        (-3, [DevEvent.hwRefine, DevEvent.hwParams
          (requestedHw drv.refined channels bits_per_sample sample_rate segment_size),
          DevEvent.swParams (requestedSw drv.refined segment_size)]) else
      if drv.prepare_ret < 0 then
        (-4, [DevEvent.hwRefine, DevEvent.hwParams
          (requestedHw drv.refined channels bits_per_sample sample_rate segment_size),
          DevEvent.swParams (requestedSw drv.refined segment_size), DevEvent.prepare]) else
      (0, [DevEvent.hwRefine, DevEvent.hwParams
          (requestedHw drv.refined channels bits_per_sample sample_rate segment_size),
          DevEvent.swParams (requestedSw drv.refined segment_size), DevEvent.prepare]) := by
  rfl

theorem requestedHw_fields (refined : HwParams) (channels : Nat) (bits_per_sample : Int)
    (sample_rate segment_size : Nat) (hrate : refined.rate.min ≤ refined.rate.max)
    (hps : refined.ps.min ≤ refined.ps.max) :
    (requestedHw refined channels bits_per_sample sample_rate segment_size).ch
      = ⟨if refined.ch.min ≤ channels ∧ channels ≤ refined.ch.max then channels
          else refined.ch.max,
         if refined.ch.min ≤ channels ∧ channels ≤ refined.ch.max then channels
          else refined.ch.max⟩ ∧
    (requestedHw refined channels bits_per_sample sample_rate segment_size).rate
      = ⟨max refined.rate.min (min refined.rate.max sample_rate),
         max refined.rate.min (min refined.rate.max sample_rate)⟩ ∧
    (requestedHw refined channels bits_per_sample sample_rate segment_size).ps
      = ⟨max refined.ps.min (min refined.ps.max segment_size),
         max refined.ps.min (min refined.ps.max segment_size)⟩ ∧
    (requestedHw refined channels bits_per_sample sample_rate segment_size).bs
      = ⟨(max refined.ps.min (min refined.ps.max segment_size) * 4) % 2 ^ 32,
         (max refined.ps.min (min refined.ps.max segment_size) * 4) % 2 ^ 32⟩ := by
  have e1 : (if (if sample_rate < refined.rate.min then refined.rate.min else sample_rate)
        > refined.rate.max then refined.rate.max
      else (if sample_rate < refined.rate.min then refined.rate.min else sample_rate))
      = max refined.rate.min (min refined.rate.max sample_rate) := by
    split_ifs <;> omega
  have e2 : (if (if segment_size < refined.ps.min then refined.ps.min else segment_size)
        > refined.ps.max then refined.ps.max
      else (if segment_size < refined.ps.min then refined.ps.min else segment_size))
      = max refined.ps.min (min refined.ps.max segment_size) := by
    split_ifs <;> omega
  have e3 : (if channels < refined.ch.min ∨ channels > refined.ch.max then refined.ch.max
      else channels)
      = if refined.ch.min ≤ channels ∧ channels ≤ refined.ch.max then channels
          else refined.ch.max := by
    split_ifs <;> first | rfl | omega
  simp only [requestedHw, e1, e2, e3]
  exact ⟨trivial, trivial, trivial, trivial⟩

/-- C26 (counterexample): the device advertises 2 to 8 channels and one
channel is requested, below the minimum; the structure submitted with
`HW_PARAMS` asks for 8 channels, the maximum, not for the nearest bound 2. -/
theorem caudio_setup_params_channels_to_max :
    surroundDriver.refined.ch = ⟨2, 8⟩ ∧
    (caudio_setup_params surroundDriver 1 16 8000 1024).1 = 0 ∧
    (caudio_setup_params surroundDriver 1 16 8000 1024).2[1]?
      = some (DevEvent.hwParams
          ⟨⟨8, 8⟩, ⟨8000, 8000⟩, ⟨1024, 1024⟩, ⟨4096, 4096⟩, some Format.S16_LE⟩) := by
  decide

/-- C26 (amended): when the refine query succeeds and advertises intervals
with `min ≤ max` for the rate and the period size, the second request of
`caudio_setup_params` is `HW_PARAMS` with a structure in which the rate and the
period size are the requested values clamped to the nearest bound, and the
number of channels is the requested one when it lies inside the advertised
interval and the advertised maximum otherwise (also when the requested value is
below the minimum). -/
theorem caudio_setup_params_applied (drv : Driver) (channels : Nat) (bits_per_sample : Int)
    (sample_rate segment_size : Nat) (href : 0 ≤ drv.refine_ret)
    (hrate : drv.refined.rate.min ≤ drv.refined.rate.max)
    (hps : drv.refined.ps.min ≤ drv.refined.ps.max) :
    ∃ hw, (caudio_setup_params drv channels bits_per_sample sample_rate segment_size).2[1]?
        = some (DevEvent.hwParams hw) ∧
      hw.ch.min = hw.ch.max ∧
      hw.ch.max = (if drv.refined.ch.min ≤ channels ∧ channels ≤ drv.refined.ch.max
        then channels else drv.refined.ch.max) ∧
      hw.rate.min = hw.rate.max ∧
      hw.rate.max = (if sample_rate < drv.refined.rate.min then drv.refined.rate.min
        else if drv.refined.rate.max < sample_rate then drv.refined.rate.max
        else sample_rate) ∧
      hw.ps.min = hw.ps.max ∧
      hw.ps.max = (if segment_size < drv.refined.ps.min then drv.refined.ps.min
        else if drv.refined.ps.max < segment_size then drv.refined.ps.max
        else segment_size) := by
  refine ⟨requestedHw drv.refined channels bits_per_sample sample_rate segment_size, ?_, ?_⟩
  · rw [caudio_setup_params_eq, if_neg (not_lt.2 href)]
    split_ifs <;> rfl
  · obtain ⟨e1, e2, e3, _⟩ := requestedHw_fields drv.refined channels bits_per_sample
      sample_rate segment_size hrate hps
    rw [e1, e2, e3]
    refine ⟨rfl, rfl, rfl, ?_, rfl, ?_⟩
    · simp only []
      split_ifs <;> omega
    · simp only []
      split_ifs <;> omega

theorem caudio_setup_params_applied_witness :
    ∃ hw, (caudio_setup_params okDriver 2 16 96000 32).2[1]? = some (DevEvent.hwParams hw) ∧
      hw.ch.min = hw.ch.max ∧
      hw.ch.max = (if okDriver.refined.ch.min ≤ 2 ∧ 2 ≤ okDriver.refined.ch.max
        then 2 else okDriver.refined.ch.max) ∧
      hw.rate.min = hw.rate.max ∧
      hw.rate.max = (if 96000 < okDriver.refined.rate.min then okDriver.refined.rate.min
        else if okDriver.refined.rate.max < 96000 then okDriver.refined.rate.max
        else 96000) ∧
      hw.ps.min = hw.ps.max ∧
      hw.ps.max = (if 32 < okDriver.refined.ps.min then okDriver.refined.ps.min
        else if okDriver.refined.ps.max < 32 then okDriver.refined.ps.max
        else 32) :=
  caudio_setup_params_applied okDriver 2 16 96000 32 (by decide) (by decide) (by decide)

/-- C27 (the code at the failing input): the device advertises periods of
64-4096 frames and buffers of 256-2048 frames; with the period size 1024 (the
value `play_sound` passes) the structure submitted with `HW_PARAMS` asks for a
buffer of 4096 frames, above the advertised maximum 2048, which is what
`4 * 1024` clamped into the interval would be. -/
theorem caudio_setup_params_buffer_unclamped :
    surroundDriver.refined.ps = ⟨64, 4096⟩ ∧ surroundDriver.refined.bs = ⟨256, 2048⟩ ∧
    (caudio_setup_params surroundDriver 2 16 44100 1024).1 = 0 ∧
    (caudio_setup_params surroundDriver 2 16 44100 1024).2[1]?
      = some (DevEvent.hwParams
          ⟨⟨2, 2⟩, ⟨44100, 44100⟩, ⟨1024, 1024⟩, ⟨4096, 4096⟩, some Format.S16_LE⟩) ∧
    max 256 (min 2048 (4 * 1024)) = 2048 ∧
    (play_sound surroundDriver zeroMem stereo16Wav).dev[1]?
      = some (DevEvent.hwParams
          ⟨⟨2, 2⟩, ⟨8000, 8000⟩, ⟨1024, 1024⟩, ⟨4096, 4096⟩, some Format.S16_LE⟩) := by
  decide

/-- C28: `caudio_setup_params` returns 0, -1, -2, -3 or -4.  It returns 0
exactly when it has issued the four requests (refine, hardware parameters,
software parameters, prepare, in that order) and the driver has answered each
with a non-negative value.  When it returns `-k`, it has issued exactly the
requests of the phases 1 to `k`, in order, the driver has answered the first
`k - 1` of them with a non-negative value and the last one, of phase `k`, with
a negative value: no request of a later phase has been issued. -/
theorem caudio_setup_params_phases (drv : Driver) (channels : Nat) (bits_per_sample : Int)
    (sample_rate segment_size : Nat) :
    ((caudio_setup_params drv channels bits_per_sample sample_rate segment_size).1 = 0 ∨
      (caudio_setup_params drv channels bits_per_sample sample_rate segment_size).1 = -1 ∨
      (caudio_setup_params drv channels bits_per_sample sample_rate segment_size).1 = -2 ∨
      (caudio_setup_params drv channels bits_per_sample sample_rate segment_size).1 = -3 ∨
      (caudio_setup_params drv channels bits_per_sample sample_rate segment_size).1 = -4) ∧
    ((caudio_setup_params drv channels bits_per_sample sample_rate segment_size).1 = 0 ↔
      (caudio_setup_params drv channels bits_per_sample sample_rate segment_size).2.map
          DevEvent.phase = [1, 2, 3, 4] ∧
      ∀ e ∈ (caudio_setup_params drv channels bits_per_sample sample_rate segment_size).2,
        0 ≤ drv.answer e) ∧
    ((caudio_setup_params drv channels bits_per_sample sample_rate segment_size).1 ≠ 0 →
      (caudio_setup_params drv channels bits_per_sample sample_rate segment_size).2.map
          DevEvent.phase
        = List.range' 1
            (-(caudio_setup_params drv channels bits_per_sample sample_rate segment_size).1).toNat ∧
      (∀ e ∈ (caudio_setup_params drv channels bits_per_sample sample_rate
          segment_size).2.dropLast, 0 ≤ drv.answer e) ∧
      ∃ e, (caudio_setup_params drv channels bits_per_sample sample_rate segment_size).2.getLast?
          = some e ∧ drv.answer e < 0) := by
  rw [caudio_setup_params_eq]
  by_cases h1 : drv.refine_ret < 0
  · simp [h1, DevEvent.phase, Driver.answer, List.range']
  · by_cases h2 : drv.hw_params_ret
        (requestedHw drv.refined channels bits_per_sample sample_rate segment_size) < 0
    · simp [h1, h2, DevEvent.phase, Driver.answer, List.range', not_lt.1 h1]
    · by_cases h3 : drv.sw_params_ret (requestedSw drv.refined segment_size) < 0
      · simp [h1, h2, h3, DevEvent.phase, Driver.answer, List.range', not_lt.1 h1, not_lt.1 h2]
      · by_cases h4 : drv.prepare_ret < 0
        · simp [h1, h2, h3, h4, DevEvent.phase, Driver.answer, List.range', not_lt.1 h1,
            not_lt.1 h2, not_lt.1 h3]
        · simp [h1, h2, h3, h4, DevEvent.phase, Driver.answer, not_lt.1 h1,
            not_lt.1 h2, not_lt.1 h3, not_lt.1 h4]

/-! ## Playback: the blocks written and a failed write -/

theorem memcpy_length (mem : Nat → Byte) (dst src : List Byte) (off n : Nat) :
    (memcpy mem dst src off n).length = dst.length := by
  simp [memcpy]

theorem memcpy_eq (mem : Nat → Byte) (dst src : List Byte) (off n : Nat)
    (h1 : n ≤ dst.length) (h2 : off + n ≤ src.length) :
    memcpy mem dst src off n = (src.drop off).take n ++ dst.drop n := by
  apply List.ext_getElem?
  intro j
  have hl : ((src.drop off).take n).length = n := by
    simp only [List.length_take, List.length_drop]; omega
  by_cases hj : j < dst.length
  · simp only [memcpy, List.getElem?_map, List.getElem?_range hj, Option.map_some']
    by_cases hn : j < n
    · rw [if_pos hn, List.getElem?_append_left (by omega), List.getElem?_take_of_lt hn,
        List.getElem?_drop, rd, List.getD_eq_getElem _ _ (by omega),
        List.getElem?_eq_getElem (by omega)]
    · rw [if_neg hn, List.getElem?_append_right (by omega), hl, List.getElem?_drop, rd,
        List.getD_eq_getElem _ _ hj, List.getElem?_eq_getElem (by omega)]
      congr 2
      omega
  · rw [List.getElem?_eq_none (by rw [memcpy_length]; omega),
      List.getElem?_eq_none (by
        simp only [List.length_append, List.length_take, List.length_drop]; omega)]

theorem play_loop_last (drv : Driver) (mem : Nat → Byte) (buffer : List Byte)
    (size fuel steps k : Nat) (segment : List Byte) (hs : steps < size)
    (hl : size ≤ steps + 1024) (h32 : size ≤ 2 ^ 32 - 1024) (hb : buffer.length = size)
    (hseg : segment.length = 1024) (hw : drv.write_ok k = true) :
    play_loop drv mem buffer size (fuel + 1) steps steps k segment
      = (0, [], [DevEvent.write (buffer.drop steps ++ segment.drop (size - steps)),
          DevEvent.drain, DevEvent.close]) := by
  unfold play_loop
  have hm : (steps + 1024) % 2 ^ 32 = steps + 1024 := Nat.mod_eq_of_lt (by omega)
  have hm2 : (steps + (size - steps)) % 2 ^ 32 = size := by
    rw [Nat.mod_eq_of_lt (by omega)]; omega
  rw [if_pos hs]
  simp only [hm, if_neg (show ¬steps + 1024 < size by omega), hm2, hw, if_true,
    play_loop_done drv mem buffer size fuel size _ (k + 1) _ (le_refl _)]
  rw [memcpy_eq mem segment buffer steps (size - steps) (by omega) (by omega),
    List.take_of_length_le (by simp only [List.length_drop]; omega)]

theorem fresh_sevenMem (n : Nat) : fresh sevenMem n = List.replicate n 7 := by
  apply List.ext_getElem?
  intro j
  by_cases hj : j < n
  · rw [fresh_getElem? _ _ _ hj, List.getElem?_replicate, if_pos hj]
    rfl
  · rw [List.getElem?_eq_none (by rw [fresh_length]; omega),
      List.getElem?_eq_none (by rw [List.length_replicate]; omega)]

/-- C29 (the code at the failing input): the minimal file has a payload of 8
bytes, all 0.  With a device that accepts everything and a heap whose fresh
cells hold 7, `play_sound` returns 0 and passes one block to
`caudio_write_data_to_device`: the 8 payload bytes followed by the 1016 bytes
the staging buffer held, 1024 bytes in all. -/
theorem play_sound_pads_last_block :
    validHeader minimalWav ∧ dataSize minimalWav = 8 ∧
    minimalWav.drop 44 = List.replicate 8 0 ∧
    (play_sound okDriver sevenMem minimalWav).ret = 0 ∧
    writtenBlocks (play_sound okDriver sevenMem minimalWav).dev
      = [List.replicate 8 0 ++ List.replicate 1016 7] ∧
    (writtenBlocks (play_sound okDriver sevenMem minimalWav).dev).flatten.length = 1024 := by
  have hv : validHeader minimalWav := by decide
  have hd : dataSize minimalWav = 8 := by decide
  have hp : minimalWav.drop 44 = List.replicate 8 0 := by decide
  have hr : read_DataSegment 8 (List.replicate 8 (0 : Byte)) = (List.replicate 8 0, false, []) := by
    decide
  have hs : caudio_setup_params okDriver (numChannels minimalWav)
      (toInt16 (bitsPerSample minimalWav)) (sampleRate minimalWav) 1024
      = (0, [DevEvent.hwRefine,
          DevEvent.hwParams ⟨⟨1, 1⟩, ⟨8000, 8000⟩, ⟨1024, 1024⟩, ⟨4096, 4096⟩, some Format.U8⟩,
          DevEvent.swParams ⟨1, 1, 2 ^ 32 - 1, 0, 0, 0x7FFFFFFF, 1024⟩, DevEvent.prepare]) := by
    decide
  have ho : ¬okDriver.open_fd < 0 := by decide
  have hl : play_loop okDriver sevenMem (List.replicate 8 0) 8 8 0 0 0
      (List.replicate 1024 7)
      = (0, [], [DevEvent.write (List.replicate 8 0 ++ List.replicate 1016 7),
          DevEvent.drain, DevEvent.close]) := by
    have h := play_loop_last okDriver sevenMem (List.replicate 8 0) 8 7 0 0
      (List.replicate 1024 7) (by decide) (by decide) (by decide) (List.length_replicate _ _)
      (List.length_replicate _ _) rfl
    rw [List.drop_zero, List.drop_replicate] at h
    exact h
  have e : play_sound okDriver sevenMem minimalWav
      = ⟨0, [], [], [DevEvent.hwRefine,
          DevEvent.hwParams ⟨⟨1, 1⟩, ⟨8000, 8000⟩, ⟨1024, 1024⟩, ⟨4096, 4096⟩, some Format.U8⟩,
          DevEvent.swParams ⟨1, 1, 2 ^ 32 - 1, 0, 0, 0x7FFFFFFF, 1024⟩, DevEvent.prepare,
          DevEvent.start,
          DevEvent.write (List.replicate 8 0 ++ List.replicate 1016 7),
          DevEvent.drain, DevEvent.close]⟩ := by
    rw [play_sound_eq, show firstFailing minimalWav = none from hv]
    simp only [play_tail, hd, hp, hr, hs, if_neg ho, fresh_sevenMem, hl, ne_eq,
      not_true_eq_false, if_false, List.cons_append, List.nil_append]
  refine ⟨hv, hd, hp, ?_⟩
  rw [e]
  simp only [writtenBlocks, List.flatten, List.append_nil, List.length_append,
    List.length_replicate]
  exact ⟨trivial, trivial, trivial⟩

theorem writtenBlocks_map_write (blocks : List (List Byte)) (es : List DevEvent) :
    writtenBlocks (blocks.map DevEvent.write ++ es) = blocks ++ writtenBlocks es := by
  induction blocks with
  | nil => rfl
  | cons b bs ih => simp [writtenBlocks, ih]

theorem play_loop_shape (drv : Driver) (mem : Nat → Byte) (buffer : List Byte) (size : Nat)
    (fuel steps ptr k : Nat) (segment : List Byte) :
    ∃ blocks : List (List Byte), ∃ tail : List DevEvent,
      (play_loop drv mem buffer size fuel steps ptr k segment).2.2
        = blocks.map DevEvent.write ++ tail ∧
      writtenBlocks tail = [] ∧
      (∀ j, j + 1 < blocks.length → drv.write_ok (k + j) = true) ∧
      (((play_loop drv mem buffer size fuel steps ptr k segment).1 = 0 ∧
          (play_loop drv mem buffer size fuel steps ptr k segment).2.1 = [] ∧
          ∀ j, j < blocks.length → drv.write_ok (k + j) = true) ∨
        ((play_loop drv mem buffer size fuel steps ptr k segment).1 = ⊥ ∧
          (play_loop drv mem buffer size fuel steps ptr k segment).2.1 = [] ∧
          ∀ j, j < blocks.length → drv.write_ok (k + j) = true) ∨
        ((play_loop drv mem buffer size fuel steps ptr k segment).1 = 2 ∧
          (play_loop drv mem buffer size fuel steps ptr k segment).2.1 = [Diag.playback] ∧
          tail = [DevEvent.drain, DevEvent.close] ∧
          1 ≤ blocks.length ∧ drv.write_ok (k + (blocks.length - 1)) = false)) := by
  induction fuel generalizing steps ptr k segment with
  | zero =>
    unfold play_loop
    by_cases hs : steps < size
    · rw [if_pos hs]
      exact ⟨[], [], rfl, rfl, fun j hj => by simp at hj,
        Or.inr (Or.inl ⟨rfl, rfl, fun j hj => by simp at hj⟩)⟩
    · rw [if_neg hs]
      exact ⟨[], _, rfl, rfl, fun j hj => by simp at hj,
        Or.inl ⟨rfl, rfl, fun j hj => by simp at hj⟩⟩
  | succ n ih =>
    unfold play_loop
    by_cases hs : steps < size
    · rw [if_pos hs]
      simp only []
      by_cases hw : drv.write_ok k = true
      · rw [if_pos hw]
        obtain ⟨bs, tl, e, htl, hpre, hcase⟩ := ih
          ((steps + if (steps + 1024) % 2 ^ 32 < size then 1024 else size - steps) % 2 ^ 32)
          (ptr + if (steps + 1024) % 2 ^ 32 < size then 1024 else size - steps)
          (k + 1)
          (memcpy mem segment buffer ptr
            (if (steps + 1024) % 2 ^ 32 < size then 1024 else size - steps))
        refine ⟨_ :: bs, tl, by rw [e]; rfl, htl, ?_, ?_⟩
        · intro j hj
          cases j with
          | zero => exact hw
          | succ i =>
            have := hpre i (by simpa using hj)
            rw [← this]; congr 1; omega
        · rcases hcase with ⟨h1, h2, h3⟩ | ⟨h1, h2, h3⟩ | ⟨h1, h2, h3, h4, h5⟩
          · refine Or.inl ⟨h1, h2, ?_⟩
            intro j hj
            cases j with
            | zero => exact hw
            | succ i =>
              have := h3 i (by simpa using hj)
              rw [← this]; congr 1; omega
          · refine Or.inr (Or.inl ⟨h1, h2, ?_⟩)
            intro j hj
            cases j with
            | zero => exact hw
            | succ i =>
              have := h3 i (by simpa using hj)
              rw [← this]; congr 1; omega
          · refine Or.inr (Or.inr ⟨h1, h2, h3, by simp, ?_⟩)
            rw [← h5]
            congr 1
            simp only [List.length_cons]
            omega
      · rw [if_neg hw]
        refine ⟨[_], _, rfl, rfl, fun j hj => by simp at hj,
          Or.inr (Or.inr ⟨rfl, rfl, rfl, by simp, ?_⟩)⟩
        simpa using hw
    · rw [if_neg hs]
      exact ⟨[], _, rfl, rfl, fun j hj => by simp at hj,
        Or.inl ⟨rfl, rfl, fun j hj => by simp at hj⟩⟩

theorem caudio_setup_params_no_write (drv : Driver) (channels : Nat) (bits_per_sample : Int)
    (sample_rate segment_size : Nat) :
    (caudio_setup_params drv channels bits_per_sample sample_rate segment_size).1 ≤ 0 ∧
    ∀ es, writtenBlocks
        ((caudio_setup_params drv channels bits_per_sample sample_rate segment_size).2 ++ es)
      = writtenBlocks es := by
  rw [caudio_setup_params_eq]
  split_ifs <;> exact ⟨by simp only []; omega, fun es => rfl⟩

/-- C30 (counterexample): on the minimal file with a device whose first write
fails, `play_sound` returns 2 after the requests refine, hardware parameters,
software parameters, prepare, start, one write, drain and close: a drain
request is issued between the failed write and the close. -/
theorem play_sound_drains_after_failed_write :
    failingDriver.write_ok 0 = false ∧
    (play_sound failingDriver zeroMem minimalWav).ret = 2 ∧
    (play_sound failingDriver zeroMem minimalWav).dev.length = 8 ∧
    ((play_sound failingDriver zeroMem minimalWav).dev.take 5).map DevEvent.phase
      = [1, 2, 3, 4, 0] ∧
    (play_sound failingDriver zeroMem minimalWav).dev[4]? = some DevEvent.start ∧
    (writtenBlocks (play_sound failingDriver zeroMem minimalWav).dev).length = 1 ∧
    (play_sound failingDriver zeroMem minimalWav).dev.drop 6
      = [DevEvent.drain, DevEvent.close] := by
  decide

/-- C30 (amended): `play_sound` returns 2 exactly when one of the writes it
has issued failed.  In that case it emits the playback diagnostic, and the
requests it has sent are those of the device setup, the start, the blocks it
wrote, a drain request and the close, in that order: every write but the last
succeeded, the last one failed, no block is written after it, and the drain
request is issued after the failed write, before the device is closed. -/
theorem play_sound_write_failure (drv : Driver) (mem : Nat → Byte) (s : List Byte) :
    ((play_sound drv mem s).ret = 2 ↔
      ∃ j, j < (writtenBlocks (play_sound drv mem s).dev).length ∧ drv.write_ok j = false) ∧
    ((play_sound drv mem s).ret = 2 →
      (play_sound drv mem s).err = [Diag.playback] ∧
      ∃ blocks : List (List Byte),
        (play_sound drv mem s).dev
          = (caudio_setup_params drv (numChannels s) (toInt16 (bitsPerSample s))
              (sampleRate s) 1024).2
            ++ DevEvent.start :: (blocks.map DevEvent.write
            ++ [DevEvent.drain, DevEvent.close]) ∧
        writtenBlocks (play_sound drv mem s).dev = blocks ∧
        1 ≤ blocks.length ∧
        (∀ j, j + 1 < blocks.length → drv.write_ok j = true) ∧
        drv.write_ok (blocks.length - 1) = false) := by
  rw [play_sound_eq]
  cases hf : firstFailing s with
  | some c =>
    simp only []
    refine ⟨⟨fun h => by simp at h, ?_⟩, fun h => by simp at h⟩
    rintro ⟨j, hj, _⟩
    simp [writtenBlocks] at hj
  | none =>
    simp only [play_tail]
    by_cases ho : drv.open_fd < 0
    · rw [if_pos ho]
      refine ⟨⟨fun h => by simp at h, ?_⟩, fun h => by simp at h⟩
      rintro ⟨j, hj, _⟩
      simp [writtenBlocks] at hj
    · rw [if_neg ho]
      obtain ⟨hle, hnw⟩ := caudio_setup_params_no_write drv (numChannels s)
        (toInt16 (bitsPerSample s)) (sampleRate s) 1024
      by_cases hsu : (caudio_setup_params drv (numChannels s) (toInt16 (bitsPerSample s))
          (sampleRate s) 1024).1 ≠ 0
      · rw [if_pos hsu]
        simp only []
        have hne : ¬(((caudio_setup_params drv (numChannels s) (toInt16 (bitsPerSample s))
            (sampleRate s) 1024).1 : Int) : WithBot Int) = 2 := by
          rw [retCode_eq_two]; omega
        refine ⟨⟨fun h => absurd h hne, ?_⟩, fun h => absurd h hne⟩
        rintro ⟨j, hj, _⟩
        have := hnw []
        rw [List.append_nil] at this
        rw [this] at hj
        simp [writtenBlocks] at hj
      · rw [if_neg hsu]
        simp only []
        obtain ⟨blocks, tl, e, htl, hpre, hcase⟩ := play_loop_shape drv mem
          (read_DataSegment (dataSize s) (s.drop 44)).1 (dataSize s) (dataSize s) 0 0 0
          (fresh mem 1024)
        have hwb : writtenBlocks
            ((caudio_setup_params drv (numChannels s) (toInt16 (bitsPerSample s))
                (sampleRate s) 1024).2 ++ DevEvent.start ::
              (play_loop drv mem (read_DataSegment (dataSize s) (s.drop 44)).1 (dataSize s)
                (dataSize s) 0 0 0 (fresh mem 1024)).2.2) = blocks := by
          rw [hnw, e]
          show writtenBlocks (blocks.map DevEvent.write ++ tl) = blocks
          rw [writtenBlocks_map_write, htl, List.append_nil]
        rw [hwb]
        simp only [Nat.zero_add] at hpre hcase
        rcases hcase with ⟨h1, h2, h3⟩ | ⟨h1, h2, h3⟩ | ⟨h1, h2, h3, h4, h5⟩
        · have hne : ¬(play_loop drv mem (read_DataSegment (dataSize s) (s.drop 44)).1
              (dataSize s) (dataSize s) 0 0 0 (fresh mem 1024)).1 = 2 := by rw [h1]; decide
          refine ⟨⟨fun h => absurd h hne, ?_⟩, fun h => absurd h hne⟩
          rintro ⟨j, hj, hjf⟩
          rw [h3 j hj] at hjf
          exact absurd hjf (by decide)
        · have hne : ¬(play_loop drv mem (read_DataSegment (dataSize s) (s.drop 44)).1
              (dataSize s) (dataSize s) 0 0 0 (fresh mem 1024)).1 = 2 := by rw [h1]; decide
          refine ⟨⟨fun h => absurd h hne, ?_⟩, fun h => absurd h hne⟩
          rintro ⟨j, hj, hjf⟩
          rw [h3 j hj] at hjf
          exact absurd hjf (by decide)
        · refine ⟨⟨fun _ => ⟨blocks.length - 1, by omega, h5⟩, fun _ => h1⟩, fun _ => ?_⟩
          exact ⟨h2, blocks, by rw [e, h3], rfl, h4, hpre, h5⟩

theorem play_sound_write_failure_witness :
    (play_sound failingDriver zeroMem minimalWav).ret = 2 ∧
    (play_sound failingDriver zeroMem minimalWav).err = [Diag.playback] ∧
    ∃ j, j < (writtenBlocks (play_sound failingDriver zeroMem minimalWav).dev).length ∧
      failingDriver.write_ok j = false :=
  ⟨by decide,
   ((play_sound_write_failure failingDriver zeroMem minimalWav).2 (by decide)).1,
   (play_sound_write_failure failingDriver zeroMem minimalWav).1.1 (by decide)⟩

/-! ## The generator -/

theorem length_flatMap_range (f : Nat → List Byte) (h : ∀ i, (f i).length = 2) (n : Nat) :
    ((List.range n).flatMap f).length = 2 * n := by
  induction n with
  | zero => rfl
  | succ k ih =>
    rw [List.range_succ, List.flatMap_append, List.length_append, ih]
    simp [h]
    omega

theorem mysound_eq (sin : ℚ → ℚ) (dur sr : Int) (fm fc mi amp : ℚ) :
    mysound sin dur sr fm fc mi amp =
      mkHeader ((36 + u32 (dur * sr * 2)) % 2 ^ 32) 1 (u32 sr) (u32 (sr * 2)) 2 16
          (u32 (dur * sr * 2)) ++
        (List.range (u32 (dur * sr))).flatMap
          (fun i => write_d16 (mysound_sample sin sr fm fc mi amp i)) := by
  have e1 : swrite_ch zeroMem tagRIFF 4 = tagRIFF := by decide
  have e2 : swrite_ch zeroMem tagWAVE 4 = tagWAVE := by decide
  have e3 : swrite_ch zeroMem tagFMT 4 = tagFMT := by decide
  have e4 : swrite_ch zeroMem tagDATA 4 = tagDATA := by decide
  have e5 : write_d16 16 = write_u16 16 := by decide
  have e6 : ((1 * Int.tdiv 16 8 : Int) % 2 ^ 16).toNat = 2 := by decide
  have e7 : sr * 1 * Int.tdiv 16 8 = sr * 2 := by
    rw [show Int.tdiv 16 8 = 2 by decide]; ring
  simp only [mysound, e1, e2, e3, e4, e5, e6, e7, SIZE_OF_WAVE_HEADER, mkHeader,
    List.append_assoc]
  rfl

theorem u32_of_nonneg (x : Int) (h0 : 0 ≤ x) (h1 : x < 2 ^ 32) : ((u32 x : Nat) : Int) = x := by
  unfold u32
  omega

theorem validHeader_of_fields (s : List Byte) (h1 : tagAt s 0 = tagRIFF)
    (h2 : tagAt s 8 = tagWAVE) (h3 : tagAt s 12 = tagFMT) (h4 : tagAt s 36 = tagDATA)
    (h5 : fmtChunkSize s = 16) (h6 : audioFormat s = 1)
    (h7 : numChannels s = 1 ∨ numChannels s = 2)
    (h8 : byteRate s = (sampleRate s * blockAlign s) % 2 ^ 32)
    (h9 : bitsPerSample s = 8 ∨ bitsPerSample s = 16)
    (h10 : blockAlign s = bitsPerSample s / 8 * numChannels s) : validHeader s := by
  rw [validHeader_iff]
  intro c
  cases c
  · simp [Check.fails, h1]
  · simp [Check.fails, h2]
  · simp [Check.fails, h3]
  · simp [Check.fails, h5]
  · simp [Check.fails, h6]
  · simp only [Check.fails, decide_eq_false_iff_not]; omega
  · simp only [Check.fails, decide_eq_false_iff_not, ne_eq, not_not]; exact h8
  · simp only [Check.fails, decide_eq_false_iff_not]; omega
  · simp only [Check.fails, decide_eq_false_iff_not, ne_eq, not_not]; exact h10
  · simp [Check.fails, h4]

/-- C24: for every `dur ≥ 0` and `sr ≥ 0`, `sr` an `int`, with
`2 * dur * sr + 36 < 2^31`, the output of `mysound` is a 44-byte header
followed by exactly `dur * sr` two-byte samples: its length is
`44 + 2 * dur * sr`, the tags are `RIFF`, `WAVE`, `fmt ` and `data`, and the
fields decode to `fmtChunkSize = 16`, `audioFormat = 1`, `numChannels = 1`,
`bitsPerSample = 16`, `sampleRate = sr`, `blockAlign = 2`, `byteRate = 2 * sr`,
`dataSize = 2 * dur * sr` and `fileSize = 36 + dataSize`; the header passes the
ten checks of the commands. -/
theorem mysound_header (sin : ℚ → ℚ) (dur sr : Int) (fm fc mi amp : ℚ)
    (hd : 0 ≤ dur) (hs : 0 ≤ sr) (hsr : sr < 2 ^ 31) (h : 2 * dur * sr + 36 < 2 ^ 31) :
    ((mysound sin dur sr fm fc mi amp).length : Int) = 44 + 2 * dur * sr ∧
    (((mysound sin dur sr fm fc mi amp).drop 44).length : Int) = 2 * (dur * sr) ∧
    tagAt (mysound sin dur sr fm fc mi amp) 0 = tagRIFF ∧
    tagAt (mysound sin dur sr fm fc mi amp) 8 = tagWAVE ∧
    tagAt (mysound sin dur sr fm fc mi amp) 12 = tagFMT ∧
    tagAt (mysound sin dur sr fm fc mi amp) 36 = tagDATA ∧
    fmtChunkSize (mysound sin dur sr fm fc mi amp) = 16 ∧
    audioFormat (mysound sin dur sr fm fc mi amp) = 1 ∧
    numChannels (mysound sin dur sr fm fc mi amp) = 1 ∧
    bitsPerSample (mysound sin dur sr fm fc mi amp) = 16 ∧
    (sampleRate (mysound sin dur sr fm fc mi amp) : Int) = sr ∧
    blockAlign (mysound sin dur sr fm fc mi amp) = 2 ∧
    (byteRate (mysound sin dur sr fm fc mi amp) : Int) = 2 * sr ∧
    (dataSize (mysound sin dur sr fm fc mi amp) : Int) = 2 * dur * sr ∧
    fileSize (mysound sin dur sr fm fc mi amp)
      = 36 + dataSize (mysound sin dur sr fm fc mi amp) ∧
    validHeader (mysound sin dur sr fm fc mi amp) := by
  have hp : 0 ≤ dur * sr := mul_nonneg hd hs
  have hl : 2 * dur * sr = dur * sr * 2 := by ring
  have a1 := u32_of_nonneg sr hs (by omega)
  have a2 := u32_of_nonneg (sr * 2) (by omega) (by omega)
  have a3 := u32_of_nonneg (dur * sr * 2) (by omega) (by omega)
  have a4 := u32_of_nonneg (dur * sr) hp (by omega)
  have hm : (36 + u32 (dur * sr * 2)) % 2 ^ 32 = 36 + u32 (dur * sr * 2) :=
    Nat.mod_eq_of_lt (by omega)
  rw [mysound_eq, hm]
  obtain ⟨f1, f2, f3, f4, f5, f6, f7, f8, f9, f10, f11, f12, f13⟩ :=
    mkHeader_fields (36 + u32 (dur * sr * 2)) 1 (u32 sr) (u32 (sr * 2)) 2 16
      (u32 (dur * sr * 2))
      ((List.range (u32 (dur * sr))).flatMap
        (fun i => write_d16 (mysound_sample sin sr fm fc mi amp i)))
  rw [show 1 % 2 ^ 16 = 1 by decide] at f7
  rw [show 2 % 2 ^ 16 = 2 by decide] at f10
  rw [show 16 % 2 ^ 16 = 16 by decide] at f11
  have hlen := length_flatMap_range (fun i => write_d16 (mysound_sample sin sr fm fc mi amp i))
    (fun i => rfl) (u32 (dur * sr))
  have hv := validHeader_of_fields _ f1 f3 f4 f12 f5 f6 (Or.inl f7)
    (by rw [f9, f8, f10, Nat.mod_eq_of_lt (show u32 (sr * 2) < 2 ^ 32 by omega),
      Nat.mod_eq_of_lt (show u32 sr < 2 ^ 32 by omega)]; omega)
    (Or.inr f11) (by rw [f10, f11, f7])
  refine ⟨?_, ?_, f1, f3, f4, f12, f5, f6, f7, f11, ?_, f10, ?_, ?_, ?_, hv⟩
  · rw [List.length_append, mkHeader_length, hlen]; push_cast; omega
  · rw [List.drop_append_eq_append_drop, mkHeader_length,
      List.drop_of_length_le (by rw [mkHeader_length]), Nat.sub_self, List.drop_zero,
      List.nil_append, hlen]
    push_cast; omega
  · rw [f8, Nat.mod_eq_of_lt (by omega)]; exact a1
  · rw [f9, Nat.mod_eq_of_lt (by omega)]; omega
  · rw [f13, Nat.mod_eq_of_lt (by omega)]; omega
  · rw [f2, f13, Nat.mod_eq_of_lt (by omega), Nat.mod_eq_of_lt (by omega)]

theorem mysound_header_witness :
    ((mysound (fun x => x) 1 8000 0 440 0 1000).length : Int) = 44 + 2 * 1 * 8000 ∧
    (dataSize (mysound (fun x => x) 1 8000 0 440 0 1000) : Int) = 2 * 1 * 8000 ∧
    validHeader (mysound (fun x => x) 1 8000 0 440 0 1000) :=
  ⟨(mysound_header (fun x => x) 1 8000 0 440 0 1000 (by decide) (by decide) (by decide)
      (by decide)).1,
   (mysound_header (fun x => x) 1 8000 0 440 0 1000 (by decide) (by decide) (by decide)
      (by decide)).2.2.2.2.2.2.2.2.2.2.2.2.2.1,
   (mysound_header (fun x => x) 1 8000 0 440 0 1000 (by decide) (by decide) (by decide)
      (by decide)).2.2.2.2.2.2.2.2.2.2.2.2.2.2.2⟩

theorem mysound_sample_zero (sin : ℚ → ℚ) (hsin : sin 0 = 0) (sr : Int) (fm fc mi amp : ℚ) :
    mysound_sample sin sr fm fc mi amp 0 = 0 := by
  have h : truncQ 0 = 0 := by simp [truncQ]
  simp only [mysound_sample, Nat.cast_zero, zero_div, mul_zero, hsin, sub_zero, h]
  decide

/-- C25: for every parameter set with `dur * sr ≥ 1` (the product inside the
range of `int`) and every `fm`, `fc`, `mi`, `amp`, the mathematical library
returning 0 for `sin(0)`, the sample of index 0 computed by `mysound` is 0 and
the two bytes of its output at the offsets 44 and 45 are both 0. -/
theorem mysound_first_sample (sin : ℚ → ℚ) (dur sr : Int) (fm fc mi amp : ℚ)
    (hsin : sin 0 = 0) (h : 1 ≤ dur * sr) (h31 : dur * sr < 2 ^ 31) :
    mysound_sample sin sr fm fc mi amp 0 = 0 ∧
    (mysound sin dur sr fm fc mi amp)[44]? = some 0 ∧
    (mysound sin dur sr fm fc mi amp)[45]? = some 0 := by
  have h0 := mysound_sample_zero sin hsin sr fm fc mi amp
  have hn := u32_of_nonneg (dur * sr) (by omega) (by omega)
  obtain ⟨k, hk⟩ : ∃ k, u32 (dur * sr) = k + 1 := ⟨u32 (dur * sr) - 1, by omega⟩
  have e : mysound sin dur sr fm fc mi amp
      = mkHeader ((36 + u32 (dur * sr * 2)) % 2 ^ 32) 1 (u32 sr) (u32 (sr * 2)) 2 16
          (u32 (dur * sr * 2)) ++
        ([0, 0] ++ ((List.range k).map Nat.succ).flatMap
          (fun i => write_d16 (mysound_sample sin sr fm fc mi amp i))) := by
    rw [mysound_eq, hk, List.range_succ_eq_map, List.flatMap_cons, h0]
    rfl
  rw [e]
  refine ⟨h0, ?_, ?_⟩
  · rw [List.getElem?_append_right (by rw [mkHeader_length]), mkHeader_length]
    rfl
  · rw [List.getElem?_append_right (by rw [mkHeader_length]; omega), mkHeader_length]
    simp

theorem mysound_first_sample_witness :
    (1 : Int) ≤ 1 * 8000 ∧
    (mysound (fun x => x) 1 8000 0 440 0 1000)[44]? = some 0 ∧
    (mysound (fun x => x) 1 8000 0 440 0 1000)[45]? = some 0 :=
  ⟨by decide,
   (mysound_first_sample (fun x => x) 1 8000 0 440 0 1000 rfl (by decide) (by decide)).2.1,
   (mysound_first_sample (fun x => x) 1 8000 0 440 0 1000 rfl (by decide) (by decide)).2.2⟩

/-! ## The outputs as inputs: agreement of the validators, acceptance by info -/

theorem info_command_of_valid (s : List Byte) (hv : validHeader s)
    (hfs : 36 + dataSize s ≤ fileSize s) (hlen : s.length = fileSize s + 8) :
    info_command s =
      ⟨0, (info_report (fileSize s) (fmtChunkSize s) (audioFormat s) (numChannels s)
          (sampleRate s) (byteRate s) (blockAlign s) (toInt16 (bitsPerSample s))
          (dataSize s)).flatMap strBytes, [], []⟩ := by
  rw [validHeader] at hv
  rw [info_command_eq, hv]
  have hf := u32At_lt s 4
  have hl : dataSize s ≤ (s.drop 44).length := by simp; omega
  have hmod : (SIZE_OF_WAVE_HEADER + dataSize s) % 2 ^ 32 = 36 + dataSize s := by
    rw [SIZE_OF_WAVE_HEADER]
    apply Nat.mod_eq_of_lt
    unfold fileSize at hfs
    omega
  have hrest : List.drop (fileSize s - (36 + dataSize s))
      (List.drop (dataSize s) (List.drop 44 s)) = [] := by
    rw [List.drop_drop, List.drop_drop]
    exact List.drop_of_length_le (by omega)
  simp only [info_tail, info_dataLoop_complete _ _ hl, hmod, info_skipLoop_eq, hrest, getchar,
    EOF, ne_eq, not_true_eq_false, if_false, Bool.false_eq_true]

/-- C35: the five copies of the header validation agree.  For every input
stream, either the header passes the ten checks, and then none of the five
commands emits a header diagnostic and each continues with the fields decoded
at the same offsets of the stream (`play_sound` reads the four bytes of
`fileSize` without keeping them); or some check `c` is the first to fail, and
then each of the five commands returns with its failure value 1, no output,
the diagnostic of `c` alone, and the input left after the same number of
calls of `getchar`. -/
theorem header_validation_agrees (drv : Driver) (mem : Nat → Byte) (rate volume : ℚ)
    (channel flag0 : Int) (s : List Byte) :
    (validHeader s ∧
      info_command s = info_tail s ∧ pastHeader (info_command s).err ∧
      srate_command mem rate flag0 s = srate_tail mem rate flag0 s ∧
      pastHeader (srate_command mem rate flag0 s).err ∧
      schannel_command mem channel flag0 s = schannel_tail mem channel flag0 s ∧
      pastHeader (schannel_command mem channel flag0 s).err ∧
      svolume_command mem volume flag0 s = svolume_tail mem volume flag0 s ∧
      pastHeader (svolume_command mem volume flag0 s).err ∧
      play_sound drv mem s = play_tail drv mem s ∧
      pastHeader (play_sound drv mem s).err) ∨
    (∃ c : Check, firstFailing s = some c ∧
      info_command s = ⟨1, [], [c.diag], s.drop c.callsMade⟩ ∧
      srate_command mem rate flag0 s = ⟨1, [], [c.diag], s.drop c.callsMade⟩ ∧
      schannel_command mem channel flag0 s = ⟨1, [], [c.diag], s.drop c.callsMade⟩ ∧
      svolume_command mem volume flag0 s = ⟨1, [], [c.diag], s.drop c.callsMade⟩ ∧
      play_sound drv mem s = ⟨1, [c.diag], s.drop c.callsMade, []⟩ ∧
      (info_command s).consumed s = min c.callsMade s.length ∧
      ¬pastHeader [c.diag]) := by
  cases hf : firstFailing s with
  | none =>
    left
    have hv : validHeader s := hf
    have e1 : info_command s = info_tail s := by rw [info_command_eq, hf]
    have e2 : srate_command mem rate flag0 s = srate_tail mem rate flag0 s := by
      rw [srate_command_eq, hf]
    have e3 : schannel_command mem channel flag0 s = schannel_tail mem channel flag0 s := by
      rw [schannel_command_eq, hf]
    have e4 : svolume_command mem volume flag0 s = svolume_tail mem volume flag0 s := by
      rw [svolume_command_eq, hf]
    have e5 : play_sound drv mem s = play_tail drv mem s := by rw [play_sound_eq, hf]
    refine ⟨hv, e1, (pastHeader_info_iff s).2 hv, e2, (pastHeader_srate_iff _ _ _ s).2 hv, e3,
      (pastHeader_schannel_iff _ _ _ s).2 hv, e4, (pastHeader_svolume_iff _ _ _ s).2 hv, e5, ?_⟩
    rw [e5]
    unfold play_tail
    simp only []
    split_ifs
    · simp [pastHeader, Diag.isHeader]
    · simp [pastHeader, Diag.isHeader]
    · have h2 := (play_loop_shape drv mem (read_DataSegment (dataSize s) (s.drop 44)).1
        (dataSize s) (dataSize s) 0 0 0 (fresh mem 1024))
      obtain ⟨_, _, _, _, _, h⟩ := h2
      rcases h with ⟨_, h, _⟩ | ⟨_, h, _⟩ | ⟨_, h, _⟩ <;> rw [h] <;>
        simp [pastHeader, Diag.isHeader]
  | some c =>
    right
    refine ⟨c, rfl, ?_, ?_, ?_, ?_, ?_, ?_, ?_⟩
    · rw [info_command_eq, hf]; rfl
    · rw [srate_command_eq, hf]; rfl
    · rw [schannel_command_eq, hf]; rfl
    · rw [svolume_command_eq, hf]; rfl
    · rw [play_sound_eq, hf]
    · rw [info_command_eq, hf]
      simp only [Outcome.consumed, headerFailure, List.length_drop]
      omega
    · exact not_pastHeader_headerFailure s c

theorem withRates_info (s : List Byte) (a b : Nat) (hv : validHeader s)
    (hfs : 36 + dataSize s ≤ fileSize s) (hlen : s.length = fileSize s + 8)
    (ha : a < 2 ^ 32) (hb : b < 2 ^ 32) :
    (b = (a * blockAlign s) % 2 ^ 32 →
      validHeader (withRates s a b) ∧ (info_command (withRates s a b)).flag = 0 ∧
      (info_command (withRates s a b)).err = []) ∧
    (b ≠ (a * blockAlign s) % 2 ^ 32 →
      ¬validHeader (withRates s a b) ∧ (info_command (withRates s a b)).flag = 1 ∧
      (info_command (withRates s a b)).err = [Diag.byteRate] ∧
      (info_command (withRates s a b)).out = []) := by
  have h32 : 32 ≤ s.length := by omega
  have hV := withRates_validHeader s a b h32 hv ha hb
  have hH := withRates_header s a b h32
  have hL := withRates_length s a b h32
  constructor
  · intro hm
    have hv2 := hV.1 hm
    have e := info_command_of_valid (withRates s a b) hv2 (by rw [hH.1, hH.2.1]; exact hfs)
      (by rw [hL, hH.1]; exact hlen)
    rw [e]
    exact ⟨hv2, rfl, rfl⟩
  · intro hm
    have hff := hV.2 hm
    refine ⟨fun h => ?_, ?_⟩
    · rw [validHeader, hff] at h
      exact absurd h (by simp)
    · rw [info_command_eq, hff]
      exact ⟨rfl, rfl, rfl⟩

/-- C33 (counterexample): on a stereo 16-bit header at 11025 Hz the rate
command with multiplier 3/2 writes `sampleRate = 16537` and `byteRate = 66150`
with `blockAlign = 4`, and `16537 * 4 = 66148`: `info_command` rejects that
output with the byte-rate diagnostic. -/
theorem srate_command_output_rejected :
    validHeader quarterRateWav ∧ quarterRateWav.length = fileSize quarterRateWav + 8 ∧
    (srate_command zeroMem (3 / 2) 0 quarterRateWav).err = [] ∧
    sampleRate (srate_command zeroMem (3 / 2) 0 quarterRateWav).out = 16537 ∧
    byteRate (srate_command zeroMem (3 / 2) 0 quarterRateWav).out = 66150 ∧
    blockAlign (srate_command zeroMem (3 / 2) 0 quarterRateWav).out = 4 ∧
    (info_command (srate_command zeroMem (3 / 2) 0 quarterRateWav).out).flag = 1 ∧
    (info_command (srate_command zeroMem (3 / 2) 0 quarterRateWav).out).err
      = [Diag.byteRate] := by
  refine ⟨by decide, by decide, ?_⟩
  rw [threeHalves_eq]
  decide

/-- C33 (amended): for every valid input and every multiplier `rate > 0` for
which the `double` products `sampleRate * rate` and `byteRate * rate` are below
`2^32`, let `a` and `b` be the integer parts of those products, the two fields
`srate_command` writes.  Its output passes the header validation, and
`info_command` accepts it, exactly when `b = a * blockAlign mod 2^32`;
otherwise `info_command` rejects the output with the byte-rate diagnostic.
The equality holds whenever the exact product `sampleRate * rate` is an integer
and `sampleRate * blockAlign < 2^32`. -/
theorem srate_command_output_valid_iff (mem : Nat → Byte) (rate : ℚ) (flag0 : Int)
    (s : List Byte) (hv : validHeader s) (hfs : 36 + dataSize s ≤ fileSize s)
    (hlen : s.length = fileSize s + 8) (hr : 0 < rate)
    (h1 : mulDouble (sampleRate s) rate < 2 ^ 32) (h2 : mulDouble (byteRate s) rate < 2 ^ 32) :
    (⌊mulDouble (byteRate s) rate⌋₊
        = (⌊mulDouble (sampleRate s) rate⌋₊ * blockAlign s) % 2 ^ 32 →
      validHeader (srate_command mem rate flag0 s).out ∧
      (info_command (srate_command mem rate flag0 s).out).flag = 0 ∧
      (info_command (srate_command mem rate flag0 s).out).err = []) ∧
    (⌊mulDouble (byteRate s) rate⌋₊
        ≠ (⌊mulDouble (sampleRate s) rate⌋₊ * blockAlign s) % 2 ^ 32 →
      ¬validHeader (srate_command mem rate flag0 s).out ∧
      (info_command (srate_command mem rate flag0 s).out).flag = 1 ∧
      (info_command (srate_command mem rate flag0 s).out).err = [Diag.byteRate] ∧
      (info_command (srate_command mem rate flag0 s).out).out = []) ∧
    (∀ n : Nat, (sampleRate s : ℚ) * rate = n → sampleRate s * blockAlign s < 2 ^ 32 →
      ⌊mulDouble (byteRate s) rate⌋₊
        = (⌊mulDouble (sampleRate s) rate⌋₊ * blockAlign s) % 2 ^ 32) := by
  have hA := srate_command_floor_rates mem rate flag0 s hv hfs hlen hr.le h1 h2
  have f1 := floor_mulDouble _ _ hr.le h1
  have f2 := floor_mulDouble _ _ hr.le h2
  have hout : (srate_command mem rate flag0 s).out
      = withRates s ⌊mulDouble (sampleRate s) rate⌋₊ ⌊mulDouble (byteRate s) rate⌋₊ :=
    hA.2.2.1
  have hI := withRates_info s _ _ hv hfs hlen f1.2.2.2 f2.2.2.2
  rw [hout]
  refine ⟨hI.1, hI.2, ?_⟩
  intro n hn hw
  have hbr := validHeader_byteRate s hv
  rw [Nat.mod_eq_of_lt hw] at hbr
  have e2 : (byteRate s : ℚ) * rate = ((n * blockAlign s : Nat) : ℚ) := by
    rw [hbr]; push_cast; rw [← hn]; ring
  have hn1 : (n : ℚ) < 2 ^ 32 := by rw [← hn]; exact f1.1
  have hn2 : ((n * blockAlign s : Nat) : ℚ) < 2 ^ 32 := by rw [← e2]; exact f2.1
  have hn1' : n < 2 ^ 32 := by exact_mod_cast hn1
  have hn2' : n * blockAlign s < 2 ^ 32 := by exact_mod_cast hn2
  have m1 : mulDouble (sampleRate s) rate = ((n : Int) : ℚ) :=
    mulDouble_of_int _ _ n (by push_cast; exact hn) (by
      rw [abs_of_nonneg (by positivity)]
      have : (n : Int) < 2 ^ 32 := by exact_mod_cast hn1'
      omega)
  have m2 : mulDouble (byteRate s) rate = (((n * blockAlign s : Nat) : Int) : ℚ) :=
    mulDouble_of_int _ _ (n * blockAlign s : Nat) (by push_cast; push_cast at e2; exact e2) (by
      rw [abs_of_nonneg (by positivity)]
      have : ((n * blockAlign s : Nat) : Int) < 2 ^ 32 := by exact_mod_cast hn2'
      omega)
  rw [m1, m2]
  simp only [Int.cast_natCast, Nat.floor_natCast]
  rw [Nat.mod_eq_of_lt hn2']

theorem srate_command_output_valid_iff_witness :
    validHeader minimalWav ∧ (0 : ℚ) < 3 / 2 ∧
    mulDouble (sampleRate minimalWav) (3 / 2) < 2 ^ 32 ∧
    validHeader (srate_command zeroMem (3 / 2) 0 minimalWav).out ∧
    (info_command (srate_command zeroMem (3 / 2) 0 minimalWav).out).flag = 0 :=
  have hs : sampleRate minimalWav = 8000 := by decide
  have hb : byteRate minimalWav = 8000 := by decide
  have hba : blockAlign minimalWav = 1 := by decide
  have m1 : mulDouble (sampleRate minimalWav) (3 / 2) = ((12000 : Int) : ℚ) :=
    mulDouble_of_int _ _ 12000 (by rw [hs]; norm_num) (by norm_num)
  have m2 : mulDouble (byteRate minimalWav) (3 / 2) = ((12000 : Int) : ℚ) :=
    mulDouble_of_int _ _ 12000 (by rw [hb]; norm_num) (by norm_num)
  have h1 : mulDouble (sampleRate minimalWav) (3 / 2) < 2 ^ 32 := by rw [m1]; norm_num
  have h2 : mulDouble (byteRate minimalWav) (3 / 2) < 2 ^ 32 := by rw [m2]; norm_num
  have h := (srate_command_output_valid_iff zeroMem (3 / 2) 0 minimalWav (by decide)
    (by decide) (by decide) (by norm_num) h1 h2)
  have he := h.2.2 12000 (by rw [hs]; norm_num) (by decide)
  ⟨by decide, by norm_num, h1, (h.1 he).1, (h.1 he).2.1⟩

theorem mysound_fields (sin : ℚ → ℚ) (dur sr : Int) (fm fc mi amp : ℚ)
    (hd : 0 ≤ dur) (hs : 0 ≤ sr) (hsr : sr < 2 ^ 31) (h : 2 * dur * sr + 36 < 2 ^ 31) :
    ((mysound sin dur sr fm fc mi amp).length : Int) = 44 + 2 * dur * sr ∧
    (((mysound sin dur sr fm fc mi amp).drop 44).length : Int) = 2 * (dur * sr) ∧
    tagAt (mysound sin dur sr fm fc mi amp) 0 = tagRIFF ∧
    tagAt (mysound sin dur sr fm fc mi amp) 8 = tagWAVE ∧
    tagAt (mysound sin dur sr fm fc mi amp) 12 = tagFMT ∧
    tagAt (mysound sin dur sr fm fc mi amp) 36 = tagDATA ∧
    fmtChunkSize (mysound sin dur sr fm fc mi amp) = 16 ∧
    audioFormat (mysound sin dur sr fm fc mi amp) = 1 ∧
    numChannels (mysound sin dur sr fm fc mi amp) = 1 ∧
    bitsPerSample (mysound sin dur sr fm fc mi amp) = 16 ∧
    (sampleRate (mysound sin dur sr fm fc mi amp) : Int) = sr ∧
    blockAlign (mysound sin dur sr fm fc mi amp) = 2 ∧
    (byteRate (mysound sin dur sr fm fc mi amp) : Int) = 2 * sr ∧
    (dataSize (mysound sin dur sr fm fc mi amp) : Int) = 2 * dur * sr ∧
    fileSize (mysound sin dur sr fm fc mi amp)
      = 36 + dataSize (mysound sin dur sr fm fc mi amp) ∧
    validHeader (mysound sin dur sr fm fc mi amp) := by
  have hp : 0 ≤ dur * sr := mul_nonneg hd hs
  have hl : 2 * dur * sr = dur * sr * 2 := by ring
  have a1 := u32_of_nonneg sr hs (by omega)
  have a2 := u32_of_nonneg (sr * 2) (by omega) (by omega)
  have a3 := u32_of_nonneg (dur * sr * 2) (by omega) (by omega)
  have a4 := u32_of_nonneg (dur * sr) hp (by omega)
  have hm : (36 + u32 (dur * sr * 2)) % 2 ^ 32 = 36 + u32 (dur * sr * 2) :=
    Nat.mod_eq_of_lt (by omega)
  rw [mysound_eq, hm]
  obtain ⟨f1, f2, f3, f4, f5, f6, f7, f8, f9, f10, f11, f12, f13⟩ :=
    mkHeader_fields (36 + u32 (dur * sr * 2)) 1 (u32 sr) (u32 (sr * 2)) 2 16
      (u32 (dur * sr * 2))
      ((List.range (u32 (dur * sr))).flatMap
        (fun i => write_d16 (mysound_sample sin sr fm fc mi amp i)))
  rw [show 1 % 2 ^ 16 = 1 by decide] at f7
  rw [show 2 % 2 ^ 16 = 2 by decide] at f10
  rw [show 16 % 2 ^ 16 = 16 by decide] at f11
  have hlen := length_flatMap_range (fun i => write_d16 (mysound_sample sin sr fm fc mi amp i))
    (fun i => rfl) (u32 (dur * sr))
  have hv := validHeader_of_fields _ f1 f3 f4 f12 f5 f6 (Or.inl f7)
    (by rw [f9, f8, f10, Nat.mod_eq_of_lt (show u32 (sr * 2) < 2 ^ 32 by omega),
      Nat.mod_eq_of_lt (show u32 sr < 2 ^ 32 by omega)]; omega)
    (Or.inr f11) (by rw [f10, f11, f7])
  refine ⟨?_, ?_, f1, f3, f4, f12, f5, f6, f7, f11, ?_, f10, ?_, ?_, ?_, hv⟩
  · rw [List.length_append, mkHeader_length, hlen]; push_cast; omega
  · rw [List.drop_append_eq_append_drop, mkHeader_length,
      List.drop_of_length_le (by rw [mkHeader_length]), Nat.sub_self, List.drop_zero,
      List.nil_append, hlen]
    push_cast; omega
  · rw [f8, Nat.mod_eq_of_lt (by omega)]; exact a1
  · rw [f9, Nat.mod_eq_of_lt (by omega)]; omega
  · rw [f13, Nat.mod_eq_of_lt (by omega)]; omega
  · rw [f2, f13, Nat.mod_eq_of_lt (by omega), Nat.mod_eq_of_lt (by omega)]

/-- C34: for every `dur ≥ 0` and `sr ≥ 0`, `sr` an `int`, with
`2 * dur * sr + 36 < 2^31` and every `fm`, `fc`, `mi`, `amp`, `info_command`
applied to the complete output of `mysound` returns with the flag at 0 and no
diagnostic, having read the whole stream, and prints the nine lines of its
report with `size of file` equal to `36 + 2 * dur * sr`, `size of data chunk`
equal to `2 * dur * sr`, the sample rate `sr`, the byte rate `2 * sr` and the
fixed values 16, 1, 1, 2 and 16. -/
theorem info_command_mysound (sin : ℚ → ℚ) (dur sr : Int) (fm fc mi amp : ℚ)
    (hd : 0 ≤ dur) (hs : 0 ≤ sr) (hsr : sr < 2 ^ 31) (h : 2 * dur * sr + 36 < 2 ^ 31) :
    (info_command (mysound sin dur sr fm fc mi amp)).flag = 0 ∧
    (info_command (mysound sin dur sr fm fc mi amp)).err = [] ∧
    (info_command (mysound sin dur sr fm fc mi amp)).rest = [] ∧
    (info_command (mysound sin dur sr fm fc mi amp)).out =
      strBytes ("size of file: " ++ toString (36 + 2 * dur * sr).toNat ++ "\n") ++
      strBytes "size of format chunk: 16\n" ++
      strBytes "WAVE type format: 1\n" ++
      strBytes "mono/stereo: 1\n" ++
      strBytes ("sample rate: " ++ toString sr.toNat ++ "\n") ++
      strBytes ("byte/sec: " ++ toString (2 * sr).toNat ++ "\n") ++
      strBytes "block align: 2\n" ++
      strBytes "bits/sample: 16\n" ++
      strBytes ("size of data chunk: " ++ toString (2 * dur * sr).toNat ++ "\n") := by
  obtain ⟨f0, _, _, _, _, _, f5, f6, f7, f11, f8, f10, f9, f13, f2, hv⟩ :=
    mysound_fields sin dur sr fm fc mi amp hd hs hsr h
  have hp : 0 ≤ dur * sr := mul_nonneg hd hs
  have hl : 2 * dur * sr = 2 * (dur * sr) := by ring
  have g8 : sampleRate (mysound sin dur sr fm fc mi amp) = sr.toNat := by omega
  have g9 : byteRate (mysound sin dur sr fm fc mi amp) = (2 * sr).toNat := by omega
  have g13 : dataSize (mysound sin dur sr fm fc mi amp) = (2 * dur * sr).toNat := by omega
  have g2 : fileSize (mysound sin dur sr fm fc mi amp) = (36 + 2 * dur * sr).toNat := by omega
  have e := info_command_of_valid (mysound sin dur sr fm fc mi amp) hv (by omega) (by omega)
  rw [e]
  simp only [info_report, List.flatMap_cons, List.flatMap_nil, List.append_nil, f5, f6, f7,
    f10, f11, g8, g9, g13, g2, List.append_assoc]
  exact ⟨trivial, trivial, trivial, rfl⟩

theorem info_command_mysound_witness :
    (info_command (mysound (fun x => x) 1 8000 0 440 0 1000)).flag = 0 ∧
    (info_command (mysound (fun x => x) 1 8000 0 440 0 1000)).err = [] :=
  ⟨(info_command_mysound (fun x => x) 1 8000 0 440 0 1000 (by decide) (by decide) (by decide)
      (by decide)).1,
   (info_command_mysound (fun x => x) 1 8000 0 440 0 1000 (by decide) (by decide) (by decide)
      (by decide)).2.1⟩

theorem firstFailing_byteRate (s : List Byte)
    (hf : ∀ c : Check, c ≠ Check.byteRate → c.fails s = false)
    (hb : Check.byteRate.fails s = true) : firstFailing s = some Check.byteRate := by
  simp [firstFailing, Check.order, List.find?, hf Check.riff, hf Check.wave, hf Check.fmt,
    hf Check.fmtSize, hf Check.audioFormat, hf Check.channels, hb]

theorem schannel_output_info (mem : Nat → Byte) (channel flag0 : Int) (s : List Byte)
    (hacc : (schannel_command mem channel flag0 s).err = []) (hst : numChannels s = 2) :
    (validHeader (schannel_command mem channel flag0 s).out ↔
      (sampleRate s * (blockAlign s / 2)) % 2 ^ 32 < 2 ^ 31) ∧
    (validHeader (schannel_command mem channel flag0 s).out →
      (info_command (schannel_command mem channel flag0 s).out).flag = 0 ∧
      (info_command (schannel_command mem channel flag0 s).out).err = []) ∧
    (¬validHeader (schannel_command mem channel flag0 s).out →
      (info_command (schannel_command mem channel flag0 s).out).flag = 1 ∧
      (info_command (schannel_command mem channel flag0 s).out).err = [Diag.byteRate]) := by
  obtain ⟨hv, hl, e⟩ := schannel_command_accepted mem channel flag0 s hacc
  obtain ⟨_, _, _, _, _, _, _, hbits, hba⟩ := validHeader_tags s hv
  have hbr := validHeader_byteRate s hv
  have hsr : sampleRate s < 2 ^ 32 := u32At_lt s 24
  have hds : dataSize s < 2 ^ 32 := u32At_lt s 40
  have hbrl : byteRate s < 2 ^ 32 := u32At_lt s 28
  rw [e]
  simp only []
  obtain ⟨f1, f2, f3, f4, f5, f6, f7, f8, f9, f10, f11, f12, f13⟩ :=
    mkHeader_fields (36 + dataSize s / 2) 1 (sampleRate s) (byteRate s / 2) (blockAlign s / 2)
      (bitsPerSample s) (dataSize s / 2) (channelData mem channel s)
  rw [hst] at hba
  have hq : blockAlign s / 2 = bitsPerSample s / 8 := by omega
  have hb2 : blockAlign s = 2 * (blockAlign s / 2) := by omega
  rw [Nat.mod_eq_of_lt (by omega)] at f2 f7 f8 f9 f10 f11 f13
  have hP : sampleRate s * blockAlign s = 2 * (sampleRate s * (blockAlign s / 2)) := by
    conv_lhs => rw [hb2]
    ring
  rw [hP] at hbr
  obtain ⟨P, hPd⟩ : ∃ P, P = sampleRate s * (blockAlign s / 2) := ⟨_, rfl⟩
  rw [← hPd] at hbr ⊢
  have hiff : byteRate s / 2 = P % 2 ^ 32 ↔ P % 2 ^ 32 < 2 ^ 31 := by omega
  have hfails : ∀ c : Check, c ≠ Check.byteRate →
      c.fails (mkHeader (36 + dataSize s / 2) 1 (sampleRate s) (byteRate s / 2)
        (blockAlign s / 2) (bitsPerSample s) (dataSize s / 2) ++ channelData mem channel s)
        = false := by
    intro c hc
    cases c
    · simp [Check.fails, f1]
    · simp [Check.fails, f3]
    · simp [Check.fails, f4]
    · simp [Check.fails, f5]
    · simp [Check.fails, f6]
    · simp [Check.fails, f7]
    · exact absurd rfl hc
    · simp only [Check.fails, decide_eq_false_iff_not, f11]; omega
    · simp only [Check.fails, decide_eq_false_iff_not, ne_eq, not_not, f10, f11, f7]; omega
    · simp [Check.fails, f12]
  have hbrf : Check.byteRate.fails (mkHeader (36 + dataSize s / 2) 1 (sampleRate s)
      (byteRate s / 2) (blockAlign s / 2) (bitsPerSample s) (dataSize s / 2)
        ++ channelData mem channel s) = decide (¬byteRate s / 2 = P % 2 ^ 32) := by
    simp only [Check.fails, f9, f8, f10, ← hPd, ne_eq]
  have hvalid : validHeader (mkHeader (36 + dataSize s / 2) 1 (sampleRate s)
      (byteRate s / 2) (blockAlign s / 2) (bitsPerSample s) (dataSize s / 2)
        ++ channelData mem channel s) ↔ P % 2 ^ 32 < 2 ^ 31 := by
    rw [validHeader_iff, ← hiff]
    constructor
    · intro h
      have := h Check.byteRate
      rw [hbrf] at this
      simpa using this
    · intro h c
      by_cases hc : c = Check.byteRate
      · subst hc
        rw [hbrf]
        exact decide_eq_false (not_not.2 h)
      · exact hfails c hc
  refine ⟨hvalid, ?_, ?_⟩
  · intro h
    have e2 := info_command_of_valid _ h (by rw [f13, f2]) (by
      rw [List.length_append, mkHeader_length, channelData_length, f2]; omega)
    rw [e2]
    exact ⟨rfl, rfl⟩
  · intro h
    have hne : ¬byteRate s / 2 = P % 2 ^ 32 := fun h2 => h (hvalid.2 (hiff.1 h2))
    have hbt : Check.byteRate.fails (mkHeader (36 + dataSize s / 2) 1 (sampleRate s)
        (byteRate s / 2) (blockAlign s / 2) (bitsPerSample s) (dataSize s / 2)
          ++ channelData mem channel s) = true := by
      rw [hbrf]; exact decide_eq_true hne
    have hff := firstFailing_byteRate _ hfails hbt
    rw [info_command_eq, hff]
    exact ⟨rfl, rfl⟩

/-- C32 (the code at the failing input): the stereo 8-bit header with
`sampleRate = 2^31`, `blockAlign = 2` and `byteRate = 0` passes the validation
(the product wraps to 0) and `schannel_command` accepts the file; its output
has `sampleRate = 2^31`, `blockAlign = 1` and `byteRate = 0`, and
`info_command` rejects it with the byte-rate diagnostic.  In general the output
of `schannel_command` on an accepted stereo input passes the validation exactly
when `sampleRate * (blockAlign / 2)`, reduced modulo `2^32`, is below `2^31`. -/
theorem schannel_command_output_rejected :
    (validHeader wrapStereoWav ∧ numChannels wrapStereoWav = 2 ∧
      sampleRate wrapStereoWav = 2 ^ 31 ∧ blockAlign wrapStereoWav = 2 ∧
      byteRate wrapStereoWav = 0 ∧
      (schannel_command zeroMem 0 0 wrapStereoWav).flag = 0 ∧
      (schannel_command zeroMem 0 0 wrapStereoWav).err = [] ∧
      (schannel_command zeroMem 0 0 wrapStereoWav).out
        = mkHeader 38 1 (2 ^ 31) 0 1 8 2 ++ [10, 0] ∧
      (info_command (schannel_command zeroMem 0 0 wrapStereoWav).out).flag = 1 ∧
      (info_command (schannel_command zeroMem 0 0 wrapStereoWav).out).err
        = [Diag.byteRate]) ∧
    ∀ (mem : Nat → Byte) (channel flag0 : Int) (s : List Byte),
      (schannel_command mem channel flag0 s).err = [] → numChannels s = 2 →
      ((info_command (schannel_command mem channel flag0 s).out).err = [] ↔
        (sampleRate s * (blockAlign s / 2)) % 2 ^ 32 < 2 ^ 31) := by
  refine ⟨by decide, ?_⟩
  intro mem channel flag0 s hacc hst
  obtain ⟨h1, h2, h3⟩ := schannel_output_info mem channel flag0 s hacc hst
  rw [← h1]
  constructor
  · intro h
    by_contra hn
    rw [(h3 hn).2] at h
    exact absurd h (by simp)
  · exact fun h => (h2 h).2

/-! ## Memory safety of the 16-bit sample transforms -/

theorem read_Channel_16bit_cells_mem (size fuel i j : Nat) :
    j ∈ read_Channel_16bit_cells size fuel i ↔
      ∃ t, t < fuel ∧ i + 2 * t < size ∧ (j = i + 2 * t ∨ j = i + 2 * t + 1) := by
  induction fuel generalizing i with
  | zero => simp [read_Channel_16bit_cells]
  | succ n ih =>
    unfold read_Channel_16bit_cells
    by_cases hi : i < size
    · rw [if_pos hi, List.mem_cons, List.mem_cons, ih]
      constructor
      · rintro (h | h | ⟨t, ht, hb, hj⟩)
        · exact ⟨0, by omega, by omega, Or.inl (by omega)⟩
        · exact ⟨0, by omega, by omega, Or.inr (by omega)⟩
        · exact ⟨t + 1, by omega, by omega, by omega⟩
      · rintro ⟨t, ht, hb, hj⟩
        cases t with
        | zero => omega
        | succ u => exact Or.inr (Or.inr ⟨u, by omega, by omega, by omega⟩)
    · rw [if_neg hi]
      simp only [List.not_mem_nil, false_iff, not_exists, not_and]
      intro t _ hb
      omega

theorem set_Volume16bit_cells_eq (size fuel i : Nat) :
    set_Volume16bit_cells size fuel i = read_Channel_16bit_cells size fuel i := by
  induction fuel generalizing i with
  | zero => rfl
  | succ n ih =>
    unfold set_Volume16bit_cells read_Channel_16bit_cells
    rw [ih]

theorem touched_overflow :
    (∀ (size : Nat) (channel : Int), channel ≠ 0 → 2 ≤ size / 2 → (size / 2) % 2 = 0 →
      size / 2 ∈ read_Channel_16bit_touched size channel) ∧
    (∀ size : Nat, (size / 2) % 2 = 1 → size / 2 ∈ read_Channel_16bit_touched size 0) ∧
    (∀ size : Nat, size % 2 = 1 → size ∈ set_Volume16bit_touched size) ∧
    (∀ (size : Nat) (channel : Int) (j : Nat), j ∈ read_Channel_16bit_touched size channel →
      j ≤ size / 2) ∧
    (∀ (size j : Nat), j ∈ set_Volume16bit_touched size → j ≤ size) ∧
    (∀ (size j : Nat), size % 2 = 0 → j ∈ set_Volume16bit_touched size → j < size) := by
  refine ⟨?_, ?_, ?_, ?_, ?_, ?_⟩
  · intro size channel hc h2 hev
    rw [read_Channel_16bit_touched, if_neg hc, read_Channel_16bit_cells_mem]
    exact ⟨(size / 2 - 2) / 2, by omega, by omega, Or.inr (by omega)⟩
  · intro size hodd
    rw [read_Channel_16bit_touched, if_pos rfl, read_Channel_16bit_cells_mem]
    exact ⟨(size / 2 - 1) / 2, by omega, by omega, Or.inr (by omega)⟩
  · intro size hodd
    rw [set_Volume16bit_touched, set_Volume16bit_cells_eq, read_Channel_16bit_cells_mem]
    exact ⟨(size - 1) / 2, by omega, by omega, Or.inr (by omega)⟩
  · intro size channel j hj
    rw [read_Channel_16bit_touched, read_Channel_16bit_cells_mem] at hj
    obtain ⟨t, _, hb, hj⟩ := hj
    omega
  · intro size j hj
    rw [set_Volume16bit_touched, set_Volume16bit_cells_eq, read_Channel_16bit_cells_mem] at hj
    obtain ⟨t, _, hb, hj⟩ := hj
    omega
  · intro size j hev hj
    rw [set_Volume16bit_touched, set_Volume16bit_cells_eq, read_Channel_16bit_cells_mem] at hj
    obtain ⟨t, _, hb, hj⟩ := hj
    omega

/-- C36 (the code at the failing inputs): on the stereo 16-bit file with a
payload of 8 bytes, accepted by `schannel_command`, the extraction of the
right channel touches the cells 1, 2, 3, 4 of a buffer of `8 / 2 = 4` cells:
the cell 4 is written past its end.  On the mono 16-bit file with a payload of
3 bytes, accepted by `svolume_command`, `set_Volume16bit` touches the cells
0, 1, 2, 3 of buffers of 3 cells: the cell 3 is read and written past the end.
In general `read_Channel_16bit` touches the cell `size / 2` for the right
channel whenever `size / 2` is even and at least 2, and for the left channel
whenever `size / 2` is odd, and `set_Volume16bit` touches the cell `size`
whenever `size` is odd. -/
theorem sample_transforms_overflow :
    (validHeader stereo16Wav ∧ bitsPerSample stereo16Wav = 16 ∧ dataSize stereo16Wav = 8 ∧
      (schannel_command zeroMem 1 0 stereo16Wav).err = [] ∧
      read_Channel_16bit_touched (dataSize stereo16Wav) 1 = [1, 2, 3, 4] ∧
      dataSize stereo16Wav / 2 = 4 ∧
      validHeader oddPayloadWav ∧ bitsPerSample oddPayloadWav = 16 ∧
      dataSize oddPayloadWav = 3 ∧
      (svolume_command zeroMem 1 0 oddPayloadWav).err = [] ∧
      set_Volume16bit_touched (dataSize oddPayloadWav) = [0, 1, 2, 3]) ∧
    (∀ (size : Nat) (channel : Int), channel ≠ 0 → 2 ≤ size / 2 → (size / 2) % 2 = 0 →
      size / 2 ∈ read_Channel_16bit_touched size channel) ∧
    (∀ size : Nat, (size / 2) % 2 = 1 → size / 2 ∈ read_Channel_16bit_touched size 0) ∧
    (∀ size : Nat, size % 2 = 1 → size ∈ set_Volume16bit_touched size) := by
  exact ⟨by decide, touched_overflow.1, touched_overflow.2.1, touched_overflow.2.2.1⟩

/-! ## Release of the buffers -/

theorem releasedOnce_ite (c : Prop) [Decidable c] (a b : List HeapEvent)
    (ha : releasedOnce a) (hb : releasedOnce b) : releasedOnce (if c then a else b) := by
  split_ifs
  · exact ha
  · exact hb

theorem play_loop_heap_eq (drv : Driver) (size fuel steps k : Nat) :
    play_loop_heap drv size fuel steps k = play_sound_frees := by
  induction fuel generalizing steps k with
  | zero => rfl
  | succ n ih =>
    unfold play_loop_heap
    simp only [ih]
    split_ifs <;> rfl

theorem info_command_heap_released (s : List Byte) : releasedOnce (info_command_heap s) := by
  unfold info_command_heap
  simp only []
  repeat' apply releasedOnce_ite
  all_goals decide

theorem srate_command_heap_released (s : List Byte) : releasedOnce (srate_command_heap s) := by
  unfold srate_command_heap
  simp only []
  repeat' apply releasedOnce_ite
  all_goals decide

theorem schannel_command_heap_released (s : List Byte) :
    releasedOnce (schannel_command_heap s) := by
  unfold schannel_command_heap
  simp only []
  repeat' apply releasedOnce_ite
  all_goals decide

theorem svolume_command_heap_released (s : List Byte) :
    releasedOnce (svolume_command_heap s) := by
  unfold svolume_command_heap
  simp only []
  repeat' apply releasedOnce_ite
  all_goals decide

theorem play_sound_heap_released (drv : Driver) (s : List Byte) :
    releasedOnce (play_sound_heap drv s) := by
  unfold play_sound_heap
  simp only [play_loop_heap_eq]
  repeat' apply releasedOnce_ite
  all_goals decide

theorem releasedOnce_examples :
    releasedOnce [HeapEvent.malloc Buf.RIFF, HeapEvent.malloc Buf.WAVE, HeapEvent.free Buf.RIFF,
      HeapEvent.free Buf.WAVE] ∧
    ¬releasedOnce [HeapEvent.malloc Buf.RIFF, HeapEvent.malloc Buf.WAVE,
      HeapEvent.free Buf.RIFF] ∧
    ¬releasedOnce [HeapEvent.malloc Buf.RIFF, HeapEvent.free Buf.RIFF,
      HeapEvent.free Buf.RIFF] ∧
    ¬releasedOnce [HeapEvent.free Buf.RIFF, HeapEvent.malloc Buf.RIFF] := by
  decide

/-- C31: on every path through `info_command`, `srate_command`,
`schannel_command`, `svolume_command` and `play_sound` (every error return and
the normal return, for every input and every behaviour of the device), the
calls of `malloc` and `free` the command has made when it returns release
every buffer it allocated exactly once, after its allocation, and release
nothing else; `malloc` is taken to succeed. -/
theorem buffers_released_once (drv : Driver) (s : List Byte) :
    releasedOnce (info_command_heap s) ∧ releasedOnce (srate_command_heap s) ∧
    releasedOnce (schannel_command_heap s) ∧ releasedOnce (svolume_command_heap s) ∧
    releasedOnce (play_sound_heap drv s) :=
  ⟨info_command_heap_released s, srate_command_heap_released s,
   schannel_command_heap_released s, svolume_command_heap_released s,
   play_sound_heap_released drv s⟩

end Soundwave
